import Mathlib

/-!
# strsepf: a shallow embedding of `src/strsepf.h`

The C functions `strtou32_s`, `strto32_s` and `vstrsepf` are translated into Lean
functions over lists of characters.

* A C string is a `List Char`; one `Char` stands for one `char` of the C program.
  Reading through a pointer that has reached the end of the list yields NUL, so every
  list is implicitly NUL-terminated, and a NUL inside the list ends the string there.
* A pointer into the read-only format string is the suffix of the format it points to.
* The mutable input buffer is kept as two lists: the bytes before the cursor `mutStr`
  (with the NULs already written) and the bytes from the cursor on.
* The variadic arguments are a list of optional slot addresses (`none` is a NULL pointer);
  every store through an output pointer is appended to a log.
* The width of `unsigned long` (and `long`) is a parameter `w` of the embedding.
-/

namespace Strsepf

/-! ## Result codes (`strsepf_result`) -/

def STRSEPF_RESULT_ERR_STRTOI_OUT_OF_RANGE : Int := -8
def STRSEPF_RESULT_ERR_STRTOI_EXTRA_CHAR : Int := -7
def STRSEPF_RESULT_ERR_STRTOI_NOT_A_DECIMAL : Int := -6
def STRSEPF_RESULT_ERR_TOKEN_IS_BIGGER_THAN_WIDTH : Int := -5
def STRSEPF_RESULT_ERR_INPUT_DOESNT_MATCH_FORMAT : Int := -4
def STRSEPF_RESULT_ERR_INVALID_FORMAT : Int := -3
def STRSEPF_RESULT_ERR_INVALID_ARGS : Int := -2
def STRSEPF_RESULT_ERR_INVALID_PARAMETER : Int := -1
def STRSEPF_RESULT_OK : Int := 0

/-! ## Machine integers -/

/-- Largest value of an `unsigned long` of `w` bits. -/
def ULONG_MAX (w : Nat) : Nat := 2 ^ w - 1

def UINT32_MAX : Nat := 4294967295
def INT32_MAX : Int := 2147483647
def INT32_MIN : Int := -2147483648

/-- Conversion of an unsigned value of `w` bits to the signed type of the same width
(two's complement), as in `const long sl = strtoul(...)`. -/
def toSigned (w : Nat) (u : Nat) : Int :=
  if u % 2 ^ w < 2 ^ (w - 1) then ((u % 2 ^ w : Nat) : Int)
  else ((u % 2 ^ w : Nat) : Int) - ((2 ^ w : Nat) : Int)

/-- Conversion of an integer to `uint32_t`. -/
def toUInt32 (n : Nat) : Nat := n % 4294967296

/-- Conversion of an integer to `int32_t` (two's complement wrap-around). -/
def toInt32 (z : Int) : Int := (z + 2147483648) % 4294967296 - 2147483648

/-- Conversion of an integer to `int16_t` (two's complement wrap-around), the return type
of `vstrsepf`. -/
def toInt16 (z : Int) : Int := (z + 32768) % 65536 - 32768

/-! ## C library functions used by the code -/

/-- The character read through a `char*`: the head of the list, NUL at its end. -/
def deref (p : List Char) : Char := p.headD '\x00'

/-- Content of the C string at `p`: the characters before the first NUL. -/
def cstr (p : List Char) : List Char := p.takeWhile (fun c => c != '\x00')

/-- C library `strlen`. -/
def strlen (p : List Char) : Nat := (cstr p).length

/-- C library `isdigit`. -/
def isdigit (c : Char) : Bool := decide ('0' ≤ c) && decide (c ≤ '9')

/-- C library `isspace` in the "C" locale. -/
def isspace (c : Char) : Bool :=
  c == ' ' || c == '\t' || c == '\n' || c == '\x0b' || c == '\x0c' || c == '\r'

/-- Value of a character as a digit of `strtoul`: `0`-`9`, then the letters in either
case counting from 10; 36 for every other character. -/
def digitValue (c : Char) : Nat :=
  if '0' ≤ c ∧ c ≤ '9' then c.toNat - '0'.toNat
  else if 'a' ≤ c ∧ c ≤ 'z' then c.toNat - 'a'.toNat + 10
  else if 'A' ≤ c ∧ c ≤ 'Z' then c.toNat - 'A'.toNat + 10
  else 36

/-- Whether `c` is a digit of the given base. -/
def isDigitOf (base : Nat) (c : Char) : Bool := decide (digitValue c < base)

/-- Value of a run of digits, most significant first. -/
def digitsValue (base : Nat) (ds : List Char) : Nat :=
  ds.foldl (fun acc c => acc * base + digitValue c) 0

/-- What a call of `strtoul` yields: the returned value, the number of characters from
`nptr` to `*endptr`, and whether `errno` was set to `ERANGE`. -/
structure StrtoulResult where
  value : Nat
  consumed : Nat
  erange : Bool
deriving DecidableEq

/-- Sign of the subject sequence: whether it is negative and how many characters the sign
takes. -/
def strtoulSign (s : List Char) : Bool × Nat :=
  match s with
  | '-' :: _ => (true, 1)
  | '+' :: _ => (false, 1)
  | _ => (false, 0)

/-- Length of the optional `0x`/`0X` of a base-16 subject sequence: 2 when it is there and
a hexadecimal digit follows it, else 0. -/
def strtoulHex (base : Nat) (s : List Char) : Nat :=
  match s with
  | '0' :: x :: h :: _ => if base = 16 ∧ (x = 'x' ∨ x = 'X') ∧ isDigitOf 16 h then 2 else 0
  | _ => 0

/-- C library `strtoul(nptr, &endptr, base)` for `2 ≤ base ≤ 36` (ISO C 7.22.1.4, "C"
locale): white space is skipped, an optional sign and, in base 16, an optional `0x` are
accepted, then the longest run of digits of the base is converted. With no digit nothing is
consumed and 0 is returned. A value above `ULONG_MAX` gives `ULONG_MAX` and `ERANGE`; a
leading minus sign negates the value in the unsigned type. The standard describes no
other base: for one the C library converts nothing (value 0, nothing consumed) and need
not store `*endptr`, so `consumed` then stands for no pointer that the caller may read.
What is proved about the callers of `strtoul` is therefore stated for bases 2 to 36, which
include the bases 10, 16, 8 and 2 that `vstrsepf` passes. -/
def strtoul (w : Nat) (nptr : List Char) (base : Nat) : StrtoulResult :=
  if base < 2 ∨ 36 < base then ⟨0, 0, false⟩ else
  let nspace := (nptr.takeWhile isspace).length
  let s1 := nptr.drop nspace
  let sign := strtoulSign s1
  let s2 := s1.drop sign.2
  let nhex := strtoulHex base s2
  let s3 := s2.drop nhex
  let digits := s3.takeWhile (isDigitOf base)
  if digits = [] then ⟨0, 0, false⟩ else
  let v := digitsValue base digits
  let consumed := nspace + sign.2 + nhex + digits.length
  if v > ULONG_MAX w then ⟨ULONG_MAX w, consumed, true⟩
  else ⟨if sign.1 then (2 ^ w - v) % 2 ^ w else v, consumed, false⟩

/-! ## Helper functions of `strsepf.h` -/

/-- String to uint32 utility (`strtou32_s`, lines 344-375). `buff` is `none` for a NULL
pointer; `err` is `none` for a NULL pointer and otherwise holds the content of `*err`
before the call. The result is the returned value and the content of `*err` after the call
(`none` when there is no `*err`). The code compares `end`, declared without a value, with
`buff` after the call of `strtoul`: the definition describes the call for the bases at
which `strtoul` stores `end` (2 to 36) and for the calls that return before it (NULL
pointers, base 0). -/
def strtou32_s (w : Nat) (buff : Option (List Char)) (base : Nat) (err : Option Int) :
    Nat × Option Int :=
  match err with
  | none => (0, none)
  | some _ =>
    match buff with
    | none => (0, some STRSEPF_RESULT_ERR_INVALID_PARAMETER)
    | some b =>
      if base = 0 then (0, some STRSEPF_RESULT_ERR_INVALID_PARAMETER) else
      let r := strtoul w b base
      let ul := r.value
      let e :=
        if r.consumed = 0 then STRSEPF_RESULT_ERR_STRTOI_NOT_A_DECIMAL
        else if '\x00' ≠ deref (b.drop r.consumed) then STRSEPF_RESULT_ERR_STRTOI_EXTRA_CHAR
        else if r.erange then STRSEPF_RESULT_ERR_STRTOI_OUT_OF_RANGE
        else if ul > UINT32_MAX then STRSEPF_RESULT_ERR_STRTOI_OUT_OF_RANGE
        else STRSEPF_RESULT_OK
      (toUInt32 ul, some e)

/-- String to int32 utility (`strto32_s`, lines 380-414): the value of `strtoul` is
stored in a `long` before the range checks. Arguments, result and bases as for
`strtou32_s`. -/
def strto32_s (w : Nat) (buff : Option (List Char)) (base : Nat) (err : Option Int) :
    Int × Option Int :=
  match err with
  | none => (0, none)
  | some _ =>
    match buff with
    | none => (0, some STRSEPF_RESULT_ERR_INVALID_PARAMETER)
    | some b =>
      if base = 0 then (0, some STRSEPF_RESULT_ERR_INVALID_PARAMETER) else
      let r := strtoul w b base
      let sl := toSigned w r.value
      let e :=
        if r.consumed = 0 then STRSEPF_RESULT_ERR_STRTOI_NOT_A_DECIMAL
        else if '\x00' ≠ deref (b.drop r.consumed) then STRSEPF_RESULT_ERR_STRTOI_EXTRA_CHAR
        else if r.erange then STRSEPF_RESULT_ERR_STRTOI_OUT_OF_RANGE
        else if sl > INT32_MAX then STRSEPF_RESULT_ERR_STRTOI_OUT_OF_RANGE
        else if sl < INT32_MIN then STRSEPF_RESULT_ERR_STRTOI_OUT_OF_RANGE
        else STRSEPF_RESULT_OK
      (toInt32 sl, some e)

/-! ## The token extractor -/

/-- The pointer `mutStr` into the input buffer: `pre` holds the bytes of the buffer before
the pointer, `rest` the bytes from the pointer on. The pointer's offset from the start of
the buffer is `pre.length` and the whole buffer is `pre ++ rest`. -/
structure Cursor where
  pre : List Char
  rest : List Char
deriving DecidableEq

/-- The whole buffer a cursor points into. -/
def Cursor.buffer (p : Cursor) : List Char := p.pre ++ p.rest

/-- Pointer increment `mutStr++`. -/
def Cursor.advance (p : Cursor) : Cursor := ⟨p.pre ++ p.rest.take 1, p.rest.drop 1⟩

/-- A token: a `char*` into the buffer, given by its offset `off` from the start of the
buffer, together with `str`, the content of the C string found there. -/
structure Token where
  off : Nat
  str : List Char
deriving DecidableEq

/-- Modelled from the spec: `strsep` of `strsep.h`, a file of the repository that is not
among the sources. Called with the delimiter set made of the single character `delim`
("the terminator is the single literal character immediately following the specifier"),
it has to "split the input at the first occurrence of that character: the token is
everything before it, that character is overwritten with a terminating marker, and the
input cursor advances past it. If the terminator character does not occur anywhere in the
remaining input, the token is the entire remainder of the input (not an error) and the
input cursor moves to end". The result is the token and the new value of `*stringp`;
there is no token (a NULL result) only when `*stringp` is NULL. (The BSD function of this
name leaves NULL in `*stringp` when no delimiter is found; the words of the spec are
followed here, and what depends on that case says so.) -/
def strsep (stringp : Option Cursor) (delim : Char) : Option (Token × Cursor) :=
  match stringp with
  | none => none
  | some p =>
    let s := cstr p.rest
    let tok := s.takeWhile (fun c => c != delim)
    if tok.length < s.length then
      some (⟨p.pre.length, tok⟩, ⟨p.pre ++ tok ++ ['\x00'], p.rest.drop (tok.length + 1)⟩)
    else
      some (⟨p.pre.length, s⟩, ⟨p.pre ++ s, p.rest.drop s.length⟩)

/-! ## The format scanner -/

/-- The characters of `SUPPORTED_SPECIFIER`. -/
def SUPPORTED_SPECIFIER : List Char := ['d', 'i', 'b', 'o', 'u', 'x', 's']

/-- The locals of `vstrsepf` that describe one specifier. -/
structure Spec where
  specifierType : Char
  noAssignFlag : Bool
  width : Nat
deriving DecidableEq

/-- How the `for` loop over the body of a specifier (lines 217-241) ends. -/
inductive Scan where
  /-- The loop is left, by `break` or by its condition, with these locals and this `fmt`. -/
  | done (sp : Spec) (fmt : List Char)
  /-- The loop body returns `STRSEPF_RESULT_ERR_INVALID_FORMAT`. -/
  | invalid
  /-- The iteration bound of the embedding is used up. -/
  | fuel
deriving DecidableEq

/-- The `for` loop of lines 217-241, started with the given locals; the first argument
bounds the number of iterations. In the width branch `tc` is `fmt` on entry, the inner
loop moves `fmt` over `k` digits, `fmt--` steps back to `tc + (k - 1)` and the increment
of the `for` loop then moves to `tc + (k - 1 + 1)`. The local `err` is uninitialised in
the source; `strtou32_s` overwrites it on every path. -/
def scanSpecifier (w : Nat) : Nat → List Char → Spec → Scan
  | 0, _, _ => .fuel
  | n + 1, fmt, sp =>
    if deref fmt = '\x00' then .done sp fmt
    else if deref fmt ∈ SUPPORTED_SPECIFIER then
      .done { sp with specifierType := deref fmt } fmt.tail
    else if deref fmt = '*' then
      scanSpecifier w n fmt.tail { sp with noAssignFlag := true }
    else if '1' ≤ deref fmt ∧ deref fmt ≤ '9' then
      let tc := fmt
      let k := (fmt.takeWhile isdigit).length
      let r := strtou32_s w (some tc) 10 (some STRSEPF_RESULT_OK)
      if r.2 ≠ some STRSEPF_RESULT_ERR_STRTOI_EXTRA_CHAR then .invalid
      else scanSpecifier w n (tc.drop (k - 1 + 1)) { sp with width := r.1 }
    else .invalid

/-! ## The driver -/

/-- A value stored through an output pointer: a `char*` into the buffer (as an offset
from its start), a `uint32_t` or an `int32_t`. -/
inductive Value where
  | str (off : Nat)
  | u32 (v : Nat)
  | i32 (v : Int)
deriving DecidableEq

/-- An entry of the history of a call: the type and the suppress flag of a specifier for
which a token has been extracted. -/
structure Processed where
  specifierType : Char
  noAssignFlag : Bool
deriving DecidableEq

/-- The state of a call of `vstrsepf`. `arg` is what is left of the `va_list`, each entry
the address of an output slot or `none` for NULL. `stores` logs every store through an
output pointer, oldest first. `specs` is a history variable the code does not have: the
specifiers for which a token has been extracted, oldest first. -/
structure State where
  mutStr : Cursor
  fmt : List Char
  arg : List (Option Nat)
  count : Nat
  stores : List (Nat × Value)
  specs : List Processed
deriving DecidableEq

/-- Effect of one pass through the body of the `while` loop. -/
inductive Step where
  /-- The body ends or reaches `continue`. -/
  | next (st : State)
  /-- The function returns `rc`. -/
  | ret (rc : Int) (st : State)
  /-- The code calls `va_arg` with no argument left: undefined behaviour. -/
  | undef (st : State)
  /-- The iteration bound of the embedding is used up. -/
  | fuel
deriving DecidableEq

/-- Tokenisation (lines 247-262) for a specifier after which the format continues with
`fmt`: the token, the new `mutStr` and the new `fmt`; `none` when `strsep` returns NULL.
The first branch is the one of `continueUntilTheEnd`. -/
def tokenise (mutStr : Cursor) (fmt : List Char) : Option (Token × Cursor × List Char) :=
  if deref fmt = '\x00' then
    some (⟨mutStr.pre.length, cstr mutStr.rest⟩, mutStr, fmt)
  else
    match strsep (some mutStr) (deref fmt) with
    | none => none
    | some (token, mutStr1) => some (token, mutStr1, fmt.tail)

/-- The base chosen for the specifier types `u`, `x`, `o`, `b` (lines 286-295). -/
def unsignedBase (specifierType : Char) : Nat :=
  if specifierType = 'u' then 10
  else if specifierType = 'x' then 16
  else if specifierType = 'o' then 8
  else if specifierType = 'b' then 2
  else 0

/-- Binding of a `%s` token (lines 276-283): the next argument is a `char**` and the
token's address is stored through it. -/
def bindString (st : State) (token : Token) : Step :=
  match st.arg with
  | [] => .undef st
  | none :: arg => .ret STRSEPF_RESULT_ERR_INVALID_ARGS { st with arg := arg }
  | some ptr :: arg =>
    .next { st with arg := arg, stores := st.stores ++ [(ptr, .str token.off)],
                    count := st.count + 1 }

/-- The store of a converted value `v` through the output pointer `ptr`, followed by the
test of `strtolErr` (lines 300-304 and 313-317): the store comes first, an error returns
before `count` is incremented. -/
def storeConverted (st : State) (arg : List (Option Nat)) (ptr : Nat) (v : Value)
    (strtolErr : Int) : Step :=
  if strtolErr < STRSEPF_RESULT_OK then
    .ret strtolErr { st with arg := arg, stores := st.stores ++ [(ptr, v)] }
  else
    .next { st with arg := arg, stores := st.stores ++ [(ptr, v)], count := st.count + 1 }

/-- The content of the local `strtolErr`, initialised to `STRSEPF_RESULT_OK`, after a
converter has been given its address. -/
def strtolErrAfter (err : Option Int) : Int := err.getD STRSEPF_RESULT_OK

/-- Conversion and binding of an unsigned token (lines 296-304). -/
def bindUnsigned (w : Nat) (st : State) (base : Nat) (token : Token) : Step :=
  match st.arg with
  | [] => .undef st
  | none :: arg => .ret STRSEPF_RESULT_ERR_INVALID_ARGS { st with arg := arg }
  | some ptr :: arg =>
    storeConverted st arg ptr
      (.u32 (strtou32_s w (some token.str) base (some STRSEPF_RESULT_OK)).1)
      (strtolErrAfter (strtou32_s w (some token.str) base (some STRSEPF_RESULT_OK)).2)

/-- Conversion and binding of a signed token (lines 308-317). -/
def bindSigned (w : Nat) (st : State) (base : Nat) (token : Token) : Step :=
  match st.arg with
  | [] => .undef st
  | none :: arg => .ret STRSEPF_RESULT_ERR_INVALID_ARGS { st with arg := arg }
  | some ptr :: arg =>
    storeConverted st arg ptr
      (.i32 (strto32_s w (some token.str) base (some STRSEPF_RESULT_OK)).1)
      (strtolErrAfter (strto32_s w (some token.str) base (some STRSEPF_RESULT_OK)).2)

/-- The conversion and binding of a token by the type of its specifier (lines 274-321);
`strtolErr` is initialised to `STRSEPF_RESULT_OK` and passed by address. -/
def scanToken (w : Nat) (st : State) (sp : Spec) (token : Token) : Step :=
  if sp.specifierType = 's' then bindString st token
  else if sp.specifierType ∈ ['u', 'x', 'o', 'b'] then
    bindUnsigned w st (unsignedBase sp.specifierType) token
  else if sp.specifierType ∈ ['d', 'i'] then bindSigned w st 10 token
  else .ret STRSEPF_RESULT_ERR_INVALID_FORMAT st

/-- The optional specifier logic (lines 264-272) followed by the conversion: a suppressed
specifier goes on to the next pass at once, a token longer than a non-zero width is an
error. -/
def bindToken (w : Nat) (st : State) (sp : Spec) (token : Token) : Step :=
  if sp.noAssignFlag then .next st
  else if sp.width > 0 ∧ sp.width < strlen token.str then
    .ret STRSEPF_RESULT_ERR_TOKEN_IS_BIGGER_THAN_WIDTH st
  else scanToken w st sp token

/-- A format specifier (lines 213-321), entered with `fmt` behind the `%`: the specifier is
scanned, its token extracted, then converted and bound. -/
def specifier (w : Nat) (st : State) (fmt : List Char) : Step :=
  match scanSpecifier w (fmt.length + 1) fmt ⟨'\x00', false, 0⟩ with
  | .fuel => .fuel
  | .invalid => .ret STRSEPF_RESULT_ERR_INVALID_FORMAT { st with fmt := fmt }
  | .done sp fmt2 =>
    if sp.specifierType = '\x00' then
      .ret STRSEPF_RESULT_ERR_INVALID_FORMAT { st with fmt := fmt2 }
    else
      match tokenise st.mutStr fmt2 with
      | none => .ret STRSEPF_RESULT_ERR_INPUT_DOESNT_MATCH_FORMAT { st with fmt := fmt2 }
      | some (token, mutStr1, fmt3) =>
        bindToken w
          { st with mutStr := mutStr1, fmt := fmt3,
                    specs := st.specs ++ [⟨sp.specifierType, sp.noAssignFlag⟩] }
          sp token

/-- The body of the `while` loop (lines 204-330), entered with `*mutStr` and `*fmt` both
not NUL. -/
def loopBody (w : Nat) (st : State) : Step :=
  if deref st.fmt = '%' then
    if deref st.fmt.tail = '%' then
      .next { st with fmt := st.fmt.tail.tail, mutStr := st.mutStr.advance }
    else specifier w st st.fmt.tail
  else
    if deref st.fmt ≠ deref st.mutStr.rest then
      .ret STRSEPF_RESULT_ERR_INPUT_DOESNT_MATCH_FORMAT st
    else
      .next { st with fmt := st.fmt.tail, mutStr := st.mutStr.advance }

/-- What a call of `vstrsepf` comes to. -/
inductive Outcome where
  /-- The call returns `rc` in the given final state. -/
  | returned (rc : Int) (st : State)
  /-- The call runs into undefined behaviour: `va_arg` with no argument left. -/
  | undefined (st : State)
  /-- The iteration bound of the embedding is used up. -/
  | fuel
deriving DecidableEq

/-- The `while` loop of `vstrsepf` (lines 202-332) with the final `return count`; the
first argument bounds the number of iterations. `count` is an `int` in the source and is
converted to `int16_t` when it is returned. -/
def vstrsepfLoop (w : Nat) : Nat → State → Outcome
  | 0, _ => .fuel
  | n + 1, st =>
    if deref st.mutStr.rest ≠ '\x00' ∧ deref st.fmt ≠ '\x00' then
      match loopBody w st with
      | .next st1 => vstrsepfLoop w n st1
      | .ret rc st1 => .returned rc st1
      | .undef st1 => .undefined st1
      | .fuel => .fuel
    else .returned (toInt16 st.count) st

/-- The state in which the `while` loop is entered. -/
def initState (mutStr fmt : List Char) (arg : List (Option Nat)) : State :=
  ⟨⟨[], mutStr⟩, fmt, arg, 0, [], []⟩

/-- The function `vstrsepf` (lines 192-333). `mutStr` and `fmt` are `none` for NULL
pointers. Every pass through the loop moves `fmt` forward, so the loop is run with a bound
of one more than the length of the format. -/
def vstrsepf (w : Nat) (mutStr fmt : Option (List Char)) (arg : List (Option Nat)) : Outcome :=
  match mutStr, fmt with
  | some s, some f => vstrsepfLoop w (f.length + 1) (initState s f arg)
  | _, _ => .returned STRSEPF_RESULT_ERR_INVALID_PARAMETER
      (initState (mutStr.getD []) (fmt.getD []) arg)

/-- The variadic wrapper `strsepf` (lines 94-103): it hands its arguments on to `vstrsepf`
as a `va_list` and returns what `vstrsepf` returns. -/
def strsepf (w : Nat) (mutStr fmt : Option (List Char)) (arg : List (Option Nat)) : Outcome :=
  vstrsepf w mutStr fmt arg

/-- The value a call returns, if it returns. -/
def Outcome.rc? : Outcome → Option Int
  | .returned rc _ => some rc
  | _ => none

/-- The state in which a call ends, if it ends. -/
def Outcome.state? : Outcome → Option State
  | .returned _ st => some st
  | .undefined st => some st
  | .fuel => none

/-- The stores through output pointers a call has made, oldest first. -/
def Outcome.stores (o : Outcome) : List (Nat × Value) :=
  match o.state? with
  | some st => st.stores
  | none => []

/-- The input buffer as a call leaves it. -/
def Outcome.buffer (o : Outcome) : List Char :=
  match o.state? with
  | some st => st.mutStr.buffer
  | none => []

/-- Content of the C string at offset `off` of a buffer. -/
def stringAt (buffer : List Char) (off : Nat) : List Char := cstr (buffer.drop off)

/-! ## Notions used to state the properties -/

/-- The decimal numeral of a natural number, as `Nat.repr` prints it. -/
def decimalNat (n : Nat) : List Char := Nat.toDigits 10 n

/-- The decimal numeral of an integer: a minus sign in front of the numeral of its
absolute value when it is negative. -/
def decimal (z : Int) : List Char :=
  if z < 0 then '-' :: decimalNat z.natAbs else decimalNat z.toNat

/-- Number of places of a format at which a specifier can begin: the `%` characters not
followed by another `%`. Every specifier the driver processes begins at one of them. -/
def specifierCount : List Char → Nat
  | [] => 0
  | c :: t => (if c = '%' ∧ deref t ≠ '%' then 1 else 0) + specifierCount t

/-- The error codes a converter can leave in `*err`. -/
def IsConvCode (e : Int) : Prop :=
  e = STRSEPF_RESULT_OK ∨ e = STRSEPF_RESULT_ERR_INVALID_PARAMETER ∨
    e = STRSEPF_RESULT_ERR_STRTOI_NOT_A_DECIMAL ∨ e = STRSEPF_RESULT_ERR_STRTOI_EXTRA_CHAR ∨
    e = STRSEPF_RESULT_ERR_STRTOI_OUT_OF_RANGE

/-- The three kinds of output slot: a `char*`, a `uint32_t` or an `int32_t`. -/
inductive Kind where
  | str
  | u32
  | i32
deriving DecidableEq

/-- The kind of a stored value. -/
def Value.kind : Value → Kind
  | .str _ => .str
  | .u32 _ => .u32
  | .i32 _ => .i32

/-- The kind of slot a specifier type binds: `s` a string, `u`, `x`, `o`, `b` an unsigned
and `d`, `i` a signed integer. -/
def kindOfType (specifierType : Char) : Kind :=
  if specifierType = 's' then .str
  else if specifierType ∈ ['u', 'x', 'o', 'b'] then .u32
  else .i32

/-- The relation the loop of `vstrsepf` keeps between its state and the arguments `arg0`
and format `fmt0` of the call: the stores went, in order, through the arguments used up so
far; `count` is the number of stores and the number of unsuppressed specifiers processed;
the specifiers counted so far and those that can still begin in what is left of the
format are no more than those of the whole format; and the stores are, one for one and in
order, those of the unsuppressed specifiers processed, each of the kind of its specifier. -/
def LoopInv (arg0 : List (Option Nat)) (fmt0 : List Char) (st : State) : Prop :=
  arg0 = st.stores.map (fun p => some p.1) ++ st.arg ∧
  st.count = st.stores.length ∧
  st.count = (st.specs.filter (fun sp => !sp.noAssignFlag)).length ∧
  st.count + specifierCount st.fmt ≤ specifierCount fmt0 ∧
  (st.specs.filter (fun sp => !sp.noAssignFlag)).map (fun sp => kindOfType sp.specifierType) =
    st.stores.map (fun p => p.2.kind)

/-- The four decimal numerals joined by `.`, as in a dotted IP address. -/
def dotted (a b c d : Int) : List Char :=
  decimal a ++ '.' :: (decimal b ++ '.' :: (decimal c ++ '.' :: decimal d))

/-- The fields of a list joined by the separator `sep`. -/
def joinWith (sep : Char) : List (List Char) → List Char
  | [] => []
  | [f] => f
  | f :: g :: fs => f ++ sep :: joinWith sep (g :: fs)

/-- The offsets at which the fields of a joined list begin, the first one at `start`. -/
def fieldOffsets (start : Nat) : List (List Char) → List Nat
  | [] => []
  | f :: fs => start :: fieldOffsets (start + f.length + 1) fs

/-- The format made of `k` times `%s` joined by commas. -/
def commaFormat (k : Nat) : List Char := joinWith ',' (List.replicate k ['%', 's'])

/-- The bodies of specifiers, what may stand between the `%` and the type character: a
sequence of `*` and of widths, a width being the decimal numeral of a number from 1 on
after which no further digit follows. -/
inductive SpecBody : List Char → Prop where
  | nil : SpecBody []
  | star {b : List Char} : SpecBody b → SpecBody ('*' :: b)
  | width {b : List Char} (N : Nat) :
      1 ≤ N → isdigit (deref b) = false → SpecBody b → SpecBody (decimalNat N ++ b)

/-- A cursor as it reads when the bytes `p` stand in front of the buffer. -/
def Cursor.shift (p : List Char) (cur : Cursor) : Cursor := ⟨p ++ cur.pre, cur.rest⟩

/-- A token as it reads when `k` more bytes stand in front of the buffer: the same string,
`k` bytes further. -/
def Token.shift (k : Nat) (tok : Token) : Token := ⟨tok.off + k, tok.str⟩

/-- A stored value as it reads when `k` more bytes stand in front of the buffer: a pointer
into the buffer lies `k` bytes further, a number is the same. -/
def Value.shift (k : Nat) : Value → Value
  | .str off => .str (off + k)
  | .u32 v => .u32 v
  | .i32 v => .i32 v

/-- A state as it reads when the bytes `p` stand in front of the buffer. -/
def State.shift (p : List Char) (st : State) : State :=
  { st with mutStr := st.mutStr.shift p,
            stores := st.stores.map (fun s => (s.1, s.2.shift p.length)) }

/-- The effect of a pass through the loop body with the bytes `p` in front of the buffer. -/
def Step.shift (p : List Char) : Step → Step
  | .next st => .next (st.shift p)
  | .ret rc st => .ret rc (st.shift p)
  | .undef st => .undef (st.shift p)
  | .fuel => .fuel

/-- The outcome of a call with the bytes `p` in front of the buffer. -/
def Outcome.shift (p : List Char) : Outcome → Outcome
  | .returned rc st => .returned rc (st.shift p)
  | .undefined st => .undefined (st.shift p)
  | .fuel => .fuel

/-- The content of the output slot at address `p` after the stores of a log, when the slot
held `init` before them: the value of the last store through `p`. -/
def slotAfter (stores : List (Nat × Value)) (p : Nat) (init : Value) : Value :=
  stores.foldl (fun v s => if s.1 = p then s.2 else v) init

/-- A byte of the buffer against the byte that stood there before: the same byte, or a NUL
in the place of another character. -/
def ByteKept (o b : Char) : Prop := b = o ∨ (b = '\x00' ∧ o ≠ '\x00')

/-- Number of positions at which two buffers differ. -/
def changes : List Char → List Char → Nat
  | a :: l, b :: r => (if a = b then 0 else 1) + changes l r
  | _, _ => 0

/-- The state a pass through the loop body ends in. -/
def Step.state? : Step → Option State
  | .next st => some st
  | .ret _ st => some st
  | .undef st => some st
  | .fuel => none

/-- The relation the loop keeps between the buffer `orig` the call was given and the
cursor: what lies from the cursor on is the end of `orig`, untouched; what lies before the
cursor holds no NUL in `orig` and is, byte for byte, as in `orig` or a NUL in the place of
another character; and no more bytes differ than specifiers have been processed. -/
def Frame (orig : List Char) (st : State) : Prop :=
  ∃ o1, orig = o1 ++ st.mutStr.rest ∧ List.Forall₂ ByteKept o1 st.mutStr.pre ∧
    (∀ x ∈ o1, x ≠ '\x00') ∧ changes o1 st.mutStr.pre ≤ st.specs.length

/-! # Theorems -/

/-! ## Characters and digit runs -/

theorem char_le_iff (a b : Char) : a ≤ b ↔ a.toNat ≤ b.toNat := Iff.rfl

theorem char_eq_iff (a b : Char) : a = b ↔ a.toNat = b.toNat :=
  ⟨fun h => h ▸ rfl, fun h => Char.ext (UInt32.ext h)⟩

/-- A character with a digit value is an ASCII digit or letter. -/
theorem alnum_of_digitValue_lt {c : Char} (h : digitValue c < 36) :
    (48 ≤ c.toNat ∧ c.toNat ≤ 57) ∨ (65 ≤ c.toNat ∧ c.toNat ≤ 90) ∨
      (97 ≤ c.toNat ∧ c.toNat ≤ 122) := by
  unfold digitValue at h
  split_ifs at h with h1 h2 h3
  · left; exact h1
  · right; right; exact h2
  · right; left; exact h3
  · omega

theorem isDigitOf_iff (base : Nat) (c : Char) : isDigitOf base c = true ↔ digitValue c < base := by
  simp [isDigitOf]

theorem isspace_iff (c : Char) : isspace c = true ↔
    (c.toNat = 32 ∨ c.toNat = 9 ∨ c.toNat = 10 ∨ c.toNat = 11 ∨ c.toNat = 12 ∨ c.toNat = 13) := by
  simp only [isspace, Bool.or_eq_true, beq_iff_eq, char_eq_iff]
  simp only [or_assoc]
  rfl

/-- The digits of a base up to 36: none is white space, a sign or NUL. -/
theorem digit_facts {base : Nat} {c : Char} (hb : base ≤ 36) (h : isDigitOf base c = true) :
    isspace c = false ∧ c ≠ '-' ∧ c ≠ '+' ∧ c ≠ '\x00' := by
  rw [isDigitOf_iff] at h
  have h1 := alnum_of_digitValue_lt (c := c) (by omega)
  refine ⟨?_, ?_, ?_, ?_⟩
  · rw [Bool.eq_false_iff, Ne, isspace_iff]; omega
  · intro e; subst e; revert h1; decide
  · intro e; subst e; revert h1; decide
  · intro e; subst e; revert h1; decide

theorem not_isDigitOf_nul {base : Nat} (hb : base ≤ 36) : isDigitOf base '\x00' = false := by
  rw [Bool.eq_false_iff, Ne, isDigitOf_iff]
  have : digitValue '\x00' = 36 := by decide
  omega

/-- Scanning while `p` holds stops at the end of a run of `p` followed by nothing or by a
character without `p`. -/
theorem takeWhile_run {p : Char → Bool} (ds t : List Char) (hd : ∀ c ∈ ds, p c = true)
    (ht : ∀ c, t.head? = some c → p c = false) : (ds ++ t).takeWhile p = ds := by
  induction ds with
  | nil =>
    cases t with
    | nil => rfl
    | cons c t => simp [List.takeWhile, ht c rfl]
  | cons d ds ih =>
    have hd1 : p d = true := hd d (List.mem_cons_self _ _)
    rw [List.cons_append, List.takeWhile_cons_of_pos hd1,
      ih (fun c hc => hd c (List.mem_cons_of_mem _ hc))]

theorem head?_of_deref {p : Char → Bool} {t : List Char}
    (h : p (deref t) = false) : ∀ c, t.head? = some c → p c = false := by
  intro c hc
  cases t with
  | nil => simp at hc
  | cons d t => simp at hc; subst hc; simpa [deref] using h

/-- A run of digits of a base never starts with the `0x` of base 16. -/
theorem strtoulHex_digits {base : Nat} (ds : List Char) (hd : ∀ c ∈ ds, isDigitOf base c = true) :
    strtoulHex base ds = 0 := by
  unfold strtoulHex
  split
  · rename_i x h t
    split_ifs with hc
    · obtain ⟨hb, hx, -⟩ := hc
      have := hd x (by simp)
      rw [isDigitOf_iff, hb] at this
      rcases hx with rfl | rfl <;> revert this <;> decide
    · rfl
  · rfl

theorem strtoulHex_of_ne {base : Nat} (s : List Char) (hb : base ≠ 16) : strtoulHex base s = 0 := by
  unfold strtoulHex
  split
  · simp [hb]
  · rfl

theorem strtoulSign_cons (c : Char) (t : List Char) (h1 : c ≠ '-') (h2 : c ≠ '+') :
    strtoulSign (c :: t) = (false, 0) := by
  unfold strtoulSign
  split <;> simp_all

/-- Conversion of a run of digits that starts the string. -/
theorem strtoul_digits (w base : Nat) (ds t : List Char) (hb : 2 ≤ base) (hb36 : base ≤ 36)
    (hne : ds ≠ []) (hd : ∀ c ∈ ds, isDigitOf base c = true)
    (ht : isDigitOf base (deref t) = false) (hhex : strtoulHex base (ds ++ t) = 0) :
    strtoul w (ds ++ t) base =
      if digitsValue base ds > ULONG_MAX w then ⟨ULONG_MAX w, ds.length, true⟩
      else ⟨digitsValue base ds, ds.length, false⟩ := by
  obtain ⟨d, ds', rfl⟩ := List.exists_cons_of_ne_nil hne
  have hf := digit_facts hb36 (hd d (by simp))
  have hsp : ((d :: ds') ++ t).takeWhile isspace = [] := by
    simp [List.takeWhile, hf.1]
  have hsign : strtoulSign ((d :: ds') ++ t) = (false, 0) :=
    strtoulSign_cons d _ hf.2.1 hf.2.2.1
  have htw := takeWhile_run (p := isDigitOf base) (d :: ds') t hd
    (head?_of_deref ht)
  unfold strtoul
  rw [if_neg (by omega)]
  simp only [hsp, List.length_nil, List.drop_zero, hsign, hhex, htw]
  simp

theorem digitsValue_append (base : Nat) (l : List Char) (c : Char) :
    digitsValue base (l ++ [c]) = digitsValue base l * base + digitValue c := by
  simp [digitsValue, List.foldl_append]

theorem digitChar_facts (k : Nat) (hk : k < 10) :
    isDigitOf 10 (Nat.digitChar k) = true ∧ digitValue (Nat.digitChar k) = k := by
  interval_cases k <;> decide

/-- What `Nat.toDigitsCore` puts in front of its accumulator is the decimal numeral of
`n`. -/
theorem toDigitsCore_spec (fuel : Nat) : ∀ (n : Nat) (acc : List Char), n < fuel →
    ∃ l, Nat.toDigitsCore 10 fuel n acc = l ++ acc ∧ l ≠ [] ∧
      (∀ c ∈ l, isDigitOf 10 c = true) ∧ digitsValue 10 l = n ∧
      (0 < n → ∀ t, l.head? = some t → t ≠ '0') := by
  induction fuel with
  | zero => intro n acc h; omega
  | succ fuel ih =>
    intro n acc h
    have hd := digitChar_facts (n % 10) (Nat.mod_lt _ (by norm_num))
    unfold Nat.toDigitsCore
    by_cases h0 : n / 10 = 0
    · simp only [h0, if_true]
      refine ⟨[Nat.digitChar (n % 10)], rfl, by simp, by simpa using hd.1, ?_, ?_⟩
      · have : digitsValue 10 [Nat.digitChar (n % 10)] = digitValue (Nat.digitChar (n % 10)) := by
          simp [digitsValue]
        rw [this, hd.2]; omega
      · intro hn t ht
        simp at ht; subst ht
        have hn10 : n % 10 = n := by omega
        rw [hn10]
        have : n < 10 := by omega
        interval_cases n <;> first | omega | decide
    · simp only [h0, if_false]
      obtain ⟨l, hl, hne, hall, hv, hlead⟩ := ih (n / 10) (Nat.digitChar (n % 10) :: acc) (by omega)
      refine ⟨l ++ [Nat.digitChar (n % 10)], by rw [hl]; simp, by simp, ?_, ?_, ?_⟩
      · intro c hc
        rcases List.mem_append.1 hc with hc | hc
        · exact hall c hc
        · simp at hc; subst hc; exact hd.1
      · rw [digitsValue_append, hv, hd.2]; omega
      · intro _ t ht
        obtain ⟨x, xs, rfl⟩ := List.exists_cons_of_ne_nil hne
        simp at ht; subst ht
        exact hlead (by omega) _ rfl

theorem decimalNat_spec (n : Nat) :
    decimalNat n ≠ [] ∧ (∀ c ∈ decimalNat n, isDigitOf 10 c = true) ∧
      digitsValue 10 (decimalNat n) = n := by
  obtain ⟨l, hl, hne, hall, hv, -⟩ := toDigitsCore_spec (n + 1) n [] (by omega)
  have : decimalNat n = l := by simpa [decimalNat, Nat.toDigits] using hl
  rw [this]; exact ⟨hne, hall, hv⟩

/-! ## The numeric converters -/

theorem strtoul_neg_digits (w base : Nat) (ds t : List Char) (hb : 2 ≤ base) (hb36 : base ≤ 36)
    (hne : ds ≠ []) (hd : ∀ c ∈ ds, isDigitOf base c = true)
    (ht : isDigitOf base (deref t) = false) (hhex : strtoulHex base (ds ++ t) = 0) :
    strtoul w ('-' :: (ds ++ t)) base =
      if digitsValue base ds > ULONG_MAX w then ⟨ULONG_MAX w, ds.length + 1, true⟩
      else ⟨(2 ^ w - digitsValue base ds) % 2 ^ w, ds.length + 1, false⟩ := by
  have hsp : ('-' :: (ds ++ t)).takeWhile isspace = [] := by
    rw [List.takeWhile_cons_of_neg (by decide)]
  have hsign : strtoulSign ('-' :: (ds ++ t)) = (true, 1) := rfl
  have htw := takeWhile_run (p := isDigitOf base) ds t hd (head?_of_deref ht)
  unfold strtoul
  rw [if_neg (by omega)]
  simp only [hsp, List.length_nil, List.drop_zero, hsign, List.drop_succ_cons, hhex, htw]
  simp [hne, Nat.add_comm 1]

theorem strtoul_hex_digits (w : Nat) (x : Char) (ds t : List Char) (hx : x = 'x' ∨ x = 'X')
    (hne : ds ≠ []) (hd : ∀ c ∈ ds, isDigitOf 16 c = true)
    (ht : isDigitOf 16 (deref t) = false) :
    strtoul w ('0' :: x :: (ds ++ t)) 16 =
      if digitsValue 16 ds > ULONG_MAX w then ⟨ULONG_MAX w, ds.length + 2, true⟩
      else ⟨digitsValue 16 ds, ds.length + 2, false⟩ := by
  obtain ⟨d, ds', rfl⟩ := List.exists_cons_of_ne_nil hne
  have hsp : ('0' :: x :: ((d :: ds') ++ t)).takeWhile isspace = [] := by
    rw [List.takeWhile_cons_of_neg (by decide)]
  have hsign : strtoulSign ('0' :: x :: ((d :: ds') ++ t)) = (false, 0) := rfl
  have hhex : strtoulHex 16 ('0' :: x :: ((d :: ds') ++ t)) = 2 := by
    simp only [strtoulHex, List.cons_append]
    rw [if_pos ⟨trivial, hx, hd d (by simp)⟩]
  have htw := takeWhile_run (p := isDigitOf 16) (d :: ds') t hd (head?_of_deref ht)
  unfold strtoul
  rw [if_neg (by omega)]
  simp only [hsp, List.length_nil, List.drop_zero, hsign, hhex, List.drop_succ_cons, htw]
  simp [Nat.add_comm 2]

theorem deref_nil : deref [] = '\x00' := rfl

theorem two_pow_le {w : Nat} (hw : 32 ≤ w) : 2 ^ 32 ≤ 2 ^ w :=
  Nat.pow_le_pow_right (by norm_num) hw

/-- Classification by `strtou32_s` of a token that starts with a run of digits. -/
theorem strtou32_s_digits (w base : Nat) (ds t : List Char) (e0 : Int) (hb : 2 ≤ base)
    (hb36 : base ≤ 36) (hne : ds ≠ []) (hd : ∀ c ∈ ds, isDigitOf base c = true)
    (ht : isDigitOf base (deref t) = false) (hhex : strtoulHex base (ds ++ t) = 0) :
    strtou32_s w (some (ds ++ t)) base (some e0) =
      (toUInt32 (min (digitsValue base ds) (ULONG_MAX w)),
       some (if deref t ≠ '\x00' then STRSEPF_RESULT_ERR_STRTOI_EXTRA_CHAR
             else if digitsValue base ds > ULONG_MAX w ∨ digitsValue base ds > UINT32_MAX then
               STRSEPF_RESULT_ERR_STRTOI_OUT_OF_RANGE
             else STRSEPF_RESULT_OK)) := by
  have hlen : ds.length ≠ 0 := by simpa using hne
  simp only [strtou32_s]
  rw [if_neg (by omega), strtoul_digits w base ds t hb hb36 hne hd ht hhex]
  by_cases hv : digitsValue base ds > ULONG_MAX w
  · simp only [if_pos hv, List.drop_left, if_neg hlen]
    rw [Nat.min_eq_right (by omega)]
    by_cases hz : deref t = '\x00'
    · simp [hz, hv]
    · simp [hz, Ne.symm hz, eq_comm]
  · simp only [if_neg hv, List.drop_left, if_neg hlen]
    rw [Nat.min_eq_left (by omega)]
    by_cases hz : deref t = '\x00'
    · simp [hz, hv]
    · simp [hz, Ne.symm hz, eq_comm]

theorem strtou32_s_hex_digits (w : Nat) (x : Char) (ds : List Char) (e0 : Int)
    (hx : x = 'x' ∨ x = 'X') (hne : ds ≠ []) (hd : ∀ c ∈ ds, isDigitOf 16 c = true) :
    strtou32_s w (some ('0' :: x :: ds)) 16 (some e0) =
      (toUInt32 (min (digitsValue 16 ds) (ULONG_MAX w)),
       some (if digitsValue 16 ds > ULONG_MAX w ∨ digitsValue 16 ds > UINT32_MAX then
               STRSEPF_RESULT_ERR_STRTOI_OUT_OF_RANGE
             else STRSEPF_RESULT_OK)) := by
  have h := strtoul_hex_digits w x ds [] hx hne hd (not_isDigitOf_nul (by norm_num))
  rw [List.append_nil] at h
  have hdrop : List.drop (ds.length + 2) ('0' :: x :: ds) = [] := by simp
  simp only [strtou32_s]
  rw [if_neg (by omega), h]
  by_cases hv : digitsValue 16 ds > ULONG_MAX w
  · simp only [if_pos hv, hdrop]
    rw [Nat.min_eq_right (by omega)]
    simp [deref, hv]
  · simp only [if_neg hv, hdrop]
    rw [Nat.min_eq_left (by omega)]
    simp [deref, hv]

theorem toUInt32_of_le {n : Nat} (h : n ≤ UINT32_MAX) : toUInt32 n = n := by
  unfold UINT32_MAX at h
  unfold toUInt32
  omega

theorem uint32_le_ulong {w : Nat} (hw : 32 ≤ w) : UINT32_MAX ≤ ULONG_MAX w := by
  have := two_pow_le hw
  unfold UINT32_MAX ULONG_MAX
  omega

theorem toInt32_of_range {z : Int} (h1 : INT32_MIN ≤ z) (h2 : z ≤ INT32_MAX) : toInt32 z = z := by
  unfold INT32_MIN at h1
  unfold INT32_MAX at h2
  unfold toInt32
  omega

theorem two_pow_pred {w : Nat} (hw : 32 ≤ w) : 2 ^ w = 2 * 2 ^ (w - 1) ∧ 2 ^ 31 ≤ 2 ^ (w - 1) := by
  constructor
  · obtain ⟨k, rfl⟩ : ∃ k, w = k + 1 := ⟨w - 1, by omega⟩
    rw [pow_succ]; simp; ring
  · exact Nat.pow_le_pow_right (by norm_num) (by omega)

theorem toSigned_of_small {w v : Nat} (hw : 32 ≤ w) (hv : v < 2 ^ 31) : toSigned w v = v := by
  obtain ⟨h1, h2⟩ := two_pow_pred hw
  unfold toSigned
  have hlt : v < 2 ^ w := by omega
  rw [Nat.mod_eq_of_lt hlt, if_pos (by omega)]

theorem toSigned_neg {w m : Nat} (hw : 32 ≤ w) (hm : m ≤ 2 ^ 31) :
    toSigned w ((2 ^ w - m) % 2 ^ w) = -(m : Int) := by
  obtain ⟨h1, h2⟩ := two_pow_pred hw
  rcases Nat.eq_zero_or_pos m with rfl | hpos
  · simp [toSigned]
  · have hlt : 2 ^ w - m < 2 ^ w := by omega
    unfold toSigned
    rw [Nat.mod_eq_of_lt hlt, Nat.mod_eq_of_lt hlt, if_neg (by omega)]
    push_cast [Nat.cast_sub (show m ≤ 2 ^ w by omega)]
    ring

/-- Classification by `strto32_s` of a token made of digits only. -/
theorem strto32_s_digits (w base : Nat) (ds : List Char) (e0 : Int) (hw : 32 ≤ w) (hb : 2 ≤ base)
    (hb36 : base ≤ 36) (hne : ds ≠ []) (hd : ∀ c ∈ ds, isDigitOf base c = true)
    (hv : digitsValue base ds < 2 ^ 31) :
    strto32_s w (some ds) base (some e0) = ((digitsValue base ds : Int), some STRSEPF_RESULT_OK) := by
  have h := strtoul_digits w base ds [] hb hb36 hne hd (not_isDigitOf_nul hb36)
    (by rw [List.append_nil]; exact strtoulHex_digits ds hd)
  rw [List.append_nil] at h
  have hlen : ds.length ≠ 0 := by simpa using hne
  have hul : ¬ digitsValue base ds > ULONG_MAX w := by
    have := two_pow_le hw
    unfold ULONG_MAX; omega
  simp only [strto32_s]
  rw [if_neg (by omega), h, if_neg hul]
  simp only [List.drop_length, deref_nil, if_neg hlen, toSigned_of_small hw hv]
  have h1 : ¬ ((digitsValue base ds : Int) > INT32_MAX) := by unfold INT32_MAX; omega
  have h2 : ¬ ((digitsValue base ds : Int) < INT32_MIN) := by unfold INT32_MIN; omega
  rw [toInt32_of_range (by unfold INT32_MIN; omega) (by unfold INT32_MAX; omega)]
  simp [h1, h2]

/-- Classification by `strto32_s` of a minus sign followed by digits only. -/
theorem strto32_s_neg_digits (w base : Nat) (ds : List Char) (e0 : Int) (hw : 32 ≤ w)
    (hb : 2 ≤ base) (hb36 : base ≤ 36) (hne : ds ≠ []) (hd : ∀ c ∈ ds, isDigitOf base c = true)
    (hv : digitsValue base ds ≤ 2 ^ 31) :
    strto32_s w (some ('-' :: ds)) base (some e0) =
      (-(digitsValue base ds : Int), some STRSEPF_RESULT_OK) := by
  have h := strtoul_neg_digits w base ds [] hb hb36 hne hd (not_isDigitOf_nul hb36)
    (by rw [List.append_nil]; exact strtoulHex_digits ds hd)
  rw [List.append_nil] at h
  have hul : ¬ digitsValue base ds > ULONG_MAX w := by
    have := two_pow_le hw
    unfold ULONG_MAX; omega
  have hdrop : List.drop (ds.length + 1) ('-' :: ds) = [] := by simp
  simp only [strto32_s]
  rw [if_neg (by omega), h, if_neg hul]
  simp only [hdrop, deref_nil, toSigned_neg hw hv]
  have h1 : ¬ (-(digitsValue base ds : Int) > INT32_MAX) := by unfold INT32_MAX; omega
  have h2 : ¬ (-(digitsValue base ds : Int) < INT32_MIN) := by unfold INT32_MIN; omega
  rw [toInt32_of_range (by unfold INT32_MIN; omega) (by unfold INT32_MAX; omega)]
  simp [h1, h2]

/-- The signed converter reads back the decimal numeral of every `int32_t`. -/
theorem strto32_s_decimal (w : Nat) (z : Int) (e0 : Int) (hw : 32 ≤ w) (h1 : -2 ^ 31 ≤ z)
    (h2 : z ≤ 2 ^ 31 - 1) :
    strto32_s w (some (decimal z)) 10 (some e0) = (z, some STRSEPF_RESULT_OK) := by
  unfold decimal
  by_cases hz : z < 0
  · rw [if_pos hz]
    obtain ⟨hne, hall, hv⟩ := decimalNat_spec z.natAbs
    rw [strto32_s_neg_digits w 10 _ e0 hw (by norm_num) (by norm_num) hne hall (by rw [hv]; omega), hv]
    congr 1; omega
  · rw [if_neg hz]
    obtain ⟨hne, hall, hv⟩ := decimalNat_spec z.toNat
    rw [strto32_s_digits w 10 _ e0 hw (by norm_num) (by norm_num) hne hall (by rw [hv]; omega), hv]
    congr 1; omega

/-! ## The token extractor -/

theorem cstr_of_no_nul {l : List Char} (h : ∀ c ∈ l, c ≠ '\x00') : cstr l = l := by
  have := takeWhile_run (p := fun c => c != '\x00') l [] (by simpa using h) (by simp)
  simpa [cstr] using this

theorem cstr_append_cons {l r : List Char} {c : Char} (h : ∀ x ∈ l, x ≠ '\x00')
    (hc : c ≠ '\x00') : cstr (l ++ c :: r) = l ++ c :: cstr r := by
  induction l with
  | nil => simp [cstr, List.takeWhile_cons, hc]
  | cons d l ih =>
    have hd : d ≠ '\x00' := h d (by simp)
    have := ih (fun x hx => h x (List.mem_cons_of_mem _ hx))
    simp only [cstr] at this ⊢
    simp [List.takeWhile_cons, hd, this]

theorem cstr_append_nul (l r : List Char) (h : ∀ x ∈ l, x ≠ '\x00') :
    cstr (l ++ '\x00' :: r) = l := by
  have := takeWhile_run (p := fun c => c != '\x00') l ('\x00' :: r) (by simpa using h) (by simp)
  simpa [cstr] using this

theorem deref_cons (c : Char) (l : List Char) : deref (c :: l) = c := rfl

/-- The split at a terminator that is there: the token is what stands before its first
occurrence, a NUL takes its place and the cursor moves behind it. -/
theorem strsep_found (pre tok rest : List Char) (c : Char) (hnul : ∀ x ∈ tok, x ≠ '\x00')
    (hc : ∀ x ∈ tok, x ≠ c) (hc0 : c ≠ '\x00') :
    strsep (some ⟨pre, tok ++ c :: rest⟩) c =
      some (⟨pre.length, tok⟩, ⟨pre ++ tok ++ ['\x00'], rest⟩) := by
  have h1 : cstr (tok ++ c :: rest) = tok ++ c :: cstr rest := cstr_append_cons hnul hc0
  have h2 : (tok ++ c :: cstr rest).takeWhile (fun x => x != c) = tok :=
    takeWhile_run (p := fun x => x != c) tok (c :: cstr rest) (by simpa using hc) (by simp)
  simp only [strsep, h1, h2]
  rw [if_pos (by simp)]
  simp

/-- The split when the terminator does not occur: the token is the rest of the string and
the cursor moves to its end. -/
theorem strsep_missing (pre rest : List Char) (c : Char) (hc : ∀ x ∈ cstr rest, x ≠ c) :
    strsep (some ⟨pre, rest⟩) c =
      some (⟨pre.length, cstr rest⟩, ⟨pre ++ cstr rest, rest.drop (cstr rest).length⟩) := by
  have h2 : (cstr rest).takeWhile (fun x => x != c) = cstr rest := by
    have := takeWhile_run (p := fun x => x != c) (cstr rest) [] (by simpa using hc) (by simp)
    simpa using this
  simp only [strsep, h2]
  rw [if_neg (by simp)]

theorem strsep_isSome (p : Cursor) (c : Char) : ∃ tok cur, strsep (some p) c = some (tok, cur) := by
  simp only [strsep]
  split_ifs <;> exact ⟨_, _, rfl⟩

/-- Tokenisation always yields a token. -/
theorem tokenise_isSome (p : Cursor) (fmt : List Char) :
    ∃ tok cur fmt1, tokenise p fmt = some (tok, cur, fmt1) := by
  unfold tokenise
  by_cases h : deref fmt = '\x00'
  · simp [h]
  · obtain ⟨tok, cur, hs⟩ := strsep_isSome p (deref fmt)
    simp [h, hs]

/-! ## The format scanner -/

theorem scanSpecifier_type (w n : Nat) (c : Char) (t : List Char) (sp : Spec)
    (hc : c ∈ SUPPORTED_SPECIFIER) :
    scanSpecifier w (n + 1) (c :: t) sp = .done { sp with specifierType := c } t := by
  have h0 : c ≠ '\x00' := by
    intro e; subst e; revert hc; decide
  simp [scanSpecifier, deref_cons, h0, hc]

theorem scanSpecifier_star (w n : Nat) (t : List Char) (sp : Spec) :
    scanSpecifier w (n + 1) ('*' :: t) sp = scanSpecifier w n t { sp with noAssignFlag := true } := by
  simp [scanSpecifier, deref_cons, SUPPORTED_SPECIFIER]

theorem scanSpecifier_succ (w n : Nat) (fmt : List Char) (sp : Spec) :
    scanSpecifier w (n + 1) fmt sp =
      if deref fmt = '\x00' then .done sp fmt
      else if deref fmt ∈ SUPPORTED_SPECIFIER then
        .done { sp with specifierType := deref fmt } fmt.tail
      else if deref fmt = '*' then scanSpecifier w n fmt.tail { sp with noAssignFlag := true }
      else if '1' ≤ deref fmt ∧ deref fmt ≤ '9' then
        if (strtou32_s w (some fmt) 10 (some STRSEPF_RESULT_OK)).2 ≠
            some STRSEPF_RESULT_ERR_STRTOI_EXTRA_CHAR then .invalid
        else scanSpecifier w n (fmt.drop ((fmt.takeWhile isdigit).length - 1 + 1))
          { sp with width := (strtou32_s w (some fmt) 10 (some STRSEPF_RESULT_OK)).1 }
      else .invalid := rfl

/-- With enough iterations the scan of a specifier body ends, and it leaves `fmt` at a
suffix of where it started. -/
theorem scanSpecifier_suffix (w : Nat) : ∀ (n : Nat) (fmt : List Char) (sp : Spec),
    fmt.length < n → scanSpecifier w n fmt sp ≠ .fuel ∧
      ∀ sp1 fmt1, scanSpecifier w n fmt sp = .done sp1 fmt1 → fmt1 <:+ fmt := by
  intro n
  induction n with
  | zero => intro fmt sp h; omega
  | succ n ih =>
    intro fmt sp h
    rw [scanSpecifier_succ]
    by_cases h1 : deref fmt = '\x00'
    · rw [if_pos h1]
      exact ⟨by simp, fun sp1 fmt1 e => by cases e; exact List.suffix_rfl⟩
    rw [if_neg h1]
    have hlen : fmt.tail.length < n := by
      cases fmt with
      | nil => simp [deref] at h1
      | cons c t => simpa using h
    by_cases h2 : deref fmt ∈ SUPPORTED_SPECIFIER
    · rw [if_pos h2]
      exact ⟨by simp, fun sp1 fmt1 e => by cases e; exact List.tail_suffix _⟩
    rw [if_neg h2]
    by_cases h3 : deref fmt = '*'
    · rw [if_pos h3]
      obtain ⟨ha, hb⟩ := ih fmt.tail { sp with noAssignFlag := true } hlen
      exact ⟨ha, fun sp1 fmt1 e => (hb sp1 fmt1 e).trans (List.tail_suffix _)⟩
    rw [if_neg h3]
    by_cases h4 : '1' ≤ deref fmt ∧ deref fmt ≤ '9'
    · rw [if_pos h4]
      by_cases h5 : (strtou32_s w (some fmt) 10 (some STRSEPF_RESULT_OK)).2 ≠
            some STRSEPF_RESULT_ERR_STRTOI_EXTRA_CHAR
      · rw [if_pos h5]
        exact ⟨by simp, fun sp1 fmt1 e => by cases e⟩
      · rw [if_neg h5]
        have hlen2 : (fmt.drop ((fmt.takeWhile isdigit).length - 1 + 1)).length < n := by
          rw [List.length_drop]; rw [List.length_tail] at hlen; omega
        obtain ⟨ha, hb⟩ := ih _
          { sp with width := (strtou32_s w (some fmt) 10 (some STRSEPF_RESULT_OK)).1 } hlen2
        exact ⟨ha, fun sp1 fmt1 e => (hb sp1 fmt1 e).trans (List.drop_suffix _ _)⟩
    · rw [if_neg h4]
      exact ⟨by simp, fun sp1 fmt1 e => by cases e⟩

/-- Tokenisation leaves `fmt` at a suffix of where it was. -/
theorem tokenise_fmt_suffix (p cur : Cursor) (fmt fmt1 : List Char) (tok : Token)
    (h : tokenise p fmt = some (tok, cur, fmt1)) : fmt1 <:+ fmt := by
  unfold tokenise at h
  by_cases h0 : deref fmt = '\x00'
  · simp [h0] at h; rw [← h.2.2]
  · obtain ⟨tok1, cur1, hs⟩ := strsep_isSome p (deref fmt)
    simp [h0, hs] at h
    rw [← h.2.2]; exact List.tail_suffix _

/-- The ways a step of binding can go on to the next pass of the loop. -/
theorem storeConverted_next (st st1 : State) (arg : List (Option Nat)) (ptr : Nat) (v : Value)
    (e : Int) (h : storeConverted st arg ptr v e = .next st1) :
    ¬ e < STRSEPF_RESULT_OK ∧
    st1 = { st with arg := arg, stores := st.stores ++ [(ptr, v)], count := st.count + 1 } := by
  unfold storeConverted at h
  by_cases he : e < STRSEPF_RESULT_OK
  · rw [if_pos he] at h; cases h
  · rw [if_neg he] at h; cases h; exact ⟨he, rfl⟩

theorem storeConverted_ret (st st1 : State) (arg : List (Option Nat)) (ptr : Nat) (v : Value)
    (e rc : Int) (h : storeConverted st arg ptr v e = .ret rc st1) :
    rc = e ∧ e < STRSEPF_RESULT_OK ∧
    st1 = { st with arg := arg, stores := st.stores ++ [(ptr, v)] } := by
  unfold storeConverted at h
  by_cases he : e < STRSEPF_RESULT_OK
  · rw [if_pos he] at h; cases h; exact ⟨rfl, he, rfl⟩
  · rw [if_neg he] at h; cases h

/-- A token that is bound: the next argument is a slot, a value is stored there, the
argument is used up and `count` goes up by one. -/
theorem scanToken_next (w : Nat) (st st1 : State) (sp : Spec) (tok : Token)
    (h : scanToken w st sp tok = .next st1) :
    ∃ ptr arg v, st.arg = some ptr :: arg ∧ v.kind = kindOfType sp.specifierType ∧
      st1 = { st with arg := arg, stores := st.stores ++ [(ptr, v)], count := st.count + 1 } := by
  unfold scanToken at h
  split_ifs at h with h1 h2 h3
  · unfold bindString at h
    split at h
    · cases h
    · cases h
    · rename_i ptr arg harg
      cases h
      exact ⟨ptr, arg, _, harg, by simp [Value.kind, kindOfType, h1], rfl⟩
  · unfold bindUnsigned at h
    split at h
    · cases h
    · cases h
    · rename_i ptr arg harg
      exact ⟨ptr, arg, _, harg, by rw [kindOfType, if_neg h1, if_pos h2]; rfl,
        (storeConverted_next _ _ _ _ _ _ h).2⟩
  · unfold bindSigned at h
    split at h
    · cases h
    · cases h
    · rename_i ptr arg harg
      exact ⟨ptr, arg, _, harg, by rw [kindOfType, if_neg h1, if_neg h2]; rfl,
        (storeConverted_next _ _ _ _ _ _ h).2⟩

/-! ## The driver -/

/-! ### Steps of the loop -/

theorem specifierCount_append (l r : List Char) :
    specifierCount r ≤ specifierCount (l ++ r) := by
  induction l with
  | nil => simp
  | cons c l ih => rw [List.cons_append, specifierCount]; omega

theorem specifierCount_suffix {l r : List Char} (h : r <:+ l) :
    specifierCount r ≤ specifierCount l := by
  obtain ⟨p, rfl⟩ := h
  exact specifierCount_append p r

theorem specifierCount_percent (l : List Char) (h1 : deref l = '%') (h2 : deref l.tail ≠ '%') :
    specifierCount l = 1 + specifierCount l.tail := by
  cases l with
  | nil => simp [deref] at h1
  | cons c t =>
    simp only [deref_cons] at h1
    simp only [List.tail_cons] at h2
    simp [specifierCount, h1, h2]

theorem tail_length_lt {l : List Char} (h : deref l ≠ '\x00') : l.tail.length < l.length := by
  cases l with
  | nil => simp [deref] at h
  | cons c t => simp

theorem bindToken_next (w : Nat) (st st1 : State) (sp : Spec) (tok : Token)
    (h : bindToken w st sp tok = .next st1) :
    (sp.noAssignFlag = true ∧ st1 = st) ∨
    (sp.noAssignFlag = false ∧ ∃ ptr arg v, st.arg = some ptr :: arg ∧
      v.kind = kindOfType sp.specifierType ∧
      st1 = { st with arg := arg, stores := st.stores ++ [(ptr, v)], count := st.count + 1 }) := by
  unfold bindToken at h
  by_cases h1 : sp.noAssignFlag = true
  · rw [if_pos h1] at h; cases h; exact Or.inl ⟨h1, rfl⟩
  · rw [if_neg h1] at h
    by_cases h2 : sp.width > 0 ∧ sp.width < strlen tok.str
    · rw [if_pos h2] at h; cases h
    · rw [if_neg h2] at h
      exact Or.inr ⟨by simpa using h1, scanToken_next w st st1 sp tok h⟩

/-- The ways the body of a specifier can go on to the next pass: a token is extracted and
the specifier is either suppressed or bound to the next argument. -/
theorem specifier_next (w : Nat) (st st1 : State) (fmt : List Char)
    (h : specifier w st fmt = .next st1) :
    ∃ sp fmt2 tok cur fmt3,
      scanSpecifier w (fmt.length + 1) fmt ⟨'\x00', false, 0⟩ = .done sp fmt2 ∧
      sp.specifierType ≠ '\x00' ∧ tokenise st.mutStr fmt2 = some (tok, cur, fmt3) ∧
      ((sp.noAssignFlag = true ∧
          st1 = { st with mutStr := cur, fmt := fmt3,
                          specs := st.specs ++ [⟨sp.specifierType, sp.noAssignFlag⟩] }) ∨
       (sp.noAssignFlag = false ∧ ∃ ptr arg v, st.arg = some ptr :: arg ∧
          v.kind = kindOfType sp.specifierType ∧
          st1 = { mutStr := cur, fmt := fmt3, arg := arg, count := st.count + 1,
                  stores := st.stores ++ [(ptr, v)],
                  specs := st.specs ++ [⟨sp.specifierType, sp.noAssignFlag⟩] })) := by
  unfold specifier at h
  split at h
  · cases h
  · cases h
  · rename_i sp fmt2 hscan
    by_cases h1 : sp.specifierType = '\x00'
    · rw [if_pos h1] at h; cases h
    · rw [if_neg h1] at h
      split at h
      · cases h
      · rename_i tok cur fmt3 htok
        refine ⟨sp, fmt2, tok, cur, fmt3, hscan, h1, htok, ?_⟩
        rcases bindToken_next _ _ _ _ _ h with ⟨ha, hb⟩ | ⟨ha, ptr, arg, v, hc, hk, hd⟩
        · exact Or.inl ⟨ha, hb⟩
        · exact Or.inr ⟨ha, ptr, arg, v, hc, hk, hd⟩

theorem loopBody_eq (w : Nat) (st : State) :
    loopBody w st =
      if deref st.fmt = '%' then
        if deref st.fmt.tail = '%' then
          .next { st with fmt := st.fmt.tail.tail, mutStr := st.mutStr.advance }
        else specifier w st st.fmt.tail
      else if deref st.fmt ≠ deref st.mutStr.rest then
        .ret STRSEPF_RESULT_ERR_INPUT_DOESNT_MATCH_FORMAT st
      else .next { st with fmt := st.fmt.tail, mutStr := st.mutStr.advance } := rfl

/-- The ways a pass through the loop body can go on to the next pass. -/
theorem loopBody_next (w : Nat) (st st1 : State) (h : loopBody w st = .next st1) :
    (deref st.fmt ≠ '%' ∧ deref st.fmt = deref st.mutStr.rest ∧
      st1 = { st with fmt := st.fmt.tail, mutStr := st.mutStr.advance }) ∨
    (deref st.fmt = '%' ∧ deref st.fmt.tail = '%' ∧
      st1 = { st with fmt := st.fmt.tail.tail, mutStr := st.mutStr.advance }) ∨
    (deref st.fmt = '%' ∧ deref st.fmt.tail ≠ '%' ∧ specifier w st st.fmt.tail = .next st1) := by
  rw [loopBody_eq] at h
  by_cases h1 : deref st.fmt = '%'
  · rw [if_pos h1] at h
    by_cases h2 : deref st.fmt.tail = '%'
    · rw [if_pos h2] at h; cases h; exact Or.inr (Or.inl ⟨h1, h2, rfl⟩)
    · rw [if_neg h2] at h; exact Or.inr (Or.inr ⟨h1, h2, h⟩)
  · rw [if_neg h1] at h
    by_cases h3 : deref st.fmt ≠ deref st.mutStr.rest
    · rw [if_pos h3] at h; cases h
    · rw [if_neg h3] at h; cases h; exact Or.inl ⟨h1, by simpa using h3, rfl⟩

/-- A pass through the loop body that goes on to the next pass has moved `fmt` forward. -/
theorem loopBody_progress (w : Nat) (st st1 : State)
    (h : loopBody w st = .next st1) : st1.fmt <:+ st.fmt.tail := by
  rcases loopBody_next w st st1 h with ⟨-, -, rfl⟩ | ⟨-, -, rfl⟩ | ⟨-, -, hs⟩
  · exact List.suffix_rfl
  · exact List.tail_suffix _
  · obtain ⟨sp, fmt2, tok, cur, fmt3, hscan, -, htok, hst⟩ := specifier_next w st st1 _ hs
    have e1 := (scanSpecifier_suffix w _ _ _ (by omega)).2 sp fmt2 hscan
    have e2 := tokenise_fmt_suffix _ _ _ _ _ htok
    have : st1.fmt = fmt3 := by
      rcases hst with ⟨-, rfl⟩ | ⟨-, ptr, arg, v, -, -, rfl⟩ <;> rfl
    rw [this]; exact e2.trans e1

theorem loopBody_fmt_length (w : Nat) (st st1 : State) (h2 : deref st.fmt ≠ '\x00')
    (h : loopBody w st = .next st1) : st1.fmt.length < st.fmt.length := by
  have := (loopBody_progress w st st1 h).length_le
  have := tail_length_lt h2
  omega

theorem vstrsepfLoop_next (w n : Nat) (st st1 : State) (h1 : deref st.mutStr.rest ≠ '\x00')
    (h2 : deref st.fmt ≠ '\x00') (h : loopBody w st = .next st1) :
    vstrsepfLoop w (n + 1) st = vstrsepfLoop w n st1 := by
  simp [vstrsepfLoop, h1, h2, h]

theorem vstrsepfLoop_ret (w n : Nat) (st st1 : State) (rc : Int)
    (h1 : deref st.mutStr.rest ≠ '\x00')
    (h2 : deref st.fmt ≠ '\x00') (h : loopBody w st = .ret rc st1) :
    vstrsepfLoop w (n + 1) st = .returned rc st1 := by
  simp [vstrsepfLoop, h1, h2, h]

theorem vstrsepfLoop_end (w n : Nat) (st : State)
    (h : deref st.mutStr.rest = '\x00' ∨ deref st.fmt = '\x00') :
    vstrsepfLoop w (n + 1) st = .returned (toInt16 st.count) st := by
  have : ¬ (deref st.mutStr.rest ≠ '\x00' ∧ deref st.fmt ≠ '\x00') := by tauto
  simp only [vstrsepfLoop, if_neg this]

/-! ### What the loop body can return -/

theorem strtou32_s_code (w : Nat) (b : Option (List Char)) (base : Nat) (e0 : Int) :
    IsConvCode (strtolErrAfter (strtou32_s w b base (some e0)).2) := by
  unfold strtou32_s strtolErrAfter IsConvCode
  cases b with
  | none => simp
  | some b =>
    simp only
    split_ifs <;> simp

theorem strto32_s_code (w : Nat) (b : Option (List Char)) (base : Nat) (e0 : Int) :
    IsConvCode (strtolErrAfter (strto32_s w b base (some e0)).2) := by
  unfold strto32_s strtolErrAfter IsConvCode
  cases b with
  | none => simp
  | some b =>
    simp only
    split_ifs <;> simp

theorem IsConvCode.range {e : Int} (h : IsConvCode e) : -8 ≤ e ∧ e ≤ 0 := by
  unfold IsConvCode at h
  simp only [STRSEPF_RESULT_OK, STRSEPF_RESULT_ERR_INVALID_PARAMETER,
    STRSEPF_RESULT_ERR_STRTOI_NOT_A_DECIMAL, STRSEPF_RESULT_ERR_STRTOI_EXTRA_CHAR,
    STRSEPF_RESULT_ERR_STRTOI_OUT_OF_RANGE] at h
  omega

/-- What a token's conversion can return. -/
theorem scanToken_ret (w : Nat) (st st1 : State) (sp : Spec) (tok : Token) (rc : Int)
    (h : scanToken w st sp tok = .ret rc st1) : -8 ≤ rc ∧ rc ≤ -1 := by
  unfold scanToken at h
  split_ifs at h
  · unfold bindString at h
    split at h
    · cases h
    · cases h; decide
    · cases h
  · unfold bindUnsigned at h
    split at h
    · cases h
    · cases h; decide
    · obtain ⟨rfl, h2, -⟩ := storeConverted_ret _ _ _ _ _ _ _ h
      have := (strtou32_s_code w (some tok.str) (unsignedBase sp.specifierType)
        STRSEPF_RESULT_OK).range
      have h0 : STRSEPF_RESULT_OK = 0 := rfl
      omega
  · unfold bindSigned at h
    split at h
    · cases h
    · cases h; decide
    · obtain ⟨rfl, h2, -⟩ := storeConverted_ret _ _ _ _ _ _ _ h
      have := (strto32_s_code w (some tok.str) 10 STRSEPF_RESULT_OK).range
      have h0 : STRSEPF_RESULT_OK = 0 := rfl
      omega
  · cases h; decide

theorem scanToken_undef (w : Nat) (st st1 : State) (sp : Spec) (tok : Token)
    (h : scanToken w st sp tok = .undef st1) : st.arg = [] := by
  unfold scanToken at h
  split_ifs at h
  · unfold bindString at h
    split at h
    · assumption
    · cases h
    · cases h
  · unfold bindUnsigned at h
    split at h
    · assumption
    · cases h
    · unfold storeConverted at h; split_ifs at h
  · unfold bindSigned at h
    split at h
    · assumption
    · cases h
    · unfold storeConverted at h; split_ifs at h

theorem bindToken_ret (w : Nat) (st st1 : State) (sp : Spec) (tok : Token) (rc : Int)
    (h : bindToken w st sp tok = .ret rc st1) : -8 ≤ rc ∧ rc ≤ -1 := by
  unfold bindToken at h
  split_ifs at h
  · cases h; decide
  · exact scanToken_ret _ _ _ _ _ _ h

theorem bindToken_undef (w : Nat) (st st1 : State) (sp : Spec) (tok : Token)
    (h : bindToken w st sp tok = .undef st1) : st.arg = [] := by
  unfold bindToken at h
  split_ifs at h
  exact scanToken_undef _ _ _ _ _ h

theorem specifier_ret (w : Nat) (st st1 : State) (fmt : List Char) (rc : Int)
    (h : specifier w st fmt = .ret rc st1) : -8 ≤ rc ∧ rc ≤ -1 := by
  unfold specifier at h
  split at h
  · cases h
  · cases h; decide
  · split_ifs at h
    · cases h; decide
    · split at h
      · cases h; decide
      · exact bindToken_ret _ _ _ _ _ _ h

theorem specifier_undef (w : Nat) (st st1 : State) (fmt : List Char)
    (h : specifier w st fmt = .undef st1) : st.arg = [] := by
  unfold specifier at h
  split at h
  · cases h
  · cases h
  · split_ifs at h
    split at h
    · cases h
    · have := bindToken_undef _ _ _ _ _ h
      exact this

/-- Every value the loop body returns is one of the error codes. -/
theorem loopBody_ret (w : Nat) (st st1 : State) (rc : Int) (h : loopBody w st = .ret rc st1) :
    -8 ≤ rc ∧ rc ≤ -1 := by
  rw [loopBody_eq] at h
  split_ifs at h
  · exact specifier_ret _ _ _ _ _ h
  · cases h; decide

/-- The loop body calls `va_arg` with no argument left only in a specifier. -/
theorem loopBody_undef (w : Nat) (st st1 : State) (h : loopBody w st = .undef st1) :
    st.arg = [] ∧ deref st.fmt = '%' ∧ deref st.fmt.tail ≠ '%' := by
  rw [loopBody_eq] at h
  split_ifs at h with h1 h2
  exact ⟨specifier_undef _ _ _ _ h, h1, h2⟩

theorem specifier_ne_fuel (w : Nat) (st : State) (fmt : List Char) :
    specifier w st fmt ≠ .fuel := by
  intro h
  unfold specifier at h
  split at h
  · rename_i hscan
    exact (scanSpecifier_suffix w _ _ _ (by omega)).1 hscan
  · cases h
  · split_ifs at h
    split at h
    · cases h
    · unfold bindToken at h
      split_ifs at h
      unfold scanToken at h
      split_ifs at h
      · unfold bindString at h; split at h <;> cases h
      · unfold bindUnsigned at h
        split at h
        · cases h
        · cases h
        · unfold storeConverted at h; split_ifs at h
      · unfold bindSigned at h
        split at h
        · cases h
        · cases h
        · unfold storeConverted at h; split_ifs at h

theorem loopBody_ne_fuel (w : Nat) (st : State) : loopBody w st ≠ .fuel := by
  intro h
  rw [loopBody_eq] at h
  split_ifs at h
  exact specifier_ne_fuel _ _ _ h

/-- How a run of the loop ends: it is left, from a state reached by passes through the
body, by the loop condition, by a `return` in the body or by undefined behaviour. -/
theorem vstrsepfLoop_cases (w : Nat) (P : State → Prop)
    (hstep : ∀ st st1, P st → deref st.mutStr.rest ≠ '\x00' → deref st.fmt ≠ '\x00' →
      loopBody w st = .next st1 → P st1) :
    ∀ (n : Nat) (st : State), P st → st.fmt.length < n →
      ∃ st2, P st2 ∧
        ((deref st2.mutStr.rest = '\x00' ∨ deref st2.fmt = '\x00') ∧
            vstrsepfLoop w n st = .returned (toInt16 st2.count) st2 ∨
         deref st2.mutStr.rest ≠ '\x00' ∧ deref st2.fmt ≠ '\x00' ∧
           ((∃ rc st3, loopBody w st2 = .ret rc st3 ∧ vstrsepfLoop w n st = .returned rc st3) ∨
            (∃ st3, loopBody w st2 = .undef st3 ∧ vstrsepfLoop w n st = .undefined st3))) := by
  intro n
  induction n with
  | zero => intro st _ h; omega
  | succ n ih =>
    intro st hP hlen
    by_cases hc : deref st.mutStr.rest ≠ '\x00' ∧ deref st.fmt ≠ '\x00'
    · cases hb : loopBody w st with
      | next st1 =>
        have hlt := loopBody_fmt_length w st st1 hc.2 hb
        obtain ⟨st2, hP2, h2⟩ := ih st1 (hstep st st1 hP hc.1 hc.2 hb) (by omega)
        refine ⟨st2, hP2, ?_⟩
        rw [vstrsepfLoop_next w n st st1 hc.1 hc.2 hb]
        exact h2
      | ret rc st1 =>
        exact ⟨st, hP, Or.inr ⟨hc.1, hc.2, Or.inl ⟨rc, st1, hb, vstrsepfLoop_ret w n st st1 rc hc.1 hc.2 hb⟩⟩⟩
      | undef st1 =>
        refine ⟨st, hP, Or.inr ⟨hc.1, hc.2, Or.inr ⟨st1, hb, ?_⟩⟩⟩
        simp [vstrsepfLoop, hc.1, hc.2, hb]
      | fuel => exact absurd hb (loopBody_ne_fuel w st)
    · refine ⟨st, hP, Or.inl ⟨by tauto, vstrsepfLoop_end w n st (by tauto)⟩⟩

/-! ### The invariant of the loop and the contract of the count -/

theorem loopInv_init (mutStr fmt : List Char) (arg : List (Option Nat)) :
    LoopInv arg fmt (initState mutStr fmt arg) := by
  simp [LoopInv, initState]

theorem specifierCount_tail_le (l : List Char) : specifierCount l.tail ≤ specifierCount l :=
  specifierCount_suffix (List.tail_suffix l)

theorem loopInv_step (w : Nat) (arg0 : List (Option Nat)) (fmt0 : List Char) (st st1 : State)
    (hP : LoopInv arg0 fmt0 st) (h : loopBody w st = .next st1) : LoopInv arg0 fmt0 st1 := by
  obtain ⟨i1, i2, i3, i4, i5⟩ := hP
  rcases loopBody_next w st st1 h with ⟨-, -, rfl⟩ | ⟨-, -, rfl⟩ | ⟨hp1, hp2, hs⟩
  · refine ⟨i1, i2, i3, ?_, i5⟩
    have := specifierCount_tail_le st.fmt
    simp only; omega
  · refine ⟨i1, i2, i3, ?_, i5⟩
    have := specifierCount_tail_le st.fmt
    have := specifierCount_tail_le st.fmt.tail
    simp only; omega
  · obtain ⟨sp, fmt2, tok, cur, fmt3, hscan, -, htok, hst⟩ := specifier_next w st st1 _ hs
    have e1 := (scanSpecifier_suffix w _ _ _ (by omega)).2 sp fmt2 hscan
    have e2 := tokenise_fmt_suffix _ _ _ _ _ htok
    have e3 := specifierCount_suffix (e2.trans e1)
    have e4 := specifierCount_percent st.fmt hp1 hp2
    rcases hst with ⟨hna, rfl⟩ | ⟨hna, ptr, arg, v, harg, hk, rfl⟩
    · refine ⟨i1, i2, ?_, ?_, ?_⟩
      · simp only [List.filter_append, List.length_append]
        simp [hna, i3]
      · simp only; omega
      · simp only [List.filter_append]
        simp [hna, i5]
    · refine ⟨?_, ?_, ?_, ?_, ?_⟩
      · simp only [List.map_append, List.append_assoc]
        rw [i1, harg]; simp
      · simp only [List.length_append]; simp; omega
      · simp only [List.filter_append, List.length_append]
        simp [hna, i3]
      · simp only; omega
      · simp only [List.filter_append, List.map_append]
        simp [hna, i5, hk]

theorem toInt16_of_range {z : Int} (h1 : -32768 ≤ z) (h2 : z < 32768) : toInt16 z = z := by
  unfold toInt16
  omega

/-- C1. A call with a non-null buffer and a format with fewer than 32768 specifiers always
ends, and does so without undefined behaviour when there are as many arguments as
specifiers. When it returns `rc ≥ 0`, `rc` is the number of unsuppressed specifiers
processed and the stores went, in order, through exactly the first `rc` arguments, one
each, the store of every unsuppressed specifier being of the kind of its type; suppressed
specifiers and `%%` are not in the count. When it returns `rc < 0`, `rc` is one of the
error codes -1 to -8. -/
theorem vstrsepf_count_contract (w : Nat) (mutStr fmt : List Char) (arg : List (Option Nat))
    (hfmt : specifierCount fmt < 32768) :
    vstrsepf w (some mutStr) (some fmt) arg ≠ .fuel ∧
    (specifierCount fmt ≤ arg.length →
      ∃ rc st, vstrsepf w (some mutStr) (some fmt) arg = .returned rc st) ∧
    ∀ rc st, vstrsepf w (some mutStr) (some fmt) arg = .returned rc st →
      (0 ≤ rc →
        rc = ((st.specs.filter (fun sp => !sp.noAssignFlag)).length : Int) ∧
        rc = (st.stores.length : Int) ∧
        st.stores.map (fun p => some p.1) = arg.take rc.toNat ∧
        st.arg = arg.drop rc.toNat ∧
        (st.specs.filter (fun sp => !sp.noAssignFlag)).map
            (fun sp => kindOfType sp.specifierType) = st.stores.map (fun p => p.2.kind)) ∧
      (rc < 0 → -8 ≤ rc) := by
  have hlen : (initState mutStr fmt arg).fmt.length < fmt.length + 1 := Nat.lt_succ_self _
  have hstep : ∀ st st1, LoopInv arg fmt st → deref st.mutStr.rest ≠ '\x00' →
      deref st.fmt ≠ '\x00' → loopBody w st = .next st1 → LoopInv arg fmt st1 :=
    fun st st1 hP _ _ h => loopInv_step w arg fmt st st1 hP h
  have hall := vstrsepfLoop_cases w (LoopInv arg fmt) hstep
    (fmt.length + 1) (initState mutStr fmt arg) (loopInv_init mutStr fmt arg) hlen
  have hrun : vstrsepf w (some mutStr) (some fmt) arg =
      vstrsepfLoop w (fmt.length + 1) (initState mutStr fmt arg) := rfl
  rw [hrun]
  generalize vstrsepfLoop w (fmt.length + 1) (initState mutStr fmt arg) = res at hall ⊢
  obtain ⟨st2, hinv, hcase⟩ := hall
  obtain ⟨i1, i2, i3, i4, i5⟩ := hinv
  rcases hcase with ⟨-, rfl⟩ | ⟨-, -, ⟨rc1, st3, hb, rfl⟩ | ⟨st3, hb, rfl⟩⟩
  · refine ⟨by simp, fun _ => ⟨_, _, rfl⟩, ?_⟩
    intro rc st e
    simp only [Outcome.returned.injEq] at e
    obtain ⟨rfl, rfl⟩ := e
    have hc : toInt16 (st2.count : Int) = st2.count := toInt16_of_range (by omega) (by omega)
    rw [hc]
    have hl : (st2.stores.map (fun p => some p.1)).length = st2.count := by simp [i2]
    refine ⟨fun _ => ⟨by rw [i3], by rw [i2], ?_, ?_, i5⟩, fun h => by omega⟩
    · rw [Int.toNat_ofNat]
      conv_rhs => rw [i1, ← hl, List.take_left']
    · rw [Int.toNat_ofNat]
      conv_rhs => rw [i1, ← hl, List.drop_left']
  · have hrange := loopBody_ret w st2 st3 rc1 hb
    refine ⟨by simp, fun _ => ⟨_, _, rfl⟩, ?_⟩
    intro rc st e
    cases e
    exact ⟨fun h => by omega, fun _ => hrange.1⟩
  · obtain ⟨ha, hp1, hp2⟩ := loopBody_undef w st2 st3 hb
    refine ⟨by simp, fun hlen => ?_, fun rc st e => by cases e⟩
    exfalso
    have e4 := specifierCount_percent st2.fmt hp1 hp2
    have hl : arg.length = st2.count := by rw [i1, ha]; simp [i2]
    omega

theorem vstrsepf_count_contract_witness :
    specifierCount "%*d. %*s %*s %*s %d %s, %*s".toList < 32768 ∧
    (vstrsepf 64 (some "1. my address is 890 rue de la rose, CAN.".toList)
        (some "%*d. %*s %*s %*s %d %s, %*s".toList) [some 0, some 1]).rc? = some 2 ∧
    ∀ rc st, vstrsepf 64 (some "1. my address is 890 rue de la rose, CAN.".toList)
        (some "%*d. %*s %*s %*s %d %s, %*s".toList) [some 0, some 1] = .returned rc st →
      (0 ≤ rc →
        rc = ((st.specs.filter (fun sp => !sp.noAssignFlag)).length : Int) ∧
        rc = (st.stores.length : Int) ∧
        st.stores.map (fun p => some p.1) = [some 0, some 1].take rc.toNat ∧
        st.arg = [some 0, some 1].drop rc.toNat ∧
        (st.specs.filter (fun sp => !sp.noAssignFlag)).map
            (fun sp => kindOfType sp.specifierType) = st.stores.map (fun p => p.2.kind)) ∧
      (rc < 0 → -8 ≤ rc) :=
  ⟨by decide, by decide,
    (vstrsepf_count_contract 64 "1. my address is 890 rue de la rose, CAN.".toList
      "%*d. %*s %*s %*s %d %s, %*s".toList [some 0, some 1] (by decide)).2.2⟩

/-! ### Decimal fields -/

theorem decimal_spec (z : Int) :
    decimal z ≠ [] ∧ (∀ x ∈ decimal z, x = '-' ∨ isDigitOf 10 x = true) ∧
      deref (decimal z) ≠ '\x00' := by
  unfold decimal
  by_cases hz : z < 0
  · rw [if_pos hz]
    obtain ⟨-, hall, -⟩ := decimalNat_spec z.natAbs
    refine ⟨by simp, ?_, by simp [deref]⟩
    intro x hx
    rcases List.mem_cons.1 hx with rfl | hx
    · exact Or.inl rfl
    · exact Or.inr (hall x hx)
  · rw [if_neg hz]
    obtain ⟨hne, hall, -⟩ := decimalNat_spec z.toNat
    refine ⟨hne, fun x hx => Or.inr (hall x hx), ?_⟩
    obtain ⟨d, ds, hd⟩ := List.exists_cons_of_ne_nil hne
    rw [hd, deref_cons]
    exact (digit_facts (by norm_num) (hall d (by rw [hd]; simp))).2.2.2

theorem decimal_no_nul (z : Int) : ∀ x ∈ decimal z, x ≠ '\x00' := by
  intro x hx
  rcases (decimal_spec z).2.1 x hx with rfl | h
  · decide
  · exact (digit_facts (by norm_num) h).2.2.2

theorem decimal_no_dot (z : Int) : ∀ x ∈ decimal z, x ≠ '.' := by
  intro x hx
  rcases (decimal_spec z).2.1 x hx with rfl | h
  · decide
  · intro e; subst e; revert h; decide

theorem deref_append_of_ne {l : List Char} (r : List Char) (h : deref l ≠ '\x00') :
    deref (l ++ r) = deref l := by
  cases l with
  | nil => simp [deref] at h
  | cons c t => rfl

/-- An unsuppressed specifier without width that is followed by the terminator `c`, met
where the input holds a token free of `c` followed by `c`: the token is split off and
handed to the conversion. -/
theorem specifier_plain_sep (w : Nat) (st : State) (ty c : Char) (fmt tok rest : List Char)
    (hrest : st.mutStr.rest = tok ++ c :: rest) (hty : ty ∈ SUPPORTED_SPECIFIER)
    (hc0 : c ≠ '\x00') (hnul : ∀ x ∈ tok, x ≠ '\x00') (hc : ∀ x ∈ tok, x ≠ c) :
    specifier w st (ty :: c :: fmt) =
      scanToken w { st with mutStr := ⟨st.mutStr.pre ++ tok ++ ['\x00'], rest⟩, fmt := fmt,
                            specs := st.specs ++ [⟨ty, false⟩] }
        ⟨ty, false, 0⟩ ⟨st.mutStr.pre.length, tok⟩ := by
  have hty0 : ty ≠ '\x00' := by intro e; subst e; revert hty; decide
  have hcur : st.mutStr = ⟨st.mutStr.pre, tok ++ c :: rest⟩ := by
    rw [← hrest]
  have htok : tokenise st.mutStr (c :: fmt) =
      some (⟨st.mutStr.pre.length, tok⟩, ⟨st.mutStr.pre ++ tok ++ ['\x00'], rest⟩, fmt) := by
    unfold tokenise
    rw [deref_cons, if_neg hc0, hcur, strsep_found _ _ _ _ hnul hc hc0]
    rfl
  unfold specifier
  rw [List.length_cons, scanSpecifier_type w _ ty _ _ hty]
  simp only [if_neg hty0, htok]
  unfold bindToken
  simp

/-- An unsuppressed specifier without width at the end of the format: the token is the
rest of the input and the buffer is left as it is. -/
theorem specifier_plain_last (w : Nat) (st : State) (ty : Char)
    (hty : ty ∈ SUPPORTED_SPECIFIER) :
    specifier w st [ty] =
      scanToken w { st with fmt := [], specs := st.specs ++ [⟨ty, false⟩] }
        ⟨ty, false, 0⟩ ⟨st.mutStr.pre.length, cstr st.mutStr.rest⟩ := by
  have hty0 : ty ≠ '\x00' := by intro e; subst e; revert hty; decide
  have htok : tokenise st.mutStr [] =
      some (⟨st.mutStr.pre.length, cstr st.mutStr.rest⟩, st.mutStr, []) := by
    unfold tokenise
    rw [deref_nil, if_pos rfl]
  unfold specifier
  rw [List.length_cons, scanSpecifier_type w _ ty _ _ hty]
  simp only [if_neg hty0, htok]
  unfold bindToken
  simp

/-- The binding of a `%d` or `%i` token that is the decimal numeral of an `int32_t`. -/
theorem scanToken_signed (w : Nat) (st : State) (sp : Spec) (tok : Token) (p : Nat)
    (arg : List (Option Nat)) (z : Int) (hty : sp.specifierType = 'd' ∨ sp.specifierType = 'i')
    (harg : st.arg = some p :: arg) (htok : tok.str = decimal z) (hw : 32 ≤ w)
    (h1 : -2 ^ 31 ≤ z) (h2 : z ≤ 2 ^ 31 - 1) :
    scanToken w st sp tok =
      .next { st with arg := arg, stores := st.stores ++ [(p, .i32 z)],
                      count := st.count + 1 } := by
  have e1 : sp.specifierType ≠ 's' := by rcases hty with h | h <;> rw [h] <;> decide
  have e2 : sp.specifierType ∉ ['u', 'x', 'o', 'b'] := by
    rcases hty with h | h <;> rw [h] <;> decide
  have e3 : sp.specifierType ∈ ['d', 'i'] := by
    rcases hty with h | h <;> rw [h] <;> decide
  unfold scanToken
  rw [if_neg e1, if_neg e2, if_pos e3]
  unfold bindSigned
  rw [harg]
  simp only [htok, strto32_s_decimal w z _ hw h1 h2, strtolErrAfter, Option.getD_some]
  unfold storeConverted
  rw [if_neg (by decide)]

theorem loopBody_specifier (w : Nat) (st : State) (c : Char) (fmt : List Char)
    (hfmt : st.fmt = '%' :: c :: fmt) (hc : c ≠ '%') :
    loopBody w st = specifier w st (c :: fmt) := by
  rw [loopBody_eq, hfmt]
  simp [deref_cons, hc]

/-- One `%d` field followed by its terminator `c`: the pass through the loop binds the
value and leaves the cursor behind the terminator. -/
theorem vstrsepfLoop_signed_sep (w n : Nat) (pre rest fmt : List Char) (c : Char) (z : Int)
    (p : Nat) (arg : List (Option Nat)) (count : Nat) (stores : List (Nat × Value))
    (specs : List Processed) (hw : 32 ≤ w) (h1 : -2 ^ 31 ≤ z) (h2 : z ≤ 2 ^ 31 - 1)
    (hc0 : c ≠ '\x00') (hc : ∀ x ∈ decimal z, x ≠ c) :
    vstrsepfLoop w (n + 1)
        ⟨⟨pre, decimal z ++ c :: rest⟩, '%' :: 'd' :: c :: fmt, some p :: arg, count, stores,
          specs⟩ =
      vstrsepfLoop w n
        ⟨⟨pre ++ decimal z ++ ['\x00'], rest⟩, fmt, arg, count + 1, stores ++ [(p, .i32 z)],
          specs ++ [⟨'d', false⟩]⟩ := by
  apply vstrsepfLoop_next
  · show deref (decimal z ++ c :: rest) ≠ '\x00'
    rw [deref_append_of_ne _ (decimal_spec z).2.2]
    exact (decimal_spec z).2.2
  · show deref ('%' :: 'd' :: c :: fmt) ≠ '\x00'
    rw [deref_cons]; decide
  · rw [loopBody_specifier w _ 'd' (c :: fmt) rfl (by decide),
      specifier_plain_sep w _ 'd' c fmt (decimal z) rest rfl (by decide) hc0 (decimal_no_nul z) hc,
      scanToken_signed w _ _ _ p arg z (Or.inl rfl) rfl rfl hw h1 h2]

/-- A `%d` field that ends the format: the rest of the input is bound and the call
returns. -/
theorem vstrsepfLoop_signed_last (w n : Nat) (pre : List Char) (z : Int)
    (p : Nat) (arg : List (Option Nat)) (count : Nat) (stores : List (Nat × Value))
    (specs : List Processed) (hw : 32 ≤ w) (h1 : -2 ^ 31 ≤ z) (h2 : z ≤ 2 ^ 31 - 1) :
    vstrsepfLoop w (n + 2)
        ⟨⟨pre, decimal z⟩, ['%', 'd'], some p :: arg, count, stores, specs⟩ =
      .returned (toInt16 ((count + 1 : Nat) : Int))
        ⟨⟨pre, decimal z⟩, [], arg, count + 1, stores ++ [(p, .i32 z)],
          specs ++ [⟨'d', false⟩]⟩ := by
  rw [vstrsepfLoop_next w (n + 1) _
    ⟨⟨pre, decimal z⟩, [], arg, count + 1, stores ++ [(p, .i32 z)], specs ++ [⟨'d', false⟩]⟩]
  · exact vstrsepfLoop_end w n _ (Or.inr rfl)
  · exact (decimal_spec z).2.2
  · show deref ['%', 'd'] ≠ '\x00'
    decide
  · rw [loopBody_specifier w _ 'd' [] rfl (by decide), specifier_plain_last w _ 'd' (by decide),
      scanToken_signed w _ _ _ p arg z (Or.inl rfl) rfl
        (by simp only; exact cstr_of_no_nul (decimal_no_nul z)) hw h1 h2]

/-- C2. Four signed 32-bit values written in decimal and joined by `.` are read back by
`"%d.%d.%d.%d"`: the call returns 4 and stores the four values, in order, through the
four arguments. -/
theorem vstrsepf_dotted_roundtrip (w : Nat) (a b c d : Int) (p0 p1 p2 p3 : Nat) (hw : 32 ≤ w)
    (ha : -2 ^ 31 ≤ a ∧ a ≤ 2 ^ 31 - 1) (hb : -2 ^ 31 ≤ b ∧ b ≤ 2 ^ 31 - 1)
    (hc : -2 ^ 31 ≤ c ∧ c ≤ 2 ^ 31 - 1) (hd : -2 ^ 31 ≤ d ∧ d ≤ 2 ^ 31 - 1) :
    ∃ st, vstrsepf w (some (dotted a b c d)) (some "%d.%d.%d.%d".toList)
        [some p0, some p1, some p2, some p3] = .returned 4 st ∧
      st.stores = [(p0, .i32 a), (p1, .i32 b), (p2, .i32 c), (p3, .i32 d)] ∧
      st.count = 4 ∧ st.arg = [] := by
  have hrun : vstrsepf w (some (dotted a b c d)) (some "%d.%d.%d.%d".toList)
      [some p0, some p1, some p2, some p3] =
      vstrsepfLoop w 12 ⟨⟨[], decimal a ++ '.' :: (decimal b ++ '.' :: (decimal c ++ '.' :: decimal d))⟩,
        '%' :: 'd' :: '.' :: ('%' :: 'd' :: '.' :: ('%' :: 'd' :: '.' :: ['%', 'd'])),
        [some p0, some p1, some p2, some p3], 0, [], []⟩ := rfl
  rw [hrun,
    vstrsepfLoop_signed_sep w 11 _ _ _ '.' a p0 _ _ _ _ hw ha.1 ha.2 (by decide) (decimal_no_dot a),
    vstrsepfLoop_signed_sep w 10 _ _ _ '.' b p1 _ _ _ _ hw hb.1 hb.2 (by decide) (decimal_no_dot b),
    vstrsepfLoop_signed_sep w 9 _ _ _ '.' c p2 _ _ _ _ hw hc.1 hc.2 (by decide) (decimal_no_dot c),
    vstrsepfLoop_signed_last w 7 _ d p3 _ _ _ _ hw hd.1 hd.2]
  exact ⟨_, rfl, rfl, rfl, rfl⟩

theorem vstrsepf_dotted_roundtrip_witness :
    dotted 192 168 0 13 = "192.168.0.13".toList ∧
    ∃ st, vstrsepf 64 (some (dotted 192 168 0 13)) (some "%d.%d.%d.%d".toList)
        [some 0, some 1, some 2, some 3] = .returned 4 st ∧
      st.stores = [(0, .i32 192), (1, .i32 168), (2, .i32 0), (3, .i32 13)] ∧
      st.count = 4 ∧ st.arg = [] :=
  ⟨by decide, vstrsepf_dotted_roundtrip 64 192 168 0 13 0 1 2 3 (by decide)
    ⟨by decide, by decide⟩ ⟨by decide, by decide⟩ ⟨by decide, by decide⟩
    ⟨by decide, by decide⟩⟩

/-! ### Comma-separated strings -/

theorem scanToken_string (w : Nat) (st : State) (sp : Spec) (tok : Token) (p : Nat)
    (arg : List (Option Nat)) (hty : sp.specifierType = 's') (harg : st.arg = some p :: arg) :
    scanToken w st sp tok =
      .next { st with arg := arg, stores := st.stores ++ [(p, .str tok.off)],
                      count := st.count + 1 } := by
  unfold scanToken
  rw [if_pos hty]
  unfold bindString
  rw [harg]

theorem commaFormat_one : commaFormat 1 = ['%', 's'] := rfl

theorem commaFormat_succ_succ (k : Nat) :
    commaFormat (k + 2) = '%' :: 's' :: ',' :: commaFormat (k + 1) := rfl

theorem joinWith_length_comma (sep : Char) (f g : List Char) (fs : List (List Char)) :
    (joinWith sep (f :: g :: fs)).length = f.length + 1 + (joinWith sep (g :: fs)).length := by
  simp [joinWith]; omega

/-- The loop over comma-separated `%s` fields: every field is bound to the offset at
which it begins, the commas become NULs and the count goes up by the number of fields. -/
theorem vstrsepfLoop_fields (w : Nat) : ∀ (fields : List (List Char)), fields ≠ [] →
    (∀ f ∈ fields, ∀ x ∈ f, x ≠ ',' ∧ x ≠ '\x00') →
    (∀ h : fields ≠ [], fields.getLast h ≠ []) →
    ∀ (n : Nat) (pre : List Char) (slots : List Nat) (count : Nat)
      (stores : List (Nat × Value)) (specs : List Processed),
      fields.length + 1 ≤ n → slots.length = fields.length →
      ∃ st, vstrsepfLoop w n ⟨⟨pre, joinWith ',' fields⟩, commaFormat fields.length,
          slots.map some, count, stores, specs⟩ =
          .returned (toInt16 ((count + fields.length : Nat) : Int)) st ∧
        st.stores = stores ++ List.zip slots ((fieldOffsets pre.length fields).map Value.str) ∧
        st.mutStr.buffer = pre ++ joinWith '\x00' fields ∧
        st.count = count + fields.length ∧ st.arg = [] := by
  intro fields
  induction fields with
  | nil => intro h; exact absurd rfl h
  | cons f fs ih =>
    intro _ hchars hlast n pre slots count stores specs hn hslots
    obtain ⟨p, slots1, rfl⟩ : ∃ p s, slots = p :: s := by
      cases slots with
      | nil => simp at hslots
      | cons p s => exact ⟨p, s, rfl⟩
    have hf0 : ∀ x ∈ f, x ≠ '\x00' := fun x hx => (hchars f (by simp) x hx).2
    have hfc : ∀ x ∈ f, x ≠ ',' := fun x hx => (hchars f (by simp) x hx).1
    cases fs with
    | nil =>
      have hfne : f ≠ [] := by simpa using hlast (by simp)
      have hs1 : slots1 = [] := by simpa using hslots
      subst hs1
      obtain ⟨m, rfl⟩ : ∃ m, n = m + 2 := ⟨n - 2, by simp at hn; omega⟩
      have hd : deref f ≠ '\x00' := by
        obtain ⟨c, t, rfl⟩ := List.exists_cons_of_ne_nil hfne
        exact hf0 c (by simp)
      refine ⟨⟨⟨pre, f⟩, [], [], count + 1, stores ++ [(p, .str pre.length)],
        specs ++ [⟨'s', false⟩]⟩, ?_, by simp [fieldOffsets], by simp [Cursor.buffer, joinWith], rfl, rfl⟩
      rw [vstrsepfLoop_next w (m + 1) _
        ⟨⟨pre, f⟩, [], [], count + 1, stores ++ [(p, .str pre.length)],
          specs ++ [⟨'s', false⟩]⟩ hd (by show deref ['%', 's'] ≠ '\x00'; decide)]
      · exact vstrsepfLoop_end w m _ (Or.inr rfl)
      · rw [loopBody_specifier w _ 's' [] rfl (by decide), specifier_plain_last w _ 's' (by decide),
          scanToken_string w _ _ _ p [] rfl rfl]
        rfl
    | cons g gs =>
      obtain ⟨m, rfl⟩ : ∃ m, n = m + 1 := ⟨n - 1, by simp at hn; omega⟩
      have hd : deref (joinWith ',' (f :: g :: gs)) ≠ '\x00' := by
        show deref (f ++ ',' :: joinWith ',' (g :: gs)) ≠ '\x00'
        cases f with
        | nil => simp [deref]
        | cons c t => exact hf0 c (by simp)
      obtain ⟨st, hst, hstores, hbuf, hcount, harg⟩ := ih (by simp)
        (fun f1 hf1 => hchars f1 (List.mem_cons_of_mem _ hf1))
        (fun h => by simpa [List.getLast_cons h] using hlast (by simp))
        m (pre ++ f ++ ['\x00']) slots1 (count + 1) (stores ++ [(p, .str pre.length)])
        (specs ++ [⟨'s', false⟩]) (by simp at hn ⊢; omega) (by simpa using hslots)
      refine ⟨st, ?_, ?_, ?_, ?_, harg⟩
      · rw [vstrsepfLoop_next w m _
          ⟨⟨pre ++ f ++ ['\x00'], joinWith ',' (g :: gs)⟩, commaFormat (g :: gs).length,
            slots1.map some, count + 1, stores ++ [(p, .str pre.length)],
            specs ++ [⟨'s', false⟩]⟩ hd (by simp [commaFormat_succ_succ, deref])]
        · rw [hst]
          congr 2
          simp only [List.length_cons]; push_cast; ring
        · rw [loopBody_specifier w _ 's' (',' :: commaFormat (g :: gs).length) rfl (by decide),
            specifier_plain_sep w _ 's' ',' _ f (joinWith ',' (g :: gs)) rfl (by decide)
              (by decide) hf0 hfc,
            scanToken_string w _ _ _ p (slots1.map some) rfl rfl]
      · rw [hstores]
        simp [fieldOffsets, Nat.add_assoc]
      · rw [hbuf]
        simp [joinWith]
      · rw [hcount]; simp only [List.length_cons]; omega

/-- In the buffer in which the separators have become NULs the string at the offset of
a field is that field, and it lies inside the buffer. -/
theorem stringAt_fields : ∀ (fields : List (List Char)),
    (∀ f ∈ fields, ∀ x ∈ f, x ≠ '\x00') → ∀ (pre : List Char) (sep : Char),
    ∀ p ∈ List.zip (fieldOffsets pre.length fields) fields,
      stringAt (pre ++ joinWith '\x00' fields) p.1 = p.2 ∧
      p.1 + p.2.length ≤ (pre ++ joinWith sep fields).length := by
  intro fields
  induction fields with
  | nil => intro _ pre sep p hp; simp [fieldOffsets] at hp
  | cons f fs ih =>
    intro hchars pre sep p hp
    have hf0 : ∀ x ∈ f, x ≠ '\x00' := hchars f (by simp)
    cases fs with
    | nil =>
      simp only [fieldOffsets, List.zip_cons_cons, List.zip_nil_right, List.mem_singleton] at hp
      subst hp
      simp [stringAt, joinWith, cstr_of_no_nul hf0]
    | cons g gs =>
      rw [fieldOffsets, List.zip_cons_cons, List.mem_cons] at hp
      rcases hp with rfl | hp
      · simp [stringAt, joinWith, cstr_append_nul f _ hf0]
      · have hlen : (pre ++ f ++ ['\x00']).length = pre.length + f.length + 1 := by
          simp [Nat.add_assoc]
        rw [← hlen] at hp
        obtain ⟨h1, h2⟩ := ih (fun f1 hf1 => hchars f1 (List.mem_cons_of_mem _ hf1))
          (pre ++ f ++ ['\x00']) sep p hp
        constructor
        · rw [← h1]; simp [joinWith]
        · simp [joinWith] at h2 ⊢; omega

/-- The call on comma-separated fields with the format of as many `%s`. -/
theorem vstrsepf_fields (w : Nat) (fields : List (List Char)) (slots : List Nat)
    (hne : fields ≠ []) (hchars : ∀ f ∈ fields, ∀ x ∈ f, x ≠ ',' ∧ x ≠ '\x00')
    (hlast : ∀ h : fields ≠ [], fields.getLast h ≠ []) (hslots : slots.length = fields.length) :
    ∃ st, vstrsepf w (some (joinWith ',' fields)) (some (commaFormat fields.length))
        (slots.map some) = .returned (toInt16 (fields.length : Int)) st ∧
      st.stores = List.zip slots ((fieldOffsets 0 fields).map Value.str) ∧
      st.mutStr.buffer = joinWith '\x00' fields := by
  have hfuel : fields.length + 1 ≤ (commaFormat fields.length).length + 1 := by
    have : ∀ k, k + 1 ≤ (commaFormat (k + 1)).length := by
      intro k
      induction k with
      | zero => simp [commaFormat_one]
      | succ k ih => rw [commaFormat_succ_succ]; simp only [List.length_cons]; omega
    obtain ⟨k, hk⟩ : ∃ k, fields.length = k + 1 :=
      ⟨fields.length - 1, by have := List.length_pos.2 hne; omega⟩
    rw [hk]; have := this k; omega
  obtain ⟨st, h1, h2, h3, -, -⟩ := vstrsepfLoop_fields w fields hne hchars hlast
    ((commaFormat fields.length).length + 1) [] slots 0 [] [] hfuel hslots
  refine ⟨st, ?_, by simpa using h2, by simpa using h3⟩
  have hrun : vstrsepf w (some (joinWith ',' fields)) (some (commaFormat fields.length))
      (slots.map some) = vstrsepfLoop w ((commaFormat fields.length).length + 1)
        ⟨⟨[], joinWith ',' fields⟩, commaFormat fields.length, slots.map some, 0, [], []⟩ := rfl
  rw [hrun, h1]
  simp

/-- C3, as amended. For 1 to 32767 fields free of commas and NULs, the last one not empty,
the call on the fields joined by commas with the format of as many `%s` joined by commas
returns the number of fields. Slot `i` receives the offset at which field `i` begins in the
buffer; the string found there afterwards is field `i`, and it lies inside the original
buffer. -/
theorem vstrsepf_comma_split (w : Nat) (fields : List (List Char)) (slots : List Nat)
    (hne : fields ≠ []) (hmax : fields.length ≤ 32767)
    (hchars : ∀ f ∈ fields, ∀ x ∈ f, x ≠ ',' ∧ x ≠ '\x00')
    (hlast : ∀ h : fields ≠ [], fields.getLast h ≠ []) (hslots : slots.length = fields.length) :
    ∃ st, vstrsepf w (some (joinWith ',' fields)) (some (commaFormat fields.length))
        (slots.map some) = .returned (fields.length : Int) st ∧
      st.stores = List.zip slots ((fieldOffsets 0 fields).map Value.str) ∧
      ∀ p ∈ List.zip (fieldOffsets 0 fields) fields,
        stringAt st.mutStr.buffer p.1 = p.2 ∧
        p.1 + p.2.length ≤ (joinWith ',' fields).length := by
  obtain ⟨st, h1, h2, h3⟩ := vstrsepf_fields w fields slots hne hchars hlast hslots
  rw [toInt16_of_range (by omega) (by omega)] at h1
  refine ⟨st, h1, h2, ?_⟩
  intro p hp
  have := stringAt_fields fields (fun f hf x hx => (hchars f hf x hx).2) [] ',' p
    (by simpa using hp)
  rw [h3]
  simpa using this

theorem vstrsepf_comma_split_witness :
    joinWith ',' ["ab".toList, [], "c".toList] = "ab,,c".toList ∧
    commaFormat 3 = "%s,%s,%s".toList ∧
    ∃ st, vstrsepf 64 (some (joinWith ',' ["ab".toList, [], "c".toList]))
        (some (commaFormat ["ab".toList, [], "c".toList].length))
        ([10, 11, 12].map some) =
          .returned (["ab".toList, [], "c".toList].length : Int) st ∧
      st.stores = List.zip [10, 11, 12]
        ((fieldOffsets 0 ["ab".toList, [], "c".toList]).map Value.str) ∧
      ∀ p ∈ List.zip (fieldOffsets 0 ["ab".toList, [], "c".toList])
          ["ab".toList, [], "c".toList],
        stringAt st.mutStr.buffer p.1 = p.2 ∧
        p.1 + p.2.length ≤ (joinWith ',' ["ab".toList, [], "c".toList]).length :=
  ⟨by decide, by decide,
    vstrsepf_comma_split 64 ["ab".toList, [], "c".toList] [10, 11, 12] (by decide) (by decide)
      (by decide) (by decide) (by decide)⟩

/-- C3, as stated, fails. With 32768 one-letter fields and as many slots the count does
not fit the `int16_t` result: the call returns -32768, not 32768. -/
theorem vstrsepf_comma_split_overflow :
    (∃ st, vstrsepf 64 (some (joinWith ',' (List.replicate 32768 ['a'])))
        (some (commaFormat 32768)) ((List.range 32768).map some) = .returned (-32768) st) ∧
    ¬ ∃ st, vstrsepf 64 (some (joinWith ',' (List.replicate 32768 ['a'])))
        (some (commaFormat 32768)) ((List.range 32768).map some) = .returned 32768 st := by
  have hne : List.replicate 32768 ['a'] ≠ [] := by
    intro h
    have := congrArg List.length h
    rw [List.length_replicate] at this
    exact absurd this (by decide)
  obtain ⟨st, h1, -, -⟩ := vstrsepf_fields 64 (List.replicate 32768 ['a'])
    (List.range 32768) hne
    (by
      intro f hf x hx
      rw [List.eq_of_mem_replicate hf] at hx
      rw [List.mem_singleton.1 hx]
      decide)
    (by
      intro h
      rw [List.eq_of_mem_replicate (List.getLast_mem h)]
      decide)
    (by rw [List.length_replicate, List.length_range])
  rw [List.length_replicate] at h1
  have hrc : toInt16 ((32768 : Nat) : Int) = -32768 := by decide
  rw [hrc] at h1
  refine ⟨⟨st, h1⟩, ?_⟩
  rintro ⟨st2, h2⟩
  rw [h1] at h2
  simp only [Outcome.returned.injEq] at h2
  exact absurd h2.1 (by decide)

/-! ### Calls with a single specifier -/

theorem scanToken_fmt (w : Nat) (st st1 : State) (sp : Spec) (tok : Token)
    (h : scanToken w st sp tok = .next st1) : st1.fmt = st.fmt := by
  obtain ⟨ptr, arg, v, -, -, rfl⟩ := scanToken_next w st st1 sp tok h
  rfl

theorem scanToken_ne_fuel (w : Nat) (st : State) (sp : Spec) (tok : Token) :
    scanToken w st sp tok ≠ .fuel := by
  intro h
  unfold scanToken at h
  split_ifs at h
  · unfold bindString at h; split at h <;> cases h
  · unfold bindUnsigned at h
    split at h
    · cases h
    · cases h
    · unfold storeConverted at h; split_ifs at h
  · unfold bindSigned at h
    split at h
    · cases h
    · cases h
    · unfold storeConverted at h; split_ifs at h

/-- A call whose format is one unsuppressed specifier without width, on an input that is
not empty, comes to the conversion of the whole input. -/
theorem vstrsepf_single (w : Nat) (s : List Char) (ty : Char) (arg : List (Option Nat))
    (hs : deref s ≠ '\x00') (hty : ty ∈ SUPPORTED_SPECIFIER) :
    vstrsepf w (some s) (some ['%', ty]) arg =
      match scanToken w ⟨⟨[], s⟩, [], arg, 0, [], [⟨ty, false⟩]⟩ ⟨ty, false, 0⟩
          ⟨0, cstr s⟩ with
      | .next st1 => .returned (toInt16 st1.count) st1
      | .ret rc st1 => .returned rc st1
      | .undef st1 => .undefined st1
      | .fuel => .fuel := by
  have hty1 : ty ≠ '%' := by intro e; subst e; revert hty; decide
  have hbody : loopBody w (initState s ['%', ty] arg) =
      scanToken w ⟨⟨[], s⟩, [], arg, 0, [], [⟨ty, false⟩]⟩ ⟨ty, false, 0⟩ ⟨0, cstr s⟩ := by
    rw [loopBody_specifier w _ ty [] rfl hty1, specifier_plain_last w _ ty hty]
    rfl
  have hrun : vstrsepf w (some s) (some ['%', ty]) arg =
      vstrsepfLoop w 3 (initState s ['%', ty] arg) := rfl
  rw [hrun]
  cases hsc : scanToken w ⟨⟨[], s⟩, [], arg, 0, [], [⟨ty, false⟩]⟩ ⟨ty, false, 0⟩
      ⟨0, cstr s⟩ with
  | next st1 =>
    rw [hsc] at hbody
    rw [vstrsepfLoop_next w 2 _ st1 hs (by simp [initState, deref]) hbody]
    have hfmt : st1.fmt = [] := scanToken_fmt w _ st1 _ _ hsc
    exact vstrsepfLoop_end w 1 st1 (Or.inr (by rw [hfmt]; rfl))
  | ret rc st1 =>
    rw [hsc] at hbody
    exact vstrsepfLoop_ret w 2 _ st1 rc hs (by simp [initState, deref]) hbody
  | undef st1 =>
    rw [hsc] at hbody
    simp only [vstrsepfLoop]
    rw [if_pos ⟨hs, by simp [initState, deref]⟩, hbody]
  | fuel => exact absurd hsc (scanToken_ne_fuel w _ _ _)

theorem scanToken_unsigned (w : Nat) (st : State) (sp : Spec) (tok : Token) (p : Nat)
    (arg : List (Option Nat)) (hty : sp.specifierType ∈ ['u', 'x', 'o', 'b'])
    (harg : st.arg = some p :: arg) :
    scanToken w st sp tok =
      storeConverted st arg p
        (.u32 (strtou32_s w (some tok.str) (unsignedBase sp.specifierType)
          (some STRSEPF_RESULT_OK)).1)
        (strtolErrAfter (strtou32_s w (some tok.str) (unsignedBase sp.specifierType)
          (some STRSEPF_RESULT_OK)).2) := by
  have e1 : sp.specifierType ≠ 's' := by
    intro e; rw [e] at hty; revert hty; decide
  unfold scanToken
  rw [if_neg e1, if_pos hty]
  unfold bindUnsigned
  rw [harg]

/-! ### Round trip and overflow of the converters -/

theorem digits_no_nul {base : Nat} {ds : List Char} (hb36 : base ≤ 36)
    (hd : ∀ c ∈ ds, isDigitOf base c = true) : ∀ c ∈ ds, c ≠ '\x00' :=
  fun c hc => (digit_facts hb36 (hd c hc)).2.2.2

theorem deref_digits {base : Nat} {ds : List Char} (hb36 : base ≤ 36) (hne : ds ≠ [])
    (hd : ∀ c ∈ ds, isDigitOf base c = true) : deref ds ≠ '\x00' := by
  obtain ⟨c, t, rfl⟩ := List.exists_cons_of_ne_nil hne
  exact digits_no_nul hb36 hd c (by simp)

/-- The unsigned converter on a token made of digits only whose value fits 32 bits. -/
theorem strtou32_s_ok (w base : Nat) (ds : List Char) (e0 : Int) (hw : 32 ≤ w) (hb : 2 ≤ base)
    (hb36 : base ≤ 36) (hne : ds ≠ []) (hd : ∀ c ∈ ds, isDigitOf base c = true)
    (hv : digitsValue base ds ≤ 2 ^ 32 - 1) :
    strtou32_s w (some ds) base (some e0) = (digitsValue base ds, some STRSEPF_RESULT_OK) := by
  have h := strtou32_s_digits w base ds [] e0 hb hb36 hne hd (not_isDigitOf_nul hb36)
    (by rw [List.append_nil]; exact strtoulHex_digits ds hd)
  rw [List.append_nil] at h
  have h32 : digitsValue base ds ≤ UINT32_MAX := by unfold UINT32_MAX; omega
  have hul := uint32_le_ulong hw
  rw [h, Nat.min_eq_left (by omega), toUInt32_of_le h32]
  simp only [deref_nil, ne_eq, not_true_eq_false, if_false]
  rw [if_neg (by omega)]

/-- The unsigned converter on a token made of digits only whose value does not fit 32
bits. -/
theorem strtou32_s_overflow (w base : Nat) (ds : List Char) (e0 : Int) (hb : 2 ≤ base)
    (hb36 : base ≤ 36) (hne : ds ≠ []) (hd : ∀ c ∈ ds, isDigitOf base c = true)
    (hv : 2 ^ 32 - 1 < digitsValue base ds) :
    (strtou32_s w (some ds) base (some e0)).2 = some STRSEPF_RESULT_ERR_STRTOI_OUT_OF_RANGE := by
  have h := strtou32_s_digits w base ds [] e0 hb hb36 hne hd (not_isDigitOf_nul hb36)
    (by rw [List.append_nil]; exact strtoulHex_digits ds hd)
  rw [List.append_nil] at h
  have h32 : digitsValue base ds > UINT32_MAX := by unfold UINT32_MAX; omega
  rw [h]
  simp only [deref_nil, ne_eq, not_true_eq_false, if_false]
  rw [if_pos (Or.inr h32)]

theorem strtou32_s_hex_ok (w : Nat) (x : Char) (ds : List Char) (e0 : Int) (hw : 32 ≤ w)
    (hx : x = 'x' ∨ x = 'X') (hne : ds ≠ []) (hd : ∀ c ∈ ds, isDigitOf 16 c = true)
    (hv : digitsValue 16 ds ≤ 2 ^ 32 - 1) :
    strtou32_s w (some ('0' :: x :: ds)) 16 (some e0) =
      (digitsValue 16 ds, some STRSEPF_RESULT_OK) := by
  have h32 : digitsValue 16 ds ≤ UINT32_MAX := by unfold UINT32_MAX; omega
  have hul := uint32_le_ulong hw
  rw [strtou32_s_hex_digits w x ds e0 hx hne hd, Nat.min_eq_left (by omega),
    toUInt32_of_le h32, if_neg (by omega)]

theorem storeConverted_ok (st : State) (arg : List (Option Nat)) (p : Nat) (v : Value) :
    storeConverted st arg p v STRSEPF_RESULT_OK =
      .next { st with arg := arg, stores := st.stores ++ [(p, v)], count := st.count + 1 } := by
  unfold storeConverted
  rw [if_neg (by decide)]

theorem storeConverted_err (st : State) (arg : List (Option Nat)) (p : Nat) (v : Value)
    (e : Int) (he : e < STRSEPF_RESULT_OK) :
    storeConverted st arg p v e = .ret e { st with arg := arg, stores := st.stores ++ [(p, v)] } := by
  unfold storeConverted
  rw [if_pos he]

theorem toInt16_one : toInt16 ((0 + 1 : Nat) : Int) = 1 := by decide

theorem unsignedBase_cases {ty : Char} (hty : ty ∈ ['u', 'x', 'o', 'b']) :
    ty ∈ SUPPORTED_SPECIFIER ∧
      (unsignedBase ty = 10 ∨ unsignedBase ty = 16 ∨ unsignedBase ty = 8 ∨
        unsignedBase ty = 2) := by
  simp only [List.mem_cons, List.mem_singleton, List.not_mem_nil, or_false] at hty
  rcases hty with rfl | rfl | rfl | rfl <;> decide

/-- C4. In the bases 10, 16, 8 and 2 the unsigned converter reads a non-empty string of
digits of the base (leading zeros and either case allowed) whose value is at most
`2^32 - 1` as that value, with `STRSEPF_RESULT_OK`; a call with the specifier of that base
(`%u`, `%x`, `%o`, `%b`) on such a token stores the value and returns 1. In base 16 the
same holds when `0x` stands before the digits. -/
theorem unsigned_roundtrip (w base : Nat) (ds : List Char) (hw : 32 ≤ w)
    (hbase : base = 10 ∨ base = 16 ∨ base = 8 ∨ base = 2) (hne : ds ≠ [])
    (hd : ∀ c ∈ ds, isDigitOf base c = true) (hv : digitsValue base ds ≤ 2 ^ 32 - 1) :
    (∀ e0, strtou32_s w (some ds) base (some e0) =
      (digitsValue base ds, some STRSEPF_RESULT_OK)) ∧
    (∀ ty ∈ ['u', 'x', 'o', 'b'], unsignedBase ty = base → ∀ (p : Nat) (arg : List (Option Nat)),
      vstrsepf w (some ds) (some ['%', ty]) (some p :: arg) =
        .returned 1 ⟨⟨[], ds⟩, [], arg, 1, [(p, .u32 (digitsValue base ds))],
          [⟨ty, false⟩]⟩) ∧
    (base = 16 →
      (∀ e0, strtou32_s w (some ('0' :: 'x' :: ds)) 16 (some e0) =
        (digitsValue 16 ds, some STRSEPF_RESULT_OK)) ∧
      ∀ (p : Nat) (arg : List (Option Nat)),
        vstrsepf w (some ('0' :: 'x' :: ds)) (some ['%', 'x']) (some p :: arg) =
          .returned 1 ⟨⟨[], '0' :: 'x' :: ds⟩, [], arg, 1, [(p, .u32 (digitsValue 16 ds))],
            [⟨'x', false⟩]⟩) := by
  have hb : 2 ≤ base ∧ base ≤ 36 := by omega
  have hnul := digits_no_nul hb.2 hd
  refine ⟨fun e0 => strtou32_s_ok w base ds e0 hw hb.1 hb.2 hne hd hv, ?_, ?_⟩
  · intro ty hty hbty p arg
    rw [vstrsepf_single w ds ty _ (deref_digits hb.2 hne hd) (unsignedBase_cases hty).1,
      scanToken_unsigned w _ _ _ p arg hty rfl]
    simp only [cstr_of_no_nul hnul, hbty,
      strtou32_s_ok w base ds _ hw hb.1 hb.2 hne hd hv, strtolErrAfter, Option.getD_some,
      storeConverted_ok, toInt16_one]
    rfl
  · intro h16
    subst h16
    refine ⟨fun e0 => strtou32_s_hex_ok w 'x' ds e0 hw (Or.inl rfl) hne hd hv, ?_⟩
    intro p arg
    have hnul2 : ∀ c ∈ '0' :: 'x' :: ds, c ≠ '\x00' := by
      intro c hc
      simp only [List.mem_cons] at hc
      rcases hc with rfl | rfl | hc
      · decide
      · decide
      · exact hnul c hc
    rw [vstrsepf_single w _ 'x' _ (by rw [deref_cons]; decide) (by decide),
      scanToken_unsigned w _ _ _ p arg (by decide) rfl]
    simp only [cstr_of_no_nul hnul2]
    have hbx : unsignedBase 'x' = 16 := by decide
    simp only [hbx, strtou32_s_hex_ok w 'x' ds _ hw (Or.inl rfl) hne hd hv, strtolErrAfter,
      Option.getD_some, storeConverted_ok, toInt16_one]
    rfl

theorem unsigned_roundtrip_witness :
    (strtou32_s 64 (some "A".toList) 16 (some 0) = (10, some 0) ∧
      strtou32_s 64 (some "fF".toList) 16 (some 0) = (255, some 0) ∧
      strtou32_s 64 (some "0xA".toList) 16 (some 0) = (10, some 0) ∧
      strtou32_s 64 (some "0110".toList) 2 (some 0) = (6, some 0) ∧
      strtou32_s 64 (some "56".toList) 8 (some 0) = (46, some 0)) ∧
    ((∀ e0, strtou32_s 64 (some "A".toList) 16 (some e0) =
      (digitsValue 16 "A".toList, some STRSEPF_RESULT_OK)) ∧
    (∀ ty ∈ ['u', 'x', 'o', 'b'], unsignedBase ty = 16 → ∀ (p : Nat) (arg : List (Option Nat)),
      vstrsepf 64 (some "A".toList) (some ['%', ty]) (some p :: arg) =
        .returned 1 ⟨⟨[], "A".toList⟩, [], arg, 1, [(p, .u32 (digitsValue 16 "A".toList))],
          [⟨ty, false⟩]⟩) ∧
    (16 = 16 →
      (∀ e0, strtou32_s 64 (some ('0' :: 'x' :: "A".toList)) 16 (some e0) =
        (digitsValue 16 "A".toList, some STRSEPF_RESULT_OK)) ∧
      ∀ (p : Nat) (arg : List (Option Nat)),
        vstrsepf 64 (some ('0' :: 'x' :: "A".toList)) (some ['%', 'x']) (some p :: arg) =
          .returned 1 ⟨⟨[], '0' :: 'x' :: "A".toList⟩, [], arg, 1,
            [(p, .u32 (digitsValue 16 "A".toList))], [⟨'x', false⟩]⟩)) :=
  ⟨by decide, unsigned_roundtrip 64 16 "A".toList (by decide) (by decide) (by decide)
    (by decide) (by decide)⟩

theorem signed_supported {ty : Char} (hty : ty ∈ ['d', 'i']) : ty ∈ SUPPORTED_SPECIFIER := by
  simp only [List.mem_cons, List.mem_singleton, List.not_mem_nil, or_false] at hty
  rcases hty with rfl | rfl <;> decide

/-- C5. The signed converter reads the decimal numeral of every `int32_t` value (with a
leading `-` when it is negative) back as that value, with `STRSEPF_RESULT_OK`; a call with
`%d` or `%i` on that token stores the value and returns 1. -/
theorem signed_roundtrip (w : Nat) (z : Int) (hw : 32 ≤ w) (h1 : -2 ^ 31 ≤ z)
    (h2 : z ≤ 2 ^ 31 - 1) :
    (∀ e0, strto32_s w (some (decimal z)) 10 (some e0) = (z, some STRSEPF_RESULT_OK)) ∧
    ∀ ty ∈ ['d', 'i'], ∀ (p : Nat) (arg : List (Option Nat)),
      vstrsepf w (some (decimal z)) (some ['%', ty]) (some p :: arg) =
        .returned 1 ⟨⟨[], decimal z⟩, [], arg, 1, [(p, .i32 z)], [⟨ty, false⟩]⟩ := by
  refine ⟨fun e0 => strto32_s_decimal w z e0 hw h1 h2, ?_⟩
  intro ty hty p arg
  have hty2 : ty = 'd' ∨ ty = 'i' := by simpa using hty
  rw [vstrsepf_single w _ ty _ (decimal_spec z).2.2 (signed_supported hty),
    scanToken_signed w _ _ _ p arg z hty2 rfl
      (by simp only; exact cstr_of_no_nul (decimal_no_nul z)) hw h1 h2]
  simp only [toInt16_one]
  rfl

theorem signed_roundtrip_witness :
    decimal (-14) = "-14".toList ∧
    ((∀ e0, strto32_s 64 (some (decimal (-14))) 10 (some e0) =
      (-14, some STRSEPF_RESULT_OK)) ∧
    ∀ ty ∈ ['d', 'i'], ∀ (p : Nat) (arg : List (Option Nat)),
      vstrsepf 64 (some (decimal (-14))) (some ['%', ty]) (some p :: arg) =
        .returned 1 ⟨⟨[], decimal (-14)⟩, [], arg, 1, [(p, .i32 (-14))],
          [⟨ty, false⟩]⟩) :=
  ⟨by decide, signed_roundtrip 64 (-14) (by decide) (by decide) (by decide)⟩

/-- C6, the code at the failing input. With a 64-bit `long` the token
`18446744073709551615` (2^64 - 1) is converted without error to -1, and `%d` succeeds with
that value; so is `-18446744073709551615` to 1. With a 32-bit `long` the same happens to
`4294967295`, and `2147483648` is converted to -2147483648. -/
theorem signed_overflow_unreported :
    strto32_s 64 (some "18446744073709551615".toList) 10 (some 0) = (-1, some 0) ∧
    vstrsepf 64 (some "18446744073709551615".toList) (some "%d".toList) [some 0] =
      .returned 1 ⟨⟨[], "18446744073709551615".toList⟩, [], [], 1, [(0, .i32 (-1))],
        [⟨'d', false⟩]⟩ ∧
    strto32_s 64 (some "-18446744073709551615".toList) 10 (some 0) = (1, some 0) ∧
    strto32_s 32 (some "4294967295".toList) 10 (some 0) = (-1, some 0) ∧
    strto32_s 32 (some "2147483648".toList) 10 (some 0) = (-2147483648, some 0) := by
  refine ⟨by decide, by decide, by decide, by decide, by decide⟩

/-- C7. In the bases 10, 16, 8 and 2 the unsigned converter reports
`STRSEPF_RESULT_ERR_STRTOI_OUT_OF_RANGE` for every string of digits of the base whose value
exceeds `2^32 - 1`, whatever the width of `unsigned long`; a call with the specifier of
that base on such a token returns -8 and counts nothing. -/
theorem unsigned_overflow (w base : Nat) (ds : List Char)
    (hbase : base = 10 ∨ base = 16 ∨ base = 8 ∨ base = 2)
    (hd : ∀ c ∈ ds, isDigitOf base c = true) (hv : 2 ^ 32 - 1 < digitsValue base ds) :
    (∀ e0, (strtou32_s w (some ds) base (some e0)).2 =
      some STRSEPF_RESULT_ERR_STRTOI_OUT_OF_RANGE) ∧
    ∀ ty ∈ ['u', 'x', 'o', 'b'], unsignedBase ty = base → ∀ (p : Nat) (arg : List (Option Nat)),
      ∃ st, vstrsepf w (some ds) (some ['%', ty]) (some p :: arg) =
          .returned STRSEPF_RESULT_ERR_STRTOI_OUT_OF_RANGE st ∧ st.count = 0 := by
  have hb : 2 ≤ base ∧ base ≤ 36 := by omega
  have hne : ds ≠ [] := by
    rintro rfl
    simp [digitsValue] at hv
  have hnul := digits_no_nul hb.2 hd
  refine ⟨fun e0 => strtou32_s_overflow w base ds e0 hb.1 hb.2 hne hd hv, ?_⟩
  intro ty hty hbty p arg
  rw [vstrsepf_single w ds ty _ (deref_digits hb.2 hne hd) (unsignedBase_cases hty).1,
    scanToken_unsigned w _ _ _ p arg hty rfl]
  simp only [cstr_of_no_nul hnul, hbty,
    strtou32_s_overflow w base ds _ hb.1 hb.2 hne hd hv, strtolErrAfter, Option.getD_some]
  rw [storeConverted_err _ _ _ _ _ (by decide)]
  exact ⟨_, rfl, rfl⟩

theorem unsigned_overflow_witness :
    (strtou32_s 64 (some "4294967296".toList) 10 (some 0)).2 = some (-8) ∧
    ((∀ e0, (strtou32_s 64 (some "100000000".toList) 16 (some e0)).2 =
      some STRSEPF_RESULT_ERR_STRTOI_OUT_OF_RANGE) ∧
    ∀ ty ∈ ['u', 'x', 'o', 'b'], unsignedBase ty = 16 → ∀ (p : Nat) (arg : List (Option Nat)),
      ∃ st, vstrsepf 64 (some "100000000".toList) (some ['%', ty]) (some p :: arg) =
          .returned STRSEPF_RESULT_ERR_STRTOI_OUT_OF_RANGE st ∧ st.count = 0) :=
  ⟨by decide, unsigned_overflow 64 16 "100000000".toList (by decide) (by decide) (by decide)⟩

/-! ### Widths -/

/-- The result of the loop does not depend on the iteration bound once the bound exceeds
the length of what is left of the format. -/
theorem vstrsepfLoop_fuel (w : Nat) : ∀ (n m : Nat) (st : State),
    st.fmt.length < n → st.fmt.length < m → vstrsepfLoop w n st = vstrsepfLoop w m st := by
  intro n
  induction n with
  | zero => intro m st h; omega
  | succ n ih =>
    intro m st hn hm
    obtain ⟨m, rfl⟩ : ∃ k, m = k + 1 := ⟨m - 1, by omega⟩
    by_cases hc : deref st.mutStr.rest ≠ '\x00' ∧ deref st.fmt ≠ '\x00'
    · cases hb : loopBody w st with
      | next st1 =>
        have hlt := loopBody_fmt_length w st st1 hc.2 hb
        rw [vstrsepfLoop_next w n st st1 hc.1 hc.2 hb, vstrsepfLoop_next w m st st1 hc.1 hc.2 hb]
        exact ih m st1 (by omega) (by omega)
      | ret rc st1 =>
        rw [vstrsepfLoop_ret w n st st1 rc hc.1 hc.2 hb, vstrsepfLoop_ret w m st st1 rc hc.1 hc.2 hb]
      | undef st1 =>
        simp only [vstrsepfLoop, if_pos hc, hb]
      | fuel => exact absurd hb (loopBody_ne_fuel w st)
    · rw [vstrsepfLoop_end w n st (by tauto), vstrsepfLoop_end w m st (by tauto)]

theorem digitValue_eq_of_digit {c : Char} (h : 48 ≤ c.toNat ∧ c.toNat ≤ 57) :
    digitValue c = c.toNat - 48 := by
  unfold digitValue
  rw [if_pos (show '0' ≤ c ∧ c ≤ '9' from h)]
  rfl

theorem isdigit_iff (c : Char) : isdigit c = true ↔ (48 ≤ c.toNat ∧ c.toNat ≤ 57) := by
  simp only [isdigit, Bool.and_eq_true, decide_eq_true_eq]
  rfl

theorem isDigitOf_ten_iff (c : Char) :
    isDigitOf 10 c = true ↔ (48 ≤ c.toNat ∧ c.toNat ≤ 57) := by
  rw [isDigitOf_iff]
  constructor
  · intro h
    unfold digitValue at h
    split_ifs at h with h1 h2 h3
    · exact h1
    · omega
    · omega
    · omega
  · intro h
    rw [digitValue_eq_of_digit h]; omega

theorem decimalNat_head (n : Nat) (hn : 0 < n) :
    ∃ c t, decimalNat n = c :: t ∧ '1' ≤ c ∧ c ≤ '9' := by
  obtain ⟨l, hl, hne, hall, -, hlead⟩ := toDigitsCore_spec (n + 1) n [] (by omega)
  have hdn : decimalNat n = l := by simpa [decimalNat, Nat.toDigits] using hl
  obtain ⟨c, t, rfl⟩ := List.exists_cons_of_ne_nil hne
  refine ⟨c, t, hdn, ?_⟩
  have h0 : c ≠ '0' := hlead hn c rfl
  have hd := (isDigitOf_ten_iff c).1 (hall c (by simp))
  have h0n : c.toNat ≠ 48 := fun e => h0 ((char_eq_iff c '0').2 e)
  constructor
  · rw [char_le_iff]; show 49 ≤ c.toNat; omega
  · rw [char_le_iff]; exact hd.2

theorem isdigit_eq_isDigitOf (c : Char) : isdigit c = isDigitOf 10 c := by
  rw [Bool.eq_iff_iff, isdigit_iff, isDigitOf_ten_iff]

theorem digit_not_type {c : Char} (h1 : '1' ≤ c) (h2 : c ≤ '9') :
    c ≠ '\x00' ∧ c ∉ SUPPORTED_SPECIFIER ∧ c ≠ '*' := by
  rw [char_le_iff] at h1 h2
  have e1 : 49 ≤ c.toNat := h1
  have e2 : c.toNat ≤ 57 := h2
  refine ⟨?_, ?_, ?_⟩
  · intro e; subst e; revert e1; decide
  · intro hmem
    simp only [SUPPORTED_SPECIFIER, List.mem_cons, List.mem_singleton, List.not_mem_nil,
      or_false] at hmem
    rcases hmem with rfl | rfl | rfl | rfl | rfl | rfl | rfl <;> revert e2 <;> decide
  · intro e; subst e; revert e1; decide

/-- The scan of a width: the decimal numeral of `N` in a specifier body sets `width` to
`N` and the scan goes on behind it. -/
theorem scanSpecifier_width (w n N : Nat) (t : List Char) (sp : Spec) (hw : 32 ≤ w)
    (hN1 : 1 ≤ N) (hN2 : N < 2 ^ 32) (ht0 : deref t ≠ '\x00') (htd : isdigit (deref t) = false) :
    scanSpecifier w (n + 1) (decimalNat N ++ t) sp =
      scanSpecifier w n t { sp with width := N } := by
  obtain ⟨hne, hall, hv⟩ := decimalNat_spec N
  obtain ⟨c, ds, hcd, hc1, hc9⟩ := decimalNat_head N (by omega)
  obtain ⟨f1, f2, f3⟩ := digit_not_type hc1 hc9
  have hderef : deref (decimalNat N ++ t) = c := by rw [hcd]; rfl
  have htd2 : isDigitOf 10 (deref t) = false := by rw [← isdigit_eq_isDigitOf]; exact htd
  have hconv := strtou32_s_digits w 10 (decimalNat N) t STRSEPF_RESULT_OK (by norm_num)
    (by norm_num) hne hall htd2 (strtoulHex_of_ne _ (by norm_num))
  rw [hv, if_pos ht0] at hconv
  have hul := uint32_le_ulong hw
  have hN3 : N ≤ UINT32_MAX := by unfold UINT32_MAX; omega
  rw [Nat.min_eq_left (by omega), toUInt32_of_le hN3] at hconv
  have htw : (decimalNat N ++ t).takeWhile isdigit = decimalNat N :=
    takeWhile_run (p := isdigit) _ t
      (fun x hx => by rw [isdigit_eq_isDigitOf]; exact hall x hx) (head?_of_deref htd)
  have hlen : (decimalNat N).length - 1 + 1 = (decimalNat N).length := by
    have := List.length_pos.2 hne; omega
  rw [scanSpecifier_succ, hderef, if_neg f1, if_neg f2, if_neg f3, if_pos ⟨hc1, hc9⟩, hconv]
  simp only [ne_eq, not_true_eq_false, if_false, htw, hlen, List.drop_left]

theorem scanToken_width (w : Nat) (st : State) (sp : Spec) (tok : Token) (N : Nat) :
    scanToken w st { sp with width := N } tok = scanToken w st sp tok := rfl

/-- What a token's conversion can return: the error of a NULL argument, of an unhandled
specifier, or the code of a converter. -/
theorem scanToken_ret_codes (w : Nat) (st st1 : State) (sp : Spec) (tok : Token) (rc : Int)
    (h : scanToken w st sp tok = .ret rc st1) :
    rc = STRSEPF_RESULT_ERR_INVALID_ARGS ∨ rc = STRSEPF_RESULT_ERR_INVALID_FORMAT ∨
      IsConvCode rc := by
  unfold scanToken at h
  split_ifs at h
  · unfold bindString at h
    split at h
    · cases h
    · cases h; exact Or.inl rfl
    · cases h
  · unfold bindUnsigned at h
    split at h
    · cases h
    · cases h; exact Or.inl rfl
    · obtain ⟨rfl, -, -⟩ := storeConverted_ret _ _ _ _ _ _ _ h
      exact Or.inr (Or.inr (strtou32_s_code w _ _ _))
  · unfold bindSigned at h
    split at h
    · cases h
    · cases h; exact Or.inl rfl
    · obtain ⟨rfl, -, -⟩ := storeConverted_ret _ _ _ _ _ _ _ h
      exact Or.inr (Or.inr (strto32_s_code w _ _ _))
  · cases h; exact Or.inr (Or.inl rfl)

theorem scanToken_ne_width (w : Nat) (st st1 : State) (sp : Spec) (tok : Token) :
    scanToken w st sp tok ≠ .ret STRSEPF_RESULT_ERR_TOKEN_IS_BIGGER_THAN_WIDTH st1 := by
  intro h
  rcases scanToken_ret_codes w st st1 sp tok _ h with h | h | h
  · revert h; decide
  · revert h; decide
  · unfold IsConvCode at h
    revert h; decide

/-- A specifier of type `ty` with the given flag and width, behind which the format goes
on with `tail`: the specifier body is scanned, the token extracted and handed on. -/
theorem specifier_of_scan (w : Nat) (st : State) (fmt tail : List Char) (sp : Spec)
    (hscan : scanSpecifier w (fmt.length + 1) fmt ⟨'\x00', false, 0⟩ = .done sp tail)
    (hty : sp.specifierType ≠ '\x00') (tok : Token) (cur : Cursor) (fmt3 : List Char)
    (htok : tokenise st.mutStr tail = some (tok, cur, fmt3)) :
    specifier w st fmt =
      bindToken w { st with mutStr := cur, fmt := fmt3,
                            specs := st.specs ++ [⟨sp.specifierType, sp.noAssignFlag⟩] }
        sp tok := by
  unfold specifier
  rw [hscan]
  simp only [if_neg hty, htok]

theorem supported_facts {ty : Char} (hty : ty ∈ SUPPORTED_SPECIFIER) :
    ty ≠ '\x00' ∧ ty ≠ '%' ∧ isdigit ty = false := by
  simp only [SUPPORTED_SPECIFIER, List.mem_cons, List.mem_singleton, List.not_mem_nil,
    or_false] at hty
  rcases hty with rfl | rfl | rfl | rfl | rfl | rfl | rfl <;> decide

/-- The scan of an unsuppressed specifier with the width `N`. -/
theorem scanSpecifier_width_type (w N : Nat) (ty : Char) (tail : List Char) (hw : 32 ≤ w)
    (hN1 : 1 ≤ N) (hN2 : N < 2 ^ 32) (hty : ty ∈ SUPPORTED_SPECIFIER) :
    scanSpecifier w ((decimalNat N ++ ty :: tail).length + 1) (decimalNat N ++ ty :: tail)
      ⟨'\x00', false, 0⟩ = .done ⟨ty, false, N⟩ tail := by
  obtain ⟨h0, -, hd⟩ := supported_facts hty
  obtain ⟨k, hk⟩ : ∃ k, (decimalNat N ++ ty :: tail).length = k + 1 :=
    ⟨(decimalNat N ++ ty :: tail).length - 1, by
      have : 0 < (decimalNat N ++ ty :: tail).length := by simp
      omega⟩
  rw [hk, scanSpecifier_width w (k + 1) N (ty :: tail) _ hw hN1 hN2 (by rw [deref_cons]; exact h0)
    (by rw [deref_cons]; exact hd), scanSpecifier_type w k ty tail _ hty]

/-- C8. Where the driver reaches an unsuppressed specifier with a declared width `N`,
`1 ≤ N < 2^32`: the pass returns `STRSEPF_RESULT_ERR_TOKEN_IS_BIGGER_THAN_WIDTH` exactly
when the extracted token is longer than `N`, and then no argument has been used and nothing
stored; when the token has at most `N` characters the pass, and with it the rest of the
call, is the one of the same specifier without the width. -/
theorem width_bounds_length (w : Nat) (st : State) (N : Nat) (ty : Char) (tail : List Char)
    (hw : 32 ≤ w) (hN1 : 1 ≤ N) (hN2 : N < 2 ^ 32) (hty : ty ∈ SUPPORTED_SPECIFIER)
    (hfmt : st.fmt = '%' :: (decimalNat N ++ ty :: tail))
    (hin : deref st.mutStr.rest ≠ '\x00') :
    ∃ tok cur fmt3, tokenise st.mutStr tail = some (tok, cur, fmt3) ∧
      ((∃ st2, loopBody w st = .ret STRSEPF_RESULT_ERR_TOKEN_IS_BIGGER_THAN_WIDTH st2) ↔
        N < strlen tok.str) ∧
      (N < strlen tok.str → ∀ n,
        vstrsepfLoop w (n + 1) st = .returned STRSEPF_RESULT_ERR_TOKEN_IS_BIGGER_THAN_WIDTH
          { mutStr := cur, fmt := fmt3, arg := st.arg, count := st.count, stores := st.stores,
            specs := st.specs ++ [⟨ty, false⟩] }) ∧
      (strlen tok.str ≤ N →
        loopBody w st = loopBody w { st with fmt := '%' :: ty :: tail } ∧
        ∀ n m, st.fmt.length < n → (ty :: tail).length + 1 < m →
          vstrsepfLoop w n st = vstrsepfLoop w m { st with fmt := '%' :: ty :: tail }) := by
  obtain ⟨h0, hpc, -⟩ := supported_facts hty
  obtain ⟨tok, cur, fmt3, htok⟩ := tokenise_isSome st.mutStr tail
  obtain ⟨c, ds, hcd, hc1, hc9⟩ := decimalNat_head N (by omega)
  have hcpc : c ≠ '%' := by
    intro e; subst e; revert hc1; decide
  -- the pass with the width
  have hW : loopBody w st =
      bindToken w { st with mutStr := cur, fmt := fmt3, specs := st.specs ++ [⟨ty, false⟩] }
        ⟨ty, false, N⟩ tok := by
    rw [loopBody_specifier w st c (ds ++ ty :: tail) (by rw [hfmt, hcd]; rfl) hcpc]
    have hfm : c :: (ds ++ ty :: tail) = decimalNat N ++ ty :: tail := by rw [hcd]; rfl
    rw [hfm, specifier_of_scan w st _ tail ⟨ty, false, N⟩
      (scanSpecifier_width_type w N ty tail hw hN1 hN2 hty) h0 tok cur fmt3 htok]
  -- the pass without it
  have h0' : loopBody w { st with fmt := '%' :: ty :: tail } =
      scanToken w { st with mutStr := cur, fmt := fmt3, specs := st.specs ++ [⟨ty, false⟩] }
        ⟨ty, false, 0⟩ tok := by
    rw [loopBody_specifier w _ ty tail rfl hpc,
      specifier_of_scan w { st with fmt := '%' :: ty :: tail } (ty :: tail) tail ⟨ty, false, 0⟩
        (scanSpecifier_type w _ ty tail _ hty) h0 tok cur fmt3 htok]
    unfold bindToken
    simp
  have hlong : N < strlen tok.str →
      loopBody w st = .ret STRSEPF_RESULT_ERR_TOKEN_IS_BIGGER_THAN_WIDTH
        { st with mutStr := cur, fmt := fmt3, specs := st.specs ++ [⟨ty, false⟩] } := by
    intro hl
    rw [hW]
    unfold bindToken
    simp only [Bool.false_eq_true, if_false]
    rw [if_pos ⟨by omega, hl⟩]
  have hshort : strlen tok.str ≤ N →
      loopBody w st = loopBody w { st with fmt := '%' :: ty :: tail } := by
    intro hl
    rw [hW, h0']
    unfold bindToken
    simp only [Bool.false_eq_true, if_false]
    rw [if_neg (by omega)]
    rfl
  have hd1 : deref st.fmt ≠ '\x00' := by rw [hfmt, deref_cons]; decide
  refine ⟨tok, cur, fmt3, htok, ⟨?_, fun hl => ⟨_, hlong hl⟩⟩,
    fun hl n => vstrsepfLoop_ret w n st _ _ hin hd1 (hlong hl), fun hl => ⟨hshort hl, ?_⟩⟩
  · rintro ⟨st2, h2⟩
    by_contra hl
    rw [hshort (by omega), h0'] at h2
    exact scanToken_ne_width w _ _ _ _ h2
  · intro n m hn hm
    obtain ⟨n, rfl⟩ : ∃ k, n = k + 1 := ⟨n - 1, by omega⟩
    obtain ⟨m, rfl⟩ : ∃ k, m = k + 1 := ⟨m - 1, by omega⟩
    have hd1 : deref st.fmt ≠ '\x00' := by rw [hfmt, deref_cons]; decide
    have hd2 : deref ('%' :: ty :: tail) ≠ '\x00' := by rw [deref_cons]; decide
    cases hb : loopBody w st with
    | next st1 =>
      have hlt := loopBody_fmt_length w st st1 hd1 hb
      have hb2 := hb
      rw [hshort hl] at hb2
      have hlt2 := loopBody_fmt_length w _ st1 hd2 hb2
      rw [vstrsepfLoop_next w n st st1 hin hd1 hb,
        vstrsepfLoop_next w m { st with fmt := '%' :: ty :: tail } st1 hin hd2 hb2]
      exact vstrsepfLoop_fuel w n m st1 (by omega) (by simp at hlt2 hm; omega)
    | ret rc st1 =>
      have hb2 := hb
      rw [hshort hl] at hb2
      rw [vstrsepfLoop_ret w n st st1 rc hin hd1 hb,
        vstrsepfLoop_ret w m { st with fmt := '%' :: ty :: tail } st1 rc hin hd2 hb2]
    | undef st1 =>
      have hb2 := hb
      rw [hshort hl] at hb2
      have c1 : deref st.mutStr.rest ≠ '\x00' ∧ deref st.fmt ≠ '\x00' := ⟨hin, hd1⟩
      have c2 : deref ({ st with fmt := '%' :: ty :: tail } : State).mutStr.rest ≠ '\x00' ∧
          deref ({ st with fmt := '%' :: ty :: tail } : State).fmt ≠ '\x00' := ⟨hin, hd2⟩
      simp only [vstrsepfLoop, if_pos c1, if_pos c2, hb, hb2]
    | fuel => exact absurd hb (loopBody_ne_fuel w st)

theorem width_bounds_length_witness :
    ((vstrsepf 64 (some "192.168.0.13".toList) (some "%3d.%3d.%3d.%3d".toList)
        [some 0, some 1, some 2, some 3]).rc? = some 4 ∧
      (vstrsepf 64 (some "192.168.0.13".toList) (some "%3d.%3d.%3d.%3d".toList)
        [some 0, some 1, some 2, some 3]).stores =
      (vstrsepf 64 (some "192.168.0.13".toList) (some "%d.%d.%d.%d".toList)
        [some 0, some 1, some 2, some 3]).stores ∧
      (vstrsepf 64 (some "192.1684.0.13".toList) (some "%3d.%3d.%3d.%3d".toList)
        [some 0, some 1, some 2, some 3]).rc? = some (-5) ∧
      (vstrsepf 64 (some "192.1684.0.13".toList) (some "%3d.%3d.%3d.%3d".toList)
        [some 0, some 1, some 2, some 3]).stores = [(0, .i32 192)]) ∧
    ∃ tok cur fmt3,
      tokenise (initState "1684.0.13".toList "%3d.%3d".toList [some 1, some 2]).mutStr
        ".%3d".toList = some (tok, cur, fmt3) ∧
      ((∃ st2, loopBody 64 (initState "1684.0.13".toList "%3d.%3d".toList [some 1, some 2]) =
          .ret STRSEPF_RESULT_ERR_TOKEN_IS_BIGGER_THAN_WIDTH st2) ↔ 3 < strlen tok.str) ∧
      (3 < strlen tok.str → ∀ n,
        vstrsepfLoop 64 (n + 1)
            (initState "1684.0.13".toList "%3d.%3d".toList [some 1, some 2]) =
          .returned STRSEPF_RESULT_ERR_TOKEN_IS_BIGGER_THAN_WIDTH
            { mutStr := cur, fmt := fmt3, arg := [some 1, some 2], count := 0, stores := [],
              specs := [] ++ [⟨'d', false⟩] }) ∧
      (strlen tok.str ≤ 3 →
        loopBody 64 (initState "1684.0.13".toList "%3d.%3d".toList [some 1, some 2]) =
          loopBody 64 { initState "1684.0.13".toList "%3d.%3d".toList [some 1, some 2] with
            fmt := '%' :: 'd' :: ".%3d".toList } ∧
        ∀ n m, (initState "1684.0.13".toList "%3d.%3d".toList [some 1, some 2]).fmt.length < n →
          ('d' :: ".%3d".toList).length + 1 < m →
          vstrsepfLoop 64 n (initState "1684.0.13".toList "%3d.%3d".toList [some 1, some 2]) =
            vstrsepfLoop 64 m
              { initState "1684.0.13".toList "%3d.%3d".toList [some 1, some 2] with
                fmt := '%' :: 'd' :: ".%3d".toList }) :=
  ⟨by decide,
    width_bounds_length 64 (initState "1684.0.13".toList "%3d.%3d".toList [some 1, some 2]) 3
      'd' ".%3d".toList (by decide) (by decide) (by decide) (by decide) (by decide) (by decide)⟩

/-! ### Suppressed specifiers -/

theorem loopBody_percent (w : Nat) (st : State) (fmt : List Char)
    (hfmt : st.fmt = '%' :: fmt) (hc : deref fmt ≠ '%') :
    loopBody w st = specifier w st fmt := by
  rw [loopBody_eq, hfmt]
  simp [deref_cons, hc]

/-- A suppressed specifier: whatever its width and its token, the pass extracts the token
and goes on, with the arguments, the count and the stores as they were. -/
theorem loopBody_suppressed (w : Nat) (st : State) (fmt1 fmt2 fmt3 : List Char) (sp : Spec)
    (tok : Token) (cur : Cursor) (hfmt : st.fmt = '%' :: fmt1) (hpc : deref fmt1 ≠ '%')
    (hscan : scanSpecifier w (fmt1.length + 1) fmt1 ⟨'\x00', false, 0⟩ = .done sp fmt2)
    (hty : sp.specifierType ≠ '\x00') (hna : sp.noAssignFlag = true)
    (htok : tokenise st.mutStr fmt2 = some (tok, cur, fmt3)) :
    loopBody w st =
      .next { st with mutStr := cur, fmt := fmt3,
                      specs := st.specs ++ [⟨sp.specifierType, true⟩] } := by
  rw [loopBody_percent w st fmt1 hfmt hpc,
    specifier_of_scan w st fmt1 fmt2 sp hscan hty tok cur fmt3 htok]
  unfold bindToken
  rw [if_pos hna, hna]

/-- How a call that returns has left the loop: with an error code returned by the body,
or by the loop condition with the count, in a state that satisfies the invariant. -/
theorem vstrsepf_returned (w : Nat) (mutStr fmt : List Char) (arg : List (Option Nat))
    (rc : Int) (st : State) (h : vstrsepf w (some mutStr) (some fmt) arg = .returned rc st) :
    (-8 ≤ rc ∧ rc ≤ -1) ∨ (rc = toInt16 st.count ∧ LoopInv arg fmt st) := by
  have hlen : (initState mutStr fmt arg).fmt.length < fmt.length + 1 := Nat.lt_succ_self _
  have hstep : ∀ st st1, LoopInv arg fmt st → deref st.mutStr.rest ≠ '\x00' →
      deref st.fmt ≠ '\x00' → loopBody w st = .next st1 → LoopInv arg fmt st1 :=
    fun st st1 hP _ _ h => loopInv_step w arg fmt st st1 hP h
  have hall := vstrsepfLoop_cases w (LoopInv arg fmt) hstep
    (fmt.length + 1) (initState mutStr fmt arg) (loopInv_init mutStr fmt arg) hlen
  have hrun : vstrsepf w (some mutStr) (some fmt) arg =
      vstrsepfLoop w (fmt.length + 1) (initState mutStr fmt arg) := rfl
  rw [hrun] at h
  generalize vstrsepfLoop w (fmt.length + 1) (initState mutStr fmt arg) = res at hall h
  obtain ⟨st2, hinv, hcase⟩ := hall
  rcases hcase with ⟨-, rfl⟩ | ⟨-, -, ⟨rc1, st3, hb, rfl⟩ | ⟨st3, hb, rfl⟩⟩
  · simp only [Outcome.returned.injEq] at h
    obtain ⟨rfl, rfl⟩ := h
    exact Or.inr ⟨rfl, hinv⟩
  · simp only [Outcome.returned.injEq] at h
    obtain ⟨rfl, rfl⟩ := h
    exact Or.inl (loopBody_ret w st2 _ _ hb)
  · cases h

/-- The scan of a width of any size: the numeral sets `width` to the converted value as a
`uint32_t` and the scan goes on behind it. -/
theorem scanSpecifier_any_width (w n N : Nat) (t : List Char) (sp : Spec) (hN1 : 1 ≤ N)
    (ht0 : deref t ≠ '\x00') (htd : isdigit (deref t) = false) :
    scanSpecifier w (n + 1) (decimalNat N ++ t) sp =
      scanSpecifier w n t { sp with width := toUInt32 (min N (ULONG_MAX w)) } := by
  obtain ⟨hne, hall, hv⟩ := decimalNat_spec N
  obtain ⟨c, ds, hcd, hc1, hc9⟩ := decimalNat_head N (by omega)
  obtain ⟨f1, f2, f3⟩ := digit_not_type hc1 hc9
  have hderef : deref (decimalNat N ++ t) = c := by rw [hcd]; rfl
  have htd2 : isDigitOf 10 (deref t) = false := by rw [← isdigit_eq_isDigitOf]; exact htd
  have hconv := strtou32_s_digits w 10 (decimalNat N) t STRSEPF_RESULT_OK (by norm_num)
    (by norm_num) hne hall htd2 (strtoulHex_of_ne _ (by norm_num))
  rw [hv, if_pos ht0] at hconv
  have htw : (decimalNat N ++ t).takeWhile isdigit = decimalNat N :=
    takeWhile_run (p := isdigit) _ t
      (fun x hx => by rw [isdigit_eq_isDigitOf]; exact hall x hx) (head?_of_deref htd)
  have hlen : (decimalNat N).length - 1 + 1 = (decimalNat N).length := by
    have := List.length_pos.2 hne; omega
  rw [scanSpecifier_succ, hderef, if_neg f1, if_neg f2, if_neg f3, if_pos ⟨hc1, hc9⟩, hconv]
  simp only [ne_eq, not_true_eq_false, if_false, htw, hlen, List.drop_left]

/-- A specifier body begins, if it is not empty, with `*` or with a digit from 1 to 9. -/
theorem SpecBody.head {b : List Char} (h : SpecBody b) :
    b = [] ∨ deref b = '*' ∨ ('1' ≤ deref b ∧ deref b ≤ '9') := by
  cases h with
  | nil => exact Or.inl rfl
  | star _ => exact Or.inr (Or.inl rfl)
  | width N hN _ _ =>
    obtain ⟨c, ds, hcd, hc1, hc9⟩ := decimalNat_head N (by omega)
    refine Or.inr (Or.inr ?_)
    rw [hcd]
    exact ⟨hc1, hc9⟩

theorem SpecBody.deref_append {b : List Char} (h : SpecBody b) (ty : Char) (tail : List Char)
    (hty : ty ∈ SUPPORTED_SPECIFIER) (hd : isdigit (deref b) = false) :
    deref (b ++ ty :: tail) ≠ '\x00' ∧ isdigit (deref (b ++ ty :: tail)) = false := by
  obtain ⟨h0, -, hdt⟩ := supported_facts hty
  rcases h.head with rfl | hs | ⟨h1, h9⟩
  · exact ⟨h0, hdt⟩
  · have hne : deref b ≠ '\x00' := by rw [hs]; decide
    rw [deref_append_of_ne _ hne, hs]
    exact ⟨by decide, by decide⟩
  · exfalso
    have : isdigit (deref b) = true := by
      rw [isdigit_iff]
      rw [char_le_iff] at h1 h9
      have e1 : 49 ≤ (deref b).toNat := h1
      have e2 : (deref b).toNat ≤ 57 := h9
      omega
    rw [this] at hd
    exact absurd hd (by decide)

theorem star_not_mem_decimalNat (N : Nat) : '*' ∉ decimalNat N := by
  intro h
  have := (decimalNat_spec N).2.1 _ h
  revert this
  decide

/-- The scan of a whole specifier body followed by a type character: it ends behind the
type, and the suppress flag is set exactly when it was set before or the body has a `*`. -/
theorem scanSpecifier_body (w : Nat) (ty : Char) (tail : List Char)
    (hty : ty ∈ SUPPORTED_SPECIFIER) {b : List Char} (hb : SpecBody b) :
    ∀ (n : Nat) (sp : Spec), b.length < n →
      ∃ sp1, scanSpecifier w n (b ++ ty :: tail) sp = .done sp1 tail ∧
        sp1.specifierType = ty ∧
        (sp1.noAssignFlag = true ↔ (sp.noAssignFlag = true ∨ '*' ∈ b)) := by
  induction hb with
  | nil =>
    intro n sp hn
    obtain ⟨k, rfl⟩ : ∃ k, n = k + 1 := ⟨n - 1, by omega⟩
    exact ⟨_, scanSpecifier_type w k ty tail sp hty, rfl, by simp⟩
  | star hb ih =>
    intro n sp hn
    obtain ⟨k, rfl⟩ : ∃ k, n = k + 1 := ⟨n - 1, by omega⟩
    obtain ⟨sp1, h1, h2, h3⟩ := ih k { sp with noAssignFlag := true } (by simpa using hn)
    refine ⟨sp1, ?_, h2, ?_⟩
    · rw [List.cons_append, scanSpecifier_star, h1]
    · simp only [true_or, iff_true] at h3
      simp [h3]
  | width N hN hd hb ih =>
    intro n sp hn
    obtain ⟨k, rfl⟩ : ∃ k, n = k + 1 := ⟨n - 1, by omega⟩
    have hpos := List.length_pos.2 (decimalNat_spec N).1
    obtain ⟨sp1, h1, h2, h3⟩ := ih k { sp with width := toUInt32 (min N (ULONG_MAX w)) }
      (by rw [List.length_append] at hn; omega)
    obtain ⟨e1, e2⟩ := hb.deref_append ty tail hty hd
    refine ⟨sp1, ?_, h2, ?_⟩
    · rw [List.append_assoc, scanSpecifier_any_width w k N _ sp hN e1 e2, h1]
    · rw [h3, List.mem_append]
      have := star_not_mem_decimalNat N
      tauto

/-- C9. Where the driver reaches a suppressed specifier, that is `%`, a body of `*` and
widths with at least one `*`, and a type character: the pass uses no argument, stores
nothing and leaves the count as it is; its token is extracted all the same, and when the
terminator `c` is found behind a token `t` the cursor moves behind it; the token is not
compared with any width of the body, whatever its length. In every call that leaves the
loop by its condition the result is the count, as an `int16_t`, of the unsuppressed
specifiers processed, and the stores are those of these specifiers, one for one and each
of the kind of its specifier, through that many first arguments in order. -/
theorem suppressed_no_slot (w : Nat) (st : State) (body tail fmt3 : List Char) (ty : Char)
    (tok : Token) (cur : Cursor) (hbody : SpecBody body) (hstar : '*' ∈ body)
    (hty : ty ∈ SUPPORTED_SPECIFIER) (hfmt : st.fmt = '%' :: (body ++ ty :: tail))
    (htok : tokenise st.mutStr tail = some (tok, cur, fmt3)) :
    loopBody w st =
      .next { mutStr := cur, fmt := fmt3, arg := st.arg, count := st.count,
              stores := st.stores, specs := st.specs ++ [⟨ty, true⟩] } ∧
    (∀ (c : Char) (t r fmt : List Char), tail = c :: fmt → c ≠ '\x00' →
      st.mutStr.rest = t ++ c :: r → (∀ x ∈ t, x ≠ '\x00' ∧ x ≠ c) →
      tok = ⟨st.mutStr.pre.length, t⟩ ∧ cur = ⟨st.mutStr.pre ++ t ++ ['\x00'], r⟩ ∧
        fmt3 = fmt) ∧
    (∀ (mutStr fmt : List Char) (arg : List (Option Nat)) (rc : Int) (st1 : State),
      vstrsepf w (some mutStr) (some fmt) arg = .returned rc st1 →
      (-8 ≤ rc ∧ rc ≤ -1) ∨
      (rc = toInt16 ((st1.specs.filter (fun p => !p.noAssignFlag)).length : Int) ∧
        st1.stores.length = (st1.specs.filter (fun p => !p.noAssignFlag)).length ∧
        st1.stores.map (fun p => some p.1) =
          arg.take (st1.specs.filter (fun p => !p.noAssignFlag)).length ∧
        (st1.specs.filter (fun p => !p.noAssignFlag)).map
            (fun p => kindOfType p.specifierType) = st1.stores.map (fun p => p.2.kind))) := by
  obtain ⟨h0, hpc, -⟩ := supported_facts hty
  obtain ⟨sp, hscan, hspty, hna⟩ := scanSpecifier_body w ty tail hty hbody
    ((body ++ ty :: tail).length + 1) ⟨'\x00', false, 0⟩ (by rw [List.length_append]; omega)
  have hna1 : sp.noAssignFlag = true := hna.2 (Or.inr hstar)
  have hd : deref (body ++ ty :: tail) ≠ '%' := by
    rcases hbody.head with rfl | hs | ⟨h1, h9⟩
    · exact hpc
    · have hne : deref body ≠ '\x00' := by rw [hs]; decide
      rw [deref_append_of_ne _ hne, hs]; decide
    · have hne : deref body ≠ '\x00' := (digit_not_type h1 h9).1
      rw [deref_append_of_ne _ hne]
      intro e
      rw [e] at h1
      revert h1
      decide
  have hstep := loopBody_suppressed w st (body ++ ty :: tail) tail fmt3 sp tok cur hfmt hd hscan
    (by rw [hspty]; exact h0) hna1 htok
  rw [hspty] at hstep
  refine ⟨hstep, ?_, ?_⟩
  · intro c t r fmt hf2 hc0 hrest hchars
    have hcur : st.mutStr = ⟨st.mutStr.pre, t ++ c :: r⟩ := by rw [← hrest]
    have h2 : tokenise st.mutStr tail =
        some (⟨st.mutStr.pre.length, t⟩, ⟨st.mutStr.pre ++ t ++ ['\x00'], r⟩, fmt) := by
      unfold tokenise
      rw [hf2, deref_cons, if_neg hc0, hcur,
        strsep_found _ _ _ _ (fun x hx => (hchars x hx).1) (fun x hx => (hchars x hx).2) hc0]
      rfl
    rw [htok] at h2
    simp only [Option.some.injEq, Prod.mk.injEq] at h2
    exact h2
  · intro mutStr fmt arg rc st1 h
    rcases vstrsepf_returned w mutStr fmt arg rc st1 h with h1 | ⟨h1, i1, i2, i3, -, i5⟩
    · exact Or.inl h1
    · refine Or.inr ⟨by rw [h1, i3], by rw [← i2, i3], ?_, i5⟩
      have hl : (st1.stores.map (fun p => some p.1)).length = st1.count := by simp [i2]
      rw [← i3]
      conv_rhs => rw [i1, ← hl, List.take_left']

theorem suppressed_no_slot_witness :
    ((vstrsepf 64 (some "1. my address is 890 rue de la rose, CAN.".toList)
        (some "%*d. %*s %*s %*s %d %s, %*s".toList) [some 0, some 1]).rc? = some 2 ∧
      (vstrsepf 64 (some "1. my address is 890 rue de la rose, CAN.".toList)
        (some "%*d. %*s %*s %*s %d %s, %*s".toList) [some 0, some 1]).stores =
        [(0, .i32 890), (1, .str 21)] ∧
      stringAt (vstrsepf 64 (some "1. my address is 890 rue de la rose, CAN.".toList)
        (some "%*d. %*s %*s %*s %d %s, %*s".toList) [some 0, some 1]).buffer 21 =
        "rue de la rose".toList ∧
      '*' :: (decimalNat 2 ++ []) = "*2".toList) ∧
    (loopBody 64 (initState "12345. x".toList "%*2d. %s".toList [some 7]) =
      .next { mutStr := ⟨"12345\x00".toList, " x".toList⟩, fmt := " %s".toList,
              arg := [some 7], count := 0, stores := [], specs := [] ++ [⟨'d', true⟩] } ∧
    (∀ (c : Char) (t r fmt : List Char), ". %s".toList = c :: fmt → c ≠ '\x00' →
      (initState "12345. x".toList "%*2d. %s".toList [some 7]).mutStr.rest = t ++ c :: r →
      (∀ x ∈ t, x ≠ '\x00' ∧ x ≠ c) →
      (⟨0, "12345".toList⟩ : Token) =
          ⟨(initState "12345. x".toList "%*2d. %s".toList [some 7]).mutStr.pre.length, t⟩ ∧
        (⟨"12345\x00".toList, " x".toList⟩ : Cursor) =
          ⟨(initState "12345. x".toList "%*2d. %s".toList [some 7]).mutStr.pre ++ t ++
            ['\x00'], r⟩ ∧
        " %s".toList = fmt) ∧
    (∀ (mutStr fmt : List Char) (arg : List (Option Nat)) (rc : Int) (st1 : State),
      vstrsepf 64 (some mutStr) (some fmt) arg = .returned rc st1 →
      (-8 ≤ rc ∧ rc ≤ -1) ∨
      (rc = toInt16 ((st1.specs.filter (fun p => !p.noAssignFlag)).length : Int) ∧
        st1.stores.length = (st1.specs.filter (fun p => !p.noAssignFlag)).length ∧
        st1.stores.map (fun p => some p.1) =
          arg.take (st1.specs.filter (fun p => !p.noAssignFlag)).length ∧
        (st1.specs.filter (fun p => !p.noAssignFlag)).map
            (fun p => kindOfType p.specifierType) = st1.stores.map (fun p => p.2.kind)))) :=
  ⟨by decide,
    suppressed_no_slot 64 (initState "12345. x".toList "%*2d. %s".toList [some 7])
      ('*' :: (decimalNat 2 ++ [])) ". %s".toList " %s".toList 'd' ⟨0, "12345".toList⟩
      ⟨"12345\x00".toList, " x".toList⟩
      (SpecBody.star (SpecBody.width 2 (by decide) (by decide) SpecBody.nil)) (by decide)
      (by decide) (by decide) (by decide)⟩

theorem numeric_supported {ty : Char} (hty : ty ∈ ['d', 'i', 'u', 'x', 'o', 'b']) :
    ty ∈ SUPPORTED_SPECIFIER := by
  simp only [List.mem_cons, List.mem_singleton, List.not_mem_nil, or_false] at hty
  rcases hty with rfl | rfl | rfl | rfl | rfl | rfl <;> decide

/-- The scan of a suppressed specifier without width. -/
theorem scanSpecifier_star_type (w : Nat) (ty : Char) (tail : List Char)
    (hty : ty ∈ SUPPORTED_SPECIFIER) :
    scanSpecifier w (('*' :: ty :: tail).length + 1) ('*' :: ty :: tail) ⟨'\x00', false, 0⟩ =
      .done ⟨ty, true, 0⟩ tail := by
  rw [List.length_cons, List.length_cons, scanSpecifier_star, scanSpecifier_type w _ ty tail _ hty]

/-- C10, as amended. A suppressed numeric specifier does not convert its token: where the
driver reaches `%*d`, `%*i`, `%*u`, `%*x`, `%*o` or `%*b`, whatever the input, the pass
extracts the token and goes on without any return, so no conversion error is raised; a
call whose whole format is such a specifier returns 0 on every input that is not empty,
with nothing stored and the buffer as it was. -/
theorem suppressed_numeric_unchecked (w : Nat) (st : State) (ty : Char) (tail : List Char)
    (hty : ty ∈ ['d', 'i', 'u', 'x', 'o', 'b']) (hfmt : st.fmt = '%' :: '*' :: ty :: tail) :
    (∃ tok cur fmt3, tokenise st.mutStr tail = some (tok, cur, fmt3) ∧
      loopBody w st =
        .next { mutStr := cur, fmt := fmt3, arg := st.arg, count := st.count,
                stores := st.stores, specs := st.specs ++ [⟨ty, true⟩] }) ∧
    ∀ (mutStr : List Char) (arg : List (Option Nat)), deref mutStr ≠ '\x00' →
      vstrsepf w (some mutStr) (some ['%', '*', ty]) arg =
        .returned 0 ⟨⟨[], mutStr⟩, [], arg, 0, [], [⟨ty, true⟩]⟩ := by
  have hsup := numeric_supported hty
  obtain ⟨h0, -, -⟩ := supported_facts hsup
  constructor
  · obtain ⟨tok, cur, fmt3, htok⟩ := tokenise_isSome st.mutStr tail
    exact ⟨tok, cur, fmt3, htok,
      loopBody_suppressed w st ('*' :: ty :: tail) tail fmt3 ⟨ty, true, 0⟩ tok cur hfmt
        (by rw [deref_cons]; decide) (scanSpecifier_star_type w ty tail hsup) h0 rfl htok⟩
  · intro mutStr arg hin
    have hrun : vstrsepf w (some mutStr) (some ['%', '*', ty]) arg =
        vstrsepfLoop w 4 (initState mutStr ['%', '*', ty] arg) := rfl
    have htok : tokenise (initState mutStr ['%', '*', ty] arg).mutStr [] =
        some (⟨0, cstr mutStr⟩, ⟨[], mutStr⟩, []) := by
      unfold tokenise
      rw [deref_nil, if_pos rfl]
      rfl
    have hb := loopBody_suppressed w (initState mutStr ['%', '*', ty] arg) ['*', ty] [] []
      ⟨ty, true, 0⟩ ⟨0, cstr mutStr⟩ ⟨[], mutStr⟩ rfl (by rw [deref_cons]; decide)
      (scanSpecifier_star_type w ty [] hsup) h0 rfl htok
    rw [hrun, vstrsepfLoop_next w 3 _ _ hin (by simp [initState, deref]) hb]
    show vstrsepfLoop w 3 ⟨⟨[], mutStr⟩, [], arg, 0, [], [⟨ty, true⟩]⟩ = _
    rw [vstrsepfLoop_end w 2 ⟨⟨[], mutStr⟩, [], arg, 0, [], [⟨ty, true⟩]⟩ (Or.inr rfl)]
    have h16 : toInt16 ((0 : Nat) : Int) = 0 := by decide
    rw [h16]

theorem suppressed_numeric_unchecked_witness :
    (initState "abc,7".toList "%*d,%d".toList [some 0]).fmt = '%' :: '*' :: 'd' :: ",%d".toList ∧
    ((∃ tok cur fmt3,
      tokenise (initState "abc,7".toList "%*d,%d".toList [some 0]).mutStr ",%d".toList =
        some (tok, cur, fmt3) ∧
      loopBody 64 (initState "abc,7".toList "%*d,%d".toList [some 0]) =
        .next { mutStr := cur, fmt := fmt3, arg := [some 0], count := 0,
                stores := [], specs := [] ++ [⟨'d', true⟩] }) ∧
    ∀ (mutStr : List Char) (arg : List (Option Nat)), deref mutStr ≠ '\x00' →
      vstrsepf 64 (some mutStr) (some ['%', '*', 'd']) arg =
        .returned 0 ⟨⟨[], mutStr⟩, [], arg, 0, [], [⟨'d', true⟩]⟩) :=
  ⟨by decide, suppressed_numeric_unchecked 64 (initState "abc,7".toList "%*d,%d".toList [some 0])
    'd' ",%d".toList (by decide) (by decide)⟩

/-- C10, as stated, fails. The tokens `abc`, `12x` and `99999999999` make `%d` with a slot
return -6, -7 and -8, while `%*d` on the same inputs returns 0. -/
theorem suppressed_numeric_no_error :
    (vstrsepf 64 (some "abc".toList) (some "%d".toList) [some 0]).rc? = some (-6) ∧
    (vstrsepf 64 (some "abc".toList) (some "%*d".toList) [some 0]).rc? = some 0 ∧
    (vstrsepf 64 (some "12x".toList) (some "%d".toList) [some 0]).rc? = some (-7) ∧
    (vstrsepf 64 (some "12x".toList) (some "%*d".toList) [some 0]).rc? = some 0 ∧
    (vstrsepf 64 (some "99999999999".toList) (some "%d".toList) [some 0]).rc? = some (-8) ∧
    (vstrsepf 64 (some "99999999999".toList) (some "%*d".toList) [some 0]).rc? = some 0 ∧
    (vstrsepf 64 (some "abc,7".toList) (some "%*x,%d".toList) [some 0]).rc? = some 1 := by
  refine ⟨by decide, by decide, by decide, by decide, by decide, by decide, by decide⟩

/-! ### Empty input, empty format and formats of literals -/

theorem toInt16_zero : toInt16 ((0 : Nat) : Int) = 0 := by decide

/-- C19. A call on the empty input, whatever the format, and a call with the empty format,
whatever the input, returns 0 at once: the loop is not entered, so no argument is read,
nothing is stored and the buffer stays as it was. -/
theorem empty_returns_zero (w : Nat) (s f : List Char) (arg : List (Option Nat))
    (h : deref s = '\x00' ∨ deref f = '\x00') :
    vstrsepf w (some s) (some f) arg = .returned 0 (initState s f arg) ∧
    (vstrsepf w (some s) (some f) arg).stores = [] ∧
    (vstrsepf w (some s) (some f) arg).buffer = s := by
  have e : vstrsepf w (some s) (some f) arg = .returned 0 (initState s f arg) := by
    show vstrsepfLoop w (f.length + 1) (initState s f arg) = _
    rw [vstrsepfLoop_end w f.length (initState s f arg) h]
    show Outcome.returned (toInt16 ((0 : Nat) : Int)) _ = _
    rw [toInt16_zero]
  rw [e]
  exact ⟨rfl, rfl, rfl⟩

theorem empty_returns_zero_witness :
    (deref "".toList = '\x00' ∨ deref "%d,%s".toList = '\x00') ∧
    (vstrsepf 64 (some "".toList) (some "%d,%s".toList) [some 0, some 1] =
        .returned 0 (initState "".toList "%d,%s".toList [some 0, some 1]) ∧
      (vstrsepf 64 (some "".toList) (some "%d,%s".toList) [some 0, some 1]).stores = [] ∧
      (vstrsepf 64 (some "".toList) (some "%d,%s".toList) [some 0, some 1]).buffer =
        "".toList) ∧
    (vstrsepf 64 (some "$GPBWC,081837,,,,,,T,,M,,N,*13".toList) (some "".toList)
        [some 0, some 1]).rc? = some 0 ∧
    (vstrsepf 64 (some "".toList) (some "%j%".toList) []).rc? = some 0 :=
  ⟨Or.inl rfl,
    empty_returns_zero 64 "".toList "%d,%s".toList [some 0, some 1] (Or.inl rfl),
    by decide, by decide⟩

theorem cstr_nil : cstr [] = [] := rfl

theorem cstr_cons_of_ne (c : Char) (t : List Char) (h : c ≠ '\x00') :
    cstr (c :: t) = c :: cstr t := by
  simp [cstr, List.takeWhile_cons, h]

theorem cstr_of_deref_nul (l : List Char) (h : deref l = '\x00') : cstr l = [] := by
  cases l with
  | nil => rfl
  | cons c t =>
    rw [deref_cons] at h
    simp [cstr, List.takeWhile_cons, h]

/-- The loop on a format of literals: it ends by its condition when one of the two strings
is a prefix of the other, and with a mismatch otherwise; either way the buffer, the
arguments, the count and the stores are as they were. -/
theorem vstrsepfLoop_literals (w : Nat) : ∀ (f : List Char), '%' ∉ cstr f →
    ∀ (n : Nat) (s pre : List Char) (arg : List (Option Nat)) (count : Nat)
      (stores : List (Nat × Value)) (specs : List Processed), f.length < n →
    ∃ st, st.mutStr.buffer = pre ++ s ∧ st.stores = stores ∧ st.arg = arg ∧
      st.count = count ∧
      ((cstr f <+: cstr s ∨ cstr s <+: cstr f) →
        vstrsepfLoop w n ⟨⟨pre, s⟩, f, arg, count, stores, specs⟩ =
          .returned (toInt16 count) st) ∧
      (¬ (cstr f <+: cstr s ∨ cstr s <+: cstr f) →
        vstrsepfLoop w n ⟨⟨pre, s⟩, f, arg, count, stores, specs⟩ =
          .returned STRSEPF_RESULT_ERR_INPUT_DOESNT_MATCH_FORMAT st) := by
  intro f
  induction f with
  | nil =>
    intro _ n s pre arg count stores specs hn
    obtain ⟨m, rfl⟩ : ∃ m, n = m + 1 := ⟨n - 1, by omega⟩
    refine ⟨⟨⟨pre, s⟩, [], arg, count, stores, specs⟩, rfl, rfl, rfl, rfl, fun _ => ?_,
      fun h => ?_⟩
    · exact vstrsepfLoop_end w m _ (Or.inr rfl)
    · exact absurd (Or.inl (by rw [cstr_nil]; exact List.nil_prefix)) h
  | cons c f ih =>
    intro hf n s pre arg count stores specs hn
    obtain ⟨m, rfl⟩ : ∃ m, n = m + 1 := ⟨n - 1, by omega⟩
    by_cases hc0 : c = '\x00'
    · refine ⟨⟨⟨pre, s⟩, c :: f, arg, count, stores, specs⟩, rfl, rfl, rfl, rfl,
        fun _ => ?_, fun h => ?_⟩
      · exact vstrsepfLoop_end w m _ (Or.inr hc0)
      · refine absurd (Or.inl ?_) h
        rw [cstr_of_deref_nul (c :: f) hc0]; exact List.nil_prefix
    · rw [cstr_cons_of_ne c f hc0] at hf
      have hcp : c ≠ '%' := fun e => hf (by rw [e]; exact List.mem_cons_self _ _)
      have hf1 : '%' ∉ cstr f := fun e => hf (List.mem_cons_of_mem _ e)
      by_cases hs0 : deref s = '\x00'
      · refine ⟨⟨⟨pre, s⟩, c :: f, arg, count, stores, specs⟩, rfl, rfl, rfl, rfl,
          fun _ => ?_, fun h => ?_⟩
        · exact vstrsepfLoop_end w m _ (Or.inl hs0)
        · refine absurd (Or.inr ?_) h
          rw [cstr_of_deref_nul s hs0]; exact List.nil_prefix
      · cases s with
        | nil => exact absurd rfl hs0
        | cons d s =>
          rw [deref_cons] at hs0
          rw [cstr_cons_of_ne c f hc0, cstr_cons_of_ne d s hs0]
          by_cases hcd : c = d
          · subst hcd
            have hb : loopBody w ⟨⟨pre, c :: s⟩, c :: f, arg, count, stores, specs⟩ =
                .next ⟨⟨pre ++ [c], s⟩, f, arg, count, stores, specs⟩ := by
              rw [loopBody_eq, if_neg (by rw [deref_cons]; exact hcp),
                if_neg (by simp [deref_cons])]
              rfl
            obtain ⟨st, h1, h2, h3, h4, h5, h6⟩ :=
              ih hf1 m s (pre ++ [c]) arg count stores specs (by simpa using hn)
            refine ⟨st, by rw [h1]; simp, h2, h3, h4, fun h => ?_, fun h => ?_⟩
            · rw [vstrsepfLoop_next w m _ _ (by exact hs0) (by exact hc0) hb]
              refine h5 ?_
              rcases h with h | h
              · exact Or.inl ((List.cons_prefix_cons.1 h).2)
              · exact Or.inr ((List.cons_prefix_cons.1 h).2)
            · rw [vstrsepfLoop_next w m _ _ (by exact hs0) (by exact hc0) hb]
              refine h6 (fun h1 => h ?_)
              rcases h1 with h1 | h1
              · exact Or.inl (List.cons_prefix_cons.2 ⟨rfl, h1⟩)
              · exact Or.inr (List.cons_prefix_cons.2 ⟨rfl, h1⟩)
          · have hb : loopBody w ⟨⟨pre, d :: s⟩, c :: f, arg, count, stores, specs⟩ =
                .ret STRSEPF_RESULT_ERR_INPUT_DOESNT_MATCH_FORMAT
                  ⟨⟨pre, d :: s⟩, c :: f, arg, count, stores, specs⟩ := by
              rw [loopBody_eq, if_neg (by rw [deref_cons]; exact hcp),
                if_pos (by simpa [deref_cons] using hcd)]
            refine ⟨⟨⟨pre, d :: s⟩, c :: f, arg, count, stores, specs⟩, rfl, rfl, rfl, rfl,
              fun h => ?_, fun _ => ?_⟩
            · rcases h with h | h
              · exact absurd (List.cons_prefix_cons.1 h).1 hcd
              · exact absurd (List.cons_prefix_cons.1 h).1.symm hcd
            · exact vstrsepfLoop_ret w m _ _ _ (by exact hs0) (by exact hc0) hb

/-- C18. For a format without `%` the call returns 0 when the format is a prefix of the
input or the input a prefix of the format, and
`STRSEPF_RESULT_ERR_INPUT_DOESNT_MATCH_FORMAT` otherwise; in both cases nothing is stored,
no argument is read and the buffer is the one the call was given. -/
theorem literal_format_prefix (w : Nat) (s f : List Char) (arg : List (Option Nat))
    (hf : '%' ∉ cstr f) :
    ∃ st, st.mutStr.buffer = s ∧ st.stores = [] ∧ st.arg = arg ∧
      ((cstr f <+: cstr s ∨ cstr s <+: cstr f) →
        vstrsepf w (some s) (some f) arg = .returned 0 st) ∧
      (¬ (cstr f <+: cstr s ∨ cstr s <+: cstr f) →
        vstrsepf w (some s) (some f) arg =
          .returned STRSEPF_RESULT_ERR_INPUT_DOESNT_MATCH_FORMAT st) := by
  obtain ⟨st, h1, h2, h3, -, h5, h6⟩ :=
    vstrsepfLoop_literals w f hf (f.length + 1) s [] arg 0 [] [] (Nat.lt_succ_self _)
  refine ⟨st, by simpa using h1, h2, h3, fun h => ?_, fun h => ?_⟩
  · have := h5 h
    rw [toInt16_zero] at this
    exact this
  · exact h6 h

theorem literal_format_prefix_witness :
    '%' ∉ cstr "51,ar".toList ∧
    (vstrsepf 64 (some "51,area".toList) (some "51,ar".toList) [some 0]).rc? = some 0 ∧
    (vstrsepf 64 (some "51".toList) (some "51,ar".toList) [some 0]).rc? = some 0 ∧
    (vstrsepf 64 (some "51,area".toList) (some "51.ar".toList) [some 0]).rc? = some (-4) ∧
    ∃ st, st.mutStr.buffer = "51,area".toList ∧ st.stores = [] ∧ st.arg = [some 0] ∧
      ((cstr "51,ar".toList <+: cstr "51,area".toList ∨
          cstr "51,area".toList <+: cstr "51,ar".toList) →
        vstrsepf 64 (some "51,area".toList) (some "51,ar".toList) [some 0] =
          .returned 0 st) ∧
      (¬ (cstr "51,ar".toList <+: cstr "51,area".toList ∨
          cstr "51,area".toList <+: cstr "51,ar".toList) →
        vstrsepf 64 (some "51,area".toList) (some "51,ar".toList) [some 0] =
          .returned STRSEPF_RESULT_ERR_INPUT_DOESNT_MATCH_FORMAT st) :=
  ⟨by decide, by decide, by decide, by decide,
    literal_format_prefix 64 "51,area".toList "51,ar".toList [some 0] (by decide)⟩

/-! ### The `%%` escape -/

theorem strsep_shift (p : List Char) (cur : Cursor) (c : Char) :
    strsep (some (cur.shift p)) c =
      (strsep (some cur) c).map (fun r => (r.1.shift p.length, r.2.shift p)) := by
  unfold strsep Cursor.shift Token.shift
  simp only
  split_ifs <;> simp [Nat.add_comm, List.append_assoc]

theorem tokenise_shift (p : List Char) (cur : Cursor) (fmt : List Char) :
    tokenise (cur.shift p) fmt =
      (tokenise cur fmt).map (fun r => (r.1.shift p.length, r.2.1.shift p, r.2.2)) := by
  unfold tokenise
  by_cases h : deref fmt = '\x00'
  · rw [if_pos h, if_pos h]
    simp [Cursor.shift, Token.shift, Nat.add_comm]
  · rw [if_neg h, if_neg h, strsep_shift]
    obtain ⟨tok, cur1, e⟩ := strsep_isSome cur (deref fmt)
    rw [e]
    rfl

theorem bindString_shift (p : List Char) (st : State) (tok : Token) :
    bindString (st.shift p) (tok.shift p.length) = (bindString st tok).shift p := by
  unfold bindString
  cases h : st.arg with
  | nil =>
    have : (st.shift p).arg = [] := h
    simp only [this, Step.shift]
  | cons a arg =>
    have : (st.shift p).arg = a :: arg := h
    cases a with
    | none => simp only [this, Step.shift]; rfl
    | some ptr =>
      simp only [this, Step.shift]
      simp [State.shift, Value.shift, Token.shift]

theorem storeConverted_shift_u32 (p : List Char) (st : State) (arg : List (Option Nat))
    (ptr v : Nat) (e : Int) :
    storeConverted (st.shift p) arg ptr (.u32 v) e =
      (storeConverted st arg ptr (.u32 v) e).shift p := by
  unfold storeConverted
  split_ifs <;> simp [Step.shift, State.shift, Value.shift]

theorem storeConverted_shift_i32 (p : List Char) (st : State) (arg : List (Option Nat))
    (ptr : Nat) (v : Int) (e : Int) :
    storeConverted (st.shift p) arg ptr (.i32 v) e =
      (storeConverted st arg ptr (.i32 v) e).shift p := by
  unfold storeConverted
  split_ifs <;> simp [Step.shift, State.shift, Value.shift]

theorem bindUnsigned_shift (w : Nat) (p : List Char) (st : State) (base : Nat) (tok : Token) :
    bindUnsigned w (st.shift p) base (tok.shift p.length) =
      (bindUnsigned w st base tok).shift p := by
  unfold bindUnsigned
  cases h : st.arg with
  | nil =>
    have : (st.shift p).arg = [] := h
    simp only [this, Step.shift]
  | cons a arg =>
    have : (st.shift p).arg = a :: arg := h
    cases a with
    | none => simp only [this, Step.shift]; rfl
    | some ptr =>
      simp only [this]
      exact storeConverted_shift_u32 p st arg ptr _ _

theorem bindSigned_shift (w : Nat) (p : List Char) (st : State) (base : Nat) (tok : Token) :
    bindSigned w (st.shift p) base (tok.shift p.length) =
      (bindSigned w st base tok).shift p := by
  unfold bindSigned
  cases h : st.arg with
  | nil =>
    have : (st.shift p).arg = [] := h
    simp only [this, Step.shift]
  | cons a arg =>
    have : (st.shift p).arg = a :: arg := h
    cases a with
    | none => simp only [this, Step.shift]; rfl
    | some ptr =>
      simp only [this]
      exact storeConverted_shift_i32 p st arg ptr _ _

theorem scanToken_shift (w : Nat) (p : List Char) (st : State) (sp : Spec) (tok : Token) :
    scanToken w (st.shift p) sp (tok.shift p.length) = (scanToken w st sp tok).shift p := by
  unfold scanToken
  split_ifs
  · exact bindString_shift p st tok
  · exact bindUnsigned_shift w p st _ tok
  · exact bindSigned_shift w p st _ tok
  · rfl

theorem bindToken_shift (w : Nat) (p : List Char) (st : State) (sp : Spec) (tok : Token) :
    bindToken w (st.shift p) sp (tok.shift p.length) = (bindToken w st sp tok).shift p := by
  unfold bindToken
  have e : (tok.shift p.length).str = tok.str := rfl
  rw [e]
  split_ifs
  · rfl
  · rfl
  · exact scanToken_shift w p st sp tok

theorem specifier_shift (w : Nat) (p : List Char) (st : State) (fmt : List Char) :
    specifier w (st.shift p) fmt = (specifier w st fmt).shift p := by
  unfold specifier
  cases hscan : scanSpecifier w (fmt.length + 1) fmt ⟨'\x00', false, 0⟩ with
  | fuel => rfl
  | invalid => rfl
  | done sp fmt2 =>
    simp only
    by_cases h1 : sp.specifierType = '\x00'
    · rw [if_pos h1, if_pos h1]; rfl
    · rw [if_neg h1, if_neg h1]
      have e : (st.shift p).mutStr = st.mutStr.shift p := rfl
      rw [e, tokenise_shift]
      obtain ⟨tok, cur, fmt3, ht⟩ := tokenise_isSome st.mutStr fmt2
      rw [ht]
      simp only [Option.map_some']
      exact bindToken_shift w p
        { st with mutStr := cur, fmt := fmt3,
                  specs := st.specs ++ [⟨sp.specifierType, sp.noAssignFlag⟩] } sp tok

theorem loopBody_shift (w : Nat) (p : List Char) (st : State) :
    loopBody w (st.shift p) = (loopBody w st).shift p := by
  rw [loopBody_eq, loopBody_eq]
  have e1 : (st.shift p).fmt = st.fmt := rfl
  have e2 : (st.shift p).mutStr.rest = st.mutStr.rest := rfl
  rw [e1, e2]
  split_ifs
  · simp [Step.shift, State.shift, Cursor.shift, Cursor.advance]
  · exact specifier_shift w p st _
  · rfl
  · simp [Step.shift, State.shift, Cursor.shift, Cursor.advance]

/-- The loop does the same with more bytes in front of the buffer. -/
theorem vstrsepfLoop_shift (w : Nat) (p : List Char) : ∀ (n : Nat) (st : State),
    vstrsepfLoop w n (st.shift p) = (vstrsepfLoop w n st).shift p := by
  intro n
  induction n with
  | zero => intro st; rfl
  | succ n ih =>
    intro st
    have e1 : (st.shift p).fmt = st.fmt := rfl
    have e2 : (st.shift p).mutStr.rest = st.mutStr.rest := rfl
    have e3 : (st.shift p).count = st.count := rfl
    by_cases hc : deref st.mutStr.rest ≠ '\x00' ∧ deref st.fmt ≠ '\x00'
    · cases hb : loopBody w st with
      | next st1 =>
        have hb2 : loopBody w (st.shift p) = .next (st1.shift p) := by
          rw [loopBody_shift, hb]; rfl
        rw [vstrsepfLoop_next w n _ _ (by rw [e2]; exact hc.1) (by rw [e1]; exact hc.2) hb2,
          vstrsepfLoop_next w n _ _ hc.1 hc.2 hb]
        exact ih st1
      | ret rc st1 =>
        have hb2 : loopBody w (st.shift p) = .ret rc (st1.shift p) := by
          rw [loopBody_shift, hb]; rfl
        rw [vstrsepfLoop_ret w n _ _ _ (by rw [e2]; exact hc.1) (by rw [e1]; exact hc.2) hb2,
          vstrsepfLoop_ret w n _ _ _ hc.1 hc.2 hb]
        rfl
      | undef st1 =>
        have hb2 : loopBody w (st.shift p) = .undef (st1.shift p) := by
          rw [loopBody_shift, hb]; rfl
        simp [vstrsepfLoop, hc.1, hc.2, hb, hb2, e1, e2, Outcome.shift]
      | fuel => exact absurd hb (loopBody_ne_fuel w st)
    · have hc2 : deref st.mutStr.rest = '\x00' ∨ deref st.fmt = '\x00' := by tauto
      rw [vstrsepfLoop_end w n _ (by rw [e1, e2]; exact hc2), vstrsepfLoop_end w n _ hc2, e3]
      rfl

/-- A call with a non-null buffer and format never uses up the iteration bound. -/
theorem vstrsepf_ne_fuel (w : Nat) (s f : List Char) (arg : List (Option Nat)) :
    vstrsepf w (some s) (some f) arg ≠ .fuel := by
  have hall := vstrsepfLoop_cases w (fun _ => True) (fun _ _ _ _ _ _ => trivial)
    (f.length + 1) (initState s f arg) trivial (Nat.lt_succ_self _)
  have hrun : vstrsepf w (some s) (some f) arg =
      vstrsepfLoop w (f.length + 1) (initState s f arg) := rfl
  rw [hrun]
  generalize vstrsepfLoop w (f.length + 1) (initState s f arg) = res at hall ⊢
  obtain ⟨st2, -, hcase⟩ := hall
  rcases hcase with ⟨-, rfl⟩ | ⟨-, -, ⟨rc1, st3, -, rfl⟩ | ⟨st3, -, rfl⟩⟩ <;> simp

theorem loopBody_percent_percent (w : Nat) (st : State) (f : List Char)
    (hfmt : st.fmt = '%' :: '%' :: f) :
    loopBody w st =
      .next { mutStr := st.mutStr.advance, fmt := f, arg := st.arg, count := st.count,
              stores := st.stores, specs := st.specs } := by
  rw [loopBody_eq, hfmt, if_pos (deref_cons _ _), List.tail_cons, if_pos (deref_cons _ _)]
  rfl

/-- C12. For every character `c` other than NUL, the call on the input `c s` with the
format `%%f` is the call on `s` with `f`, read with the one byte `c` in front of the
buffer: the same result, the same numbers stored through the same arguments, and every
`char*` stored one byte further, where the same string is found. The pass for `%%` itself
moves the input by one character without looking at it, reads no argument, stores nothing
and leaves the count as it is. -/
theorem percent_percent_skips (w : Nat) (c : Char) (s f : List Char) (arg : List (Option Nat))
    (hc : c ≠ '\x00') :
    vstrsepf w (some (c :: s)) (some ('%' :: '%' :: f)) arg =
      (vstrsepf w (some s) (some f) arg).shift [c] ∧
    (vstrsepf w (some (c :: s)) (some ('%' :: '%' :: f)) arg).rc? =
      (vstrsepf w (some s) (some f) arg).rc? ∧
    (vstrsepf w (some (c :: s)) (some ('%' :: '%' :: f)) arg).stores =
      (vstrsepf w (some s) (some f) arg).stores.map (fun p => (p.1, p.2.shift 1)) ∧
    (vstrsepf w (some (c :: s)) (some ('%' :: '%' :: f)) arg).buffer =
      c :: (vstrsepf w (some s) (some f) arg).buffer ∧
    (∀ off, stringAt (vstrsepf w (some (c :: s)) (some ('%' :: '%' :: f)) arg).buffer (off + 1) =
      stringAt (vstrsepf w (some s) (some f) arg).buffer off) ∧
    ∀ (st : State) (f1 : List Char), st.fmt = '%' :: '%' :: f1 →
      loopBody w st =
        .next { mutStr := st.mutStr.advance, fmt := f1, arg := st.arg, count := st.count,
                stores := st.stores, specs := st.specs } := by
  have hmain : vstrsepf w (some (c :: s)) (some ('%' :: '%' :: f)) arg =
      (vstrsepf w (some s) (some f) arg).shift [c] := by
    have h1 : vstrsepf w (some (c :: s)) (some ('%' :: '%' :: f)) arg =
        vstrsepfLoop w (f.length + 2 + 1) (initState (c :: s) ('%' :: '%' :: f) arg) := rfl
    have h2 : vstrsepf w (some s) (some f) arg =
        vstrsepfLoop w (f.length + 1) (initState s f arg) := rfl
    have hb : loopBody w (initState (c :: s) ('%' :: '%' :: f) arg) =
        .next ((initState s f arg).shift [c]) :=
      loopBody_percent_percent w (initState (c :: s) ('%' :: '%' :: f) arg) f rfl
    rw [h1, h2,
      vstrsepfLoop_next w (f.length + 2) _ _ (by exact hc) (by show '%' ≠ '\x00'; decide) hb,
      vstrsepfLoop_fuel w (f.length + 2) (f.length + 1) _ (Nat.lt_succ_of_lt (Nat.lt_succ_self _))
        (Nat.lt_succ_self _),
      vstrsepfLoop_shift]
  have hnf := vstrsepf_ne_fuel w s f arg
  rw [hmain]
  generalize vstrsepf w (some s) (some f) arg = res at hnf ⊢
  refine ⟨rfl, ?_, ?_, ?_, ?_, fun st f1 h => loopBody_percent_percent w st f1 h⟩
  · cases res <;> rfl
  · cases res with
    | returned rc st => rfl
    | undefined st => rfl
    | fuel => rfl
  · cases res with
    | returned rc st => rfl
    | undefined st => rfl
    | fuel => exact absurd rfl hnf
  · intro off
    cases res with
    | returned rc st => rfl
    | undefined st => rfl
    | fuel => exact absurd rfl hnf

theorem percent_percent_skips_witness :
    (vstrsepf 64 (some "67/100% is your result.".toList)
      (some "%d/100%% is your result.".toList) [some 0]).rc? = some 1 ∧
    (vstrsepf 64 (some "%%%a%%%".toList) (some "%%%%%%%s%%%%%%".toList) [some 0]).stores =
      [(0, .str 3)] ∧
    (vstrsepf 64 (some "x7,ab".toList) (some "%%%d,%s".toList) [some 0, some 1]).stores =
      [(0, .i32 7), (1, .str 3)] ∧
    (vstrsepf 64 (some "7,ab".toList) (some "%d,%s".toList) [some 0, some 1]).stores =
      [(0, .i32 7), (1, .str 2)] ∧
    (vstrsepf 64 (some ('x' :: "7,ab".toList)) (some ('%' :: '%' :: "%d,%s".toList))
        [some 0, some 1]).rc? =
      (vstrsepf 64 (some "7,ab".toList) (some "%d,%s".toList) [some 0, some 1]).rc? :=
  ⟨by decide, by decide, by decide, by decide,
    (percent_percent_skips 64 'x' "7,ab".toList "%d,%s".toList [some 0, some 1]
      (by decide)).2.1⟩

/-- C13, the code at the failing input. Where the format has `%%` and the input another
character than `%`, the call does not return
`STRSEPF_RESULT_ERR_INPUT_DOESNT_MATCH_FORMAT`: `a` with `%%` returns 0, and with `x` or
`y` in the place of the `%` the rest of the format is processed as if the `%` had been
there. A plain literal in the same place that differs from the input gives the error. -/
theorem percent_percent_unmatched :
    (vstrsepf 64 (some "a".toList) (some "%%".toList) []).rc? = some 0 ∧
    (vstrsepf 64 (some "67/100x is your result.".toList)
      (some "%d/100%% is your result.".toList) [some 0]).rc? = some 1 ∧
    (vstrsepf 64 (some "50y,7".toList) (some "50%%,%d".toList) [some 0]).rc? = some 1 ∧
    (vstrsepf 64 (some "50y,7".toList) (some "50%%,%d".toList) [some 0]).stores =
      [(0, .i32 7)] ∧
    (vstrsepf 64 (some "50y,7".toList) (some "50z,%d".toList) [some 0]).rc? =
      some STRSEPF_RESULT_ERR_INPUT_DOESNT_MATCH_FORMAT := by
  decide

/-! ### A terminator that is not in the input -/

theorem deref_drop_cstr (l : List Char) : deref (l.drop (cstr l).length) = '\x00' := by
  induction l with
  | nil => rfl
  | cons c t ih =>
    by_cases hc : c = '\x00'
    · rw [cstr_of_deref_nul (c :: t) hc]
      exact hc
    · rw [cstr_cons_of_ne c t hc]
      exact ih

theorem cstr_append_drop (l : List Char) : cstr l ++ l.drop (cstr l).length = l := by
  induction l with
  | nil => rfl
  | cons c t ih =>
    by_cases hc : c = '\x00'
    · rw [cstr_of_deref_nul (c :: t) hc]
      rfl
    · rw [cstr_cons_of_ne c t hc]
      simpa using ih

/-- The first character of a specifier body followed by a type character is not `%`. -/
theorem SpecBody.deref_ne_percent {b : List Char} (h : SpecBody b) (ty : Char)
    (tail : List Char) (hty : ty ∈ SUPPORTED_SPECIFIER) : deref (b ++ ty :: tail) ≠ '%' := by
  rcases h.head with rfl | hs | ⟨h1, h9⟩
  · exact (supported_facts hty).2.1
  · have hne : deref b ≠ '\x00' := by rw [hs]; decide
    rw [deref_append_of_ne _ hne, hs]; decide
  · have hne : deref b ≠ '\x00' := (digit_not_type h1 h9).1
    rw [deref_append_of_ne _ hne]
    intro e
    rw [e] at h1
    revert h1
    decide

/-- The pass for a specifier with a well-formed body: the body is scanned, the token
extracted and handed to the binding. -/
theorem loopBody_specBody (w : Nat) (st : State) (body tail fmt3 : List Char) (ty : Char)
    (tok : Token) (cur : Cursor) (hbody : SpecBody body) (hty : ty ∈ SUPPORTED_SPECIFIER)
    (hfmt : st.fmt = '%' :: (body ++ ty :: tail))
    (htok : tokenise st.mutStr tail = some (tok, cur, fmt3)) :
    ∃ sp, scanSpecifier w ((body ++ ty :: tail).length + 1) (body ++ ty :: tail)
          ⟨'\x00', false, 0⟩ = .done sp tail ∧
      sp.specifierType = ty ∧ (sp.noAssignFlag = true ↔ '*' ∈ body) ∧
      loopBody w st =
        bindToken w { mutStr := cur, fmt := fmt3, arg := st.arg, count := st.count,
                      stores := st.stores, specs := st.specs ++ [⟨ty, sp.noAssignFlag⟩] }
          sp tok := by
  obtain ⟨h0, -, -⟩ := supported_facts hty
  obtain ⟨sp, hscan, hspty, hna⟩ := scanSpecifier_body w ty tail hty hbody
    ((body ++ ty :: tail).length + 1) ⟨'\x00', false, 0⟩ (by rw [List.length_append]; omega)
  refine ⟨sp, hscan, hspty, by simpa using hna, ?_⟩
  rw [loopBody_percent w st _ hfmt (hbody.deref_ne_percent ty tail hty),
    specifier_of_scan w st _ tail sp hscan (by rw [hspty]; exact h0) tok cur fmt3 htok, hspty]

/-- What the conversion of a token can return when the specifier type is a supported
one: the error of a NULL argument or the code of a converter. -/
theorem scanToken_ret_supported (w : Nat) (st st1 : State) (sp : Spec) (tok : Token) (rc : Int)
    (hty : sp.specifierType ∈ SUPPORTED_SPECIFIER) (h : scanToken w st sp tok = .ret rc st1) :
    rc = STRSEPF_RESULT_ERR_INVALID_ARGS ∨ (IsConvCode rc ∧ rc < 0) := by
  have hr := scanToken_ret w st st1 sp tok rc h
  rcases scanToken_ret_codes w st st1 sp tok rc h with h1 | h1 | h1
  · exact Or.inl h1
  · exfalso
    unfold scanToken at h
    simp only [SUPPORTED_SPECIFIER, List.mem_cons, List.mem_singleton, List.not_mem_nil,
      or_false] at hty
    split_ifs at h with a b c
    · unfold bindString at h
      split at h
      · cases h
      · cases h; revert h1; decide
      · cases h
    · unfold bindUnsigned at h
      split at h
      · cases h
      · cases h; revert h1; decide
      · obtain ⟨rfl, h2, -⟩ := storeConverted_ret _ _ _ _ _ _ _ h
        have := strtou32_s_code w (some tok.str) (unsignedBase sp.specifierType)
          STRSEPF_RESULT_OK
        rw [h1] at this
        revert this; unfold IsConvCode; decide
    · unfold bindSigned at h
      split at h
      · cases h
      · cases h; revert h1; decide
      · obtain ⟨rfl, h2, -⟩ := storeConverted_ret _ _ _ _ _ _ _ h
        have := strto32_s_code w (some tok.str) 10 STRSEPF_RESULT_OK
        rw [h1] at this
        revert this; unfold IsConvCode; decide
    · simp only [List.mem_cons, List.mem_singleton, List.not_mem_nil, or_false] at b c
      tauto
  · exact Or.inr ⟨h1, by omega⟩

/-- C11. Where the driver reaches, on an input that is not exhausted, a specifier that is
followed by the character `c` in the format, and `c` does not occur in what is left of the
input: the token is all that is left of the input, the buffer is not changed and the cursor
is left at the end of the input. The pass is the binding of that token, so it raises
neither a mismatch nor a format error. When the specifier is suppressed, and when it is
bound, the call returns at once with the count (one more than before when the specifier is
bound), whatever follows `c` in the format; an unsuppressed `%s` with a slot is always
bound. -/
theorem missing_delimiter_takes_rest (w : Nat) (st : State) (body tail : List Char)
    (ty c : Char) (hbody : SpecBody body) (hty : ty ∈ SUPPORTED_SPECIFIER)
    (hfmt : st.fmt = '%' :: (body ++ ty :: c :: tail)) (hc0 : c ≠ '\x00')
    (hin : deref st.mutStr.rest ≠ '\x00') (hmiss : c ∉ cstr st.mutStr.rest) :
    ∃ (sp : Spec) (cur : Cursor),
      tokenise st.mutStr (c :: tail) =
        some (⟨st.mutStr.pre.length, cstr st.mutStr.rest⟩, cur, tail) ∧
      cstr st.mutStr.rest ≠ [] ∧
      cur.pre = st.mutStr.pre ++ cstr st.mutStr.rest ∧ cur.buffer = st.mutStr.buffer ∧
      deref cur.rest = '\x00' ∧
      sp.specifierType = ty ∧ (sp.noAssignFlag = true ↔ '*' ∈ body) ∧
      loopBody w st =
        bindToken w { mutStr := cur, fmt := tail, arg := st.arg, count := st.count,
                      stores := st.stores, specs := st.specs ++ [⟨ty, sp.noAssignFlag⟩] }
          sp ⟨st.mutStr.pre.length, cstr st.mutStr.rest⟩ ∧
      ('*' ∈ body → ∀ n, vstrsepfLoop w (n + 2) st =
        .returned (toInt16 st.count)
          { mutStr := cur, fmt := tail, arg := st.arg, count := st.count,
            stores := st.stores, specs := st.specs ++ [⟨ty, true⟩] }) ∧
      (∀ st1, loopBody w st = .next st1 →
        (∀ n, vstrsepfLoop w (n + 2) st = .returned (toInt16 st1.count) st1) ∧
        st1.mutStr = cur ∧ st1.fmt = tail ∧
        ('*' ∉ body → st1.count = st.count + 1 ∧
          ∃ p arg v, st.arg = some p :: arg ∧ st1.stores = st.stores ++ [(p, v)])) ∧
      (∀ rc st1, loopBody w st = .ret rc st1 →
        '*' ∉ body ∧ rc ≠ STRSEPF_RESULT_ERR_INPUT_DOESNT_MATCH_FORMAT ∧
        rc ≠ STRSEPF_RESULT_ERR_INVALID_FORMAT ∧
        (rc = STRSEPF_RESULT_ERR_TOKEN_IS_BIGGER_THAN_WIDTH ∨
          rc = STRSEPF_RESULT_ERR_INVALID_ARGS ∨ (IsConvCode rc ∧ rc < 0))) ∧
      (ty = 's' → body = [] → ∀ p arg, st.arg = some p :: arg → ∀ n,
        vstrsepfLoop w (n + 2) st =
          .returned (toInt16 ((st.count + 1 : Nat) : Int))
            { mutStr := cur, fmt := tail, arg := arg, count := st.count + 1,
              stores := st.stores ++ [(p, .str st.mutStr.pre.length)],
              specs := st.specs ++ [⟨'s', false⟩] }) := by
  have htok : tokenise st.mutStr (c :: tail) =
      some (⟨st.mutStr.pre.length, cstr st.mutStr.rest⟩,
        ⟨st.mutStr.pre ++ cstr st.mutStr.rest,
          st.mutStr.rest.drop (cstr st.mutStr.rest).length⟩, tail) := by
    have h2 : strsep (some st.mutStr) c = _ :=
      strsep_missing st.mutStr.pre st.mutStr.rest c (fun x hx e => hmiss (e ▸ hx))
    unfold tokenise
    rw [deref_cons, if_neg hc0, h2]
    rfl
  obtain ⟨sp, hscan, hspty, hna, hbd⟩ := loopBody_specBody w st body (c :: tail) tail ty _ _
    hbody hty hfmt htok
  have hd1 : deref st.fmt ≠ '\x00' := by rw [hfmt, deref_cons]; decide
  have hend := deref_drop_cstr st.mutStr.rest
  have hne : cstr st.mutStr.rest ≠ [] := by
    intro e
    cases hr : st.mutStr.rest with
    | nil => rw [hr] at hin; exact hin rfl
    | cons d t =>
      rw [hr, deref_cons] at hin
      rw [hr, cstr_cons_of_ne d t hin] at e
      cases e
  have hnext : ∀ st1, loopBody w st = .next st1 →
      (∀ n, vstrsepfLoop w (n + 2) st = .returned (toInt16 st1.count) st1) ∧
      st1.mutStr = ⟨st.mutStr.pre ++ cstr st.mutStr.rest,
          st.mutStr.rest.drop (cstr st.mutStr.rest).length⟩ ∧ st1.fmt = tail ∧
      ('*' ∉ body → st1.count = st.count + 1 ∧
        ∃ p arg v, st.arg = some p :: arg ∧ st1.stores = st.stores ++ [(p, v)]) := by
    intro st1 hb
    have hb2 := hb
    rw [hbd] at hb2
    have hst : st1.mutStr = ⟨st.mutStr.pre ++ cstr st.mutStr.rest,
          st.mutStr.rest.drop (cstr st.mutStr.rest).length⟩ ∧ st1.fmt = tail ∧
        ('*' ∉ body → st1.count = st.count + 1 ∧
          ∃ p arg v, st.arg = some p :: arg ∧ st1.stores = st.stores ++ [(p, v)]) := by
      rcases bindToken_next w _ st1 sp _ hb2 with ⟨ha, rfl⟩ | ⟨ha, p, arg, v, harg, -, rfl⟩
      · exact ⟨rfl, rfl, fun h => absurd (hna.1 ha) h⟩
      · exact ⟨rfl, rfl, fun _ => ⟨rfl, p, arg, v, harg, rfl⟩⟩
    refine ⟨fun n => ?_, hst⟩
    rw [vstrsepfLoop_next w (n + 1) st st1 hin hd1 hb,
      vstrsepfLoop_end w n st1 (Or.inl (by rw [hst.1]; exact hend))]
  refine ⟨sp, _, htok, hne, rfl, ?_, hend, hspty, hna, hbd, ?_, hnext, ?_, ?_⟩
  · show st.mutStr.pre ++ cstr st.mutStr.rest ++ _ = st.mutStr.pre ++ st.mutStr.rest
    rw [List.append_assoc, cstr_append_drop]
  · intro hstar n
    have ha := hna.2 hstar
    have hb : loopBody w st =
        .next { mutStr := ⟨st.mutStr.pre ++ cstr st.mutStr.rest,
                  st.mutStr.rest.drop (cstr st.mutStr.rest).length⟩,
                fmt := tail, arg := st.arg, count := st.count, stores := st.stores,
                specs := st.specs ++ [⟨ty, true⟩] } := by
      rw [hbd]
      unfold bindToken
      rw [if_pos ha, ha]
    exact (hnext _ hb).1 n
  · intro rc st1 hb
    rw [hbd] at hb
    unfold bindToken at hb
    by_cases ha : sp.noAssignFlag = true
    · rw [if_pos ha] at hb; cases hb
    · rw [if_neg ha] at hb
      have hns : '*' ∉ body := fun h => ha (hna.2 h)
      by_cases hw : sp.width > 0 ∧ sp.width < strlen (cstr st.mutStr.rest)
      · rw [if_pos hw] at hb
        cases hb
        exact ⟨hns, by decide, by decide, Or.inl rfl⟩
      · rw [if_neg hw] at hb
        rcases scanToken_ret_supported w _ st1 sp _ rc (by rw [hspty]; exact hty) hb
          with h1 | ⟨h1, h2⟩
        · rw [h1]
          exact ⟨hns, by decide, by decide, Or.inr (Or.inl rfl)⟩
        · refine ⟨hns, ?_, ?_, Or.inr (Or.inr ⟨h1, h2⟩)⟩
          · intro e; rw [e] at h1; revert h1; unfold IsConvCode; decide
          · intro e; rw [e] at h1; revert h1; unfold IsConvCode; decide
  · intro hs hb0 p arg harg n
    subst hs
    subst hb0
    have ha : sp.noAssignFlag = false := by
      cases hf : sp.noAssignFlag with
      | false => rfl
      | true => exact absurd (hna.1 hf) (List.not_mem_nil _)
    have hb : loopBody w st =
        .next { mutStr := ⟨st.mutStr.pre ++ cstr st.mutStr.rest,
                  st.mutStr.rest.drop (cstr st.mutStr.rest).length⟩,
                fmt := tail, arg := arg, count := st.count + 1,
                stores := st.stores ++ [(p, .str st.mutStr.pre.length)],
                specs := st.specs ++ [⟨'s', false⟩] } := by
      have hsp : sp = ⟨'s', false, 0⟩ := by
        have h2 := scanSpecifier_type w (([] ++ 's' :: c :: tail : List Char).length) 's'
          (c :: tail) ⟨'\x00', false, 0⟩ hty
        rw [List.nil_append] at hscan
        rw [List.nil_append, hscan] at h2
        simp only [Scan.done.injEq] at h2
        exact h2.1
      rw [hbd, hsp]
      unfold bindToken
      simp only [Bool.false_eq_true, if_false, gt_iff_lt, lt_self_iff_false, false_and]
      exact scanToken_string w _ _ _ p arg rfl harg
    exact (hnext _ hb).1 n

theorem missing_delimiter_takes_rest_witness :
    ((vstrsepf 64 (some "abc".toList) (some "%s,%j".toList) [some 0]).rc? = some 1 ∧
      (vstrsepf 64 (some "abc".toList) (some "%s,%j".toList) [some 0]).stores =
        [(0, .str 0)] ∧
      (vstrsepf 64 (some "abc".toList) (some "%s,%j".toList) [some 0]).buffer =
        "abc".toList ∧
      (vstrsepf 64 (some "12".toList) (some "%d;%d;%d".toList) [some 0, some 1, some 2]).rc? =
        some 1 ∧
      (vstrsepf 64 (some "a b".toList) (some "%*s,%s".toList) [some 0]).rc? = some 0 ∧
      (vstrsepf 64 (some "abc".toList) (some "%d,%d".toList) [some 0, some 1]).rc? =
        some (-6)) ∧
    ∃ (cur : Cursor),
      tokenise (initState "abc".toList "%s,%j".toList [some 0]).mutStr (',' :: "%j".toList) =
        some (⟨(initState "abc".toList "%s,%j".toList [some 0]).mutStr.pre.length,
          cstr (initState "abc".toList "%s,%j".toList [some 0]).mutStr.rest⟩, cur,
          "%j".toList) ∧
      cur.buffer = (initState "abc".toList "%s,%j".toList [some 0]).mutStr.buffer ∧
      deref cur.rest = '\x00' ∧
      ∀ n, vstrsepfLoop 64 (n + 2) (initState "abc".toList "%s,%j".toList [some 0]) =
        .returned
          (toInt16 (((initState "abc".toList "%s,%j".toList [some 0]).count + 1 : Nat) : Int))
          { mutStr := cur, fmt := "%j".toList, arg := [],
            count := (initState "abc".toList "%s,%j".toList [some 0]).count + 1,
            stores := (initState "abc".toList "%s,%j".toList [some 0]).stores ++
              [(0, .str (initState "abc".toList "%s,%j".toList [some 0]).mutStr.pre.length)],
            specs := (initState "abc".toList "%s,%j".toList [some 0]).specs ++
              [⟨'s', false⟩] } := by
  refine ⟨by decide, ?_⟩
  obtain ⟨sp, cur, h1, -, -, h4, h5, -, -, -, -, -, -, h12⟩ :=
    missing_delimiter_takes_rest 64 (initState "abc".toList "%s,%j".toList [some 0]) []
      "%j".toList 's' ',' SpecBody.nil (by decide) (by decide) (by decide) (by decide)
      (by decide)
  exact ⟨cur, h1, h4, h5, h12 rfl rfl 0 [] rfl⟩

/-! ### NULL output pointers -/

/-- The body of an unsuppressed specifier is empty or a single width. -/
theorem SpecBody.unsuppressed {b : List Char} (h : SpecBody b) (hs : '*' ∉ b) :
    b = [] ∨ ∃ N, 1 ≤ N ∧ b = decimalNat N := by
  cases h with
  | nil => exact Or.inl rfl
  | star _ => exact absurd (List.mem_cons_self _ _) hs
  | @width b1 N hN hd hb =>
    refine Or.inr ⟨N, hN, ?_⟩
    rcases hb.head with rfl | h1 | ⟨h1, h9⟩
    · simp
    · exfalso
      cases b1 with
      | nil => revert h1; decide
      | cons c t =>
        rw [deref_cons] at h1
        exact hs (List.mem_append_right _ (by rw [h1]; exact List.mem_cons_self _ _))
    · exfalso
      have : isdigit (deref b1) = true := by
        rw [isdigit_iff]
        rw [char_le_iff] at h1 h9
        have e1 : 49 ≤ (deref b1).toNat := h1
        have e2 : (deref b1).toNat ≤ 57 := h9
        omega
      rw [this] at hd
      exact absurd hd (by decide)

/-- The scan of an unsuppressed specifier with a width of any size. -/
theorem scanSpecifier_any_width_type (w N : Nat) (ty : Char) (tail : List Char) (hN1 : 1 ≤ N)
    (hty : ty ∈ SUPPORTED_SPECIFIER) :
    scanSpecifier w ((decimalNat N ++ ty :: tail).length + 1) (decimalNat N ++ ty :: tail)
      ⟨'\x00', false, 0⟩ = .done ⟨ty, false, toUInt32 (min N (ULONG_MAX w))⟩ tail := by
  obtain ⟨h0, -, hd⟩ := supported_facts hty
  obtain ⟨k, hk⟩ : ∃ k, (decimalNat N ++ ty :: tail).length = k + 1 :=
    ⟨(decimalNat N ++ ty :: tail).length - 1, by
      have : 0 < (decimalNat N ++ ty :: tail).length := by simp
      omega⟩
  rw [hk, scanSpecifier_any_width w (k + 1) N (ty :: tail) _ hN1 (by rw [deref_cons]; exact h0)
    (by rw [deref_cons]; exact hd), scanSpecifier_type w k ty tail _ hty]

/-- The conversion of a token when the next argument is a NULL pointer: whatever the
token, `STRSEPF_RESULT_ERR_INVALID_ARGS` is returned before anything is converted. -/
theorem scanToken_null (w : Nat) (st : State) (sp : Spec) (tok : Token)
    (arg : List (Option Nat)) (hty : sp.specifierType ∈ SUPPORTED_SPECIFIER)
    (harg : st.arg = none :: arg) :
    scanToken w st sp tok = .ret STRSEPF_RESULT_ERR_INVALID_ARGS { st with arg := arg } := by
  simp only [SUPPORTED_SPECIFIER, List.mem_cons, List.mem_singleton, List.not_mem_nil,
    or_false] at hty
  unfold scanToken
  split_ifs with a b c
  · unfold bindString; simp only [harg]
  · unfold bindUnsigned; simp only [harg]
  · unfold bindSigned; simp only [harg]
  · simp only [List.mem_cons, List.mem_singleton, List.not_mem_nil, or_false] at b c
    tauto

/-- C14. Where the driver reaches, on an input that is not exhausted, an unsuppressed
specifier (its body is empty or one width) and the next argument is a NULL pointer: when
the token is not longer than a non-zero width, the call returns
`STRSEPF_RESULT_ERR_INVALID_ARGS` in this pass, whatever the token holds, be it a number
or not; the stores made for earlier specifiers and the count are as they were, and this
specifier is the last one processed. A token longer than the width returns the width
error before the argument is read. -/
theorem null_slot_invalid_args (w : Nat) (st : State) (body tail fmt3 : List Char) (ty : Char)
    (tok : Token) (cur : Cursor) (arg : List (Option Nat)) (hbody : SpecBody body)
    (hstar : '*' ∉ body) (hty : ty ∈ SUPPORTED_SPECIFIER)
    (hfmt : st.fmt = '%' :: (body ++ ty :: tail))
    (htok : tokenise st.mutStr tail = some (tok, cur, fmt3))
    (harg : st.arg = none :: arg) (hin : deref st.mutStr.rest ≠ '\x00') :
    ∃ width : Nat,
      (body = [] ∧ width = 0 ∨
        ∃ N, 1 ≤ N ∧ body = decimalNat N ∧ width = toUInt32 (min N (ULONG_MAX w)) ∧
          (32 ≤ w → N < 2 ^ 32 → width = N)) ∧
      scanSpecifier w ((body ++ ty :: tail).length + 1) (body ++ ty :: tail)
        ⟨'\x00', false, 0⟩ = .done ⟨ty, false, width⟩ tail ∧
      (¬ (width > 0 ∧ width < strlen tok.str) → ∀ n,
        vstrsepfLoop w (n + 1) st = .returned STRSEPF_RESULT_ERR_INVALID_ARGS
          { mutStr := cur, fmt := fmt3, arg := arg, count := st.count, stores := st.stores,
            specs := st.specs ++ [⟨ty, false⟩] }) ∧
      (width > 0 ∧ width < strlen tok.str → ∀ n,
        vstrsepfLoop w (n + 1) st = .returned STRSEPF_RESULT_ERR_TOKEN_IS_BIGGER_THAN_WIDTH
          { mutStr := cur, fmt := fmt3, arg := st.arg, count := st.count, stores := st.stores,
            specs := st.specs ++ [⟨ty, false⟩] }) := by
  obtain ⟨h0, -, -⟩ := supported_facts hty
  have hd1 : deref st.fmt ≠ '\x00' := by rw [hfmt, deref_cons]; decide
  have key : ∀ width : Nat,
      scanSpecifier w ((body ++ ty :: tail).length + 1) (body ++ ty :: tail)
        ⟨'\x00', false, 0⟩ = .done ⟨ty, false, width⟩ tail →
      (¬ (width > 0 ∧ width < strlen tok.str) → ∀ n,
        vstrsepfLoop w (n + 1) st = .returned STRSEPF_RESULT_ERR_INVALID_ARGS
          { mutStr := cur, fmt := fmt3, arg := arg, count := st.count, stores := st.stores,
            specs := st.specs ++ [⟨ty, false⟩] }) ∧
      (width > 0 ∧ width < strlen tok.str → ∀ n,
        vstrsepfLoop w (n + 1) st = .returned STRSEPF_RESULT_ERR_TOKEN_IS_BIGGER_THAN_WIDTH
          { mutStr := cur, fmt := fmt3, arg := st.arg, count := st.count, stores := st.stores,
            specs := st.specs ++ [⟨ty, false⟩] }) := by
    intro width hscan
    have hb : loopBody w st =
        bindToken w { mutStr := cur, fmt := fmt3, arg := st.arg, count := st.count,
                      stores := st.stores, specs := st.specs ++ [⟨ty, false⟩] }
          ⟨ty, false, width⟩ tok := by
      rw [loopBody_percent w st _ hfmt (hbody.deref_ne_percent ty tail hty),
        specifier_of_scan w st _ tail ⟨ty, false, width⟩ hscan h0 tok cur fmt3 htok]
    constructor
    · intro hw n
      refine vstrsepfLoop_ret w n st _ _ hin hd1 ?_
      rw [hb]
      unfold bindToken
      simp only [Bool.false_eq_true, if_false]
      rw [if_neg hw]
      exact scanToken_null w _ _ tok arg hty harg
    · intro hw n
      refine vstrsepfLoop_ret w n st _ _ hin hd1 ?_
      rw [hb]
      unfold bindToken
      simp only [Bool.false_eq_true, if_false]
      rw [if_pos hw]
  rcases hbody.unsuppressed hstar with rfl | ⟨N, hN, rfl⟩
  · have hscan := scanSpecifier_type w (([] ++ ty :: tail : List Char).length) ty tail
      ⟨'\x00', false, 0⟩ hty
    exact ⟨0, Or.inl ⟨rfl, rfl⟩, hscan, key 0 hscan⟩
  · have hscan := scanSpecifier_any_width_type w N ty tail hN hty
    refine ⟨_, Or.inr ⟨N, hN, rfl, rfl, fun hw hN2 => ?_⟩, hscan, key _ hscan⟩
    have := uint32_le_ulong hw
    rw [Nat.min_eq_left (by unfold UINT32_MAX at this; omega)]
    exact toUInt32_of_le (by unfold UINT32_MAX; omega)

theorem null_slot_invalid_args_witness :
    ((vstrsepf 64 (some "51,area".toList) (some "%d,%s".toList) [none, none]).rc? =
        some STRSEPF_RESULT_ERR_INVALID_ARGS ∧
      (vstrsepf 64 (some "sometext42".toList) (some "%s%d".toList) [none, none]).rc? =
        some STRSEPF_RESULT_ERR_INVALID_ARGS ∧
      (vstrsepf 64 (some "51,area".toList) (some "%d,%s".toList) [some 0, none]).rc? =
        some STRSEPF_RESULT_ERR_INVALID_ARGS ∧
      (vstrsepf 64 (some "51,area".toList) (some "%d,%s".toList) [some 0, none]).stores =
        [(0, .i32 51)] ∧
      (vstrsepf 64 (some "ab,cd,e".toList) (some "%s,%2d,%s".toList)
        [some 0, none, some 2]).rc? = some STRSEPF_RESULT_ERR_INVALID_ARGS ∧
      (vstrsepf 64 (some "ab,cd,e".toList) (some "%s,%2d,%s".toList)
        [some 0, none, some 2]).stores = [(0, .str 0)]) ∧
    ∃ width : Nat,
      scanSpecifier 64 ((decimalNat 2 ++ 'd' :: ",%s".toList).length + 1)
        (decimalNat 2 ++ 'd' :: ",%s".toList) ⟨'\x00', false, 0⟩ =
          .done ⟨'d', false, width⟩ ",%s".toList ∧
      (¬ (width > 0 ∧ width < strlen (⟨3, "cd".toList⟩ : Token).str) → ∀ n,
        vstrsepfLoop 64 (n + 1)
            ⟨⟨"ab\x00".toList, "cd,e".toList⟩, "%2d,%s".toList, [none, some 2], 1,
              [(0, .str 0)], [⟨'s', false⟩]⟩ =
          .returned STRSEPF_RESULT_ERR_INVALID_ARGS
            { mutStr := ⟨"ab\x00cd\x00".toList, "e".toList⟩, fmt := "%s".toList,
              arg := [some 2], count := 1, stores := [(0, .str 0)],
              specs := [⟨'s', false⟩] ++ [⟨'d', false⟩] }) := by
  refine ⟨by decide, ?_⟩
  obtain ⟨width, -, h2, h3, -⟩ :=
    null_slot_invalid_args 64
      ⟨⟨"ab\x00".toList, "cd,e".toList⟩, "%2d,%s".toList, [none, some 2], 1,
        [(0, .str 0)], [⟨'s', false⟩]⟩
      (decimalNat 2) ",%s".toList "%s".toList 'd' ⟨3, "cd".toList⟩
      ⟨"ab\x00cd\x00".toList, "e".toList⟩ [some 2]
      (SpecBody.width 2 (by decide) (by decide) SpecBody.nil) (by decide) (by decide)
      (by decide) (by decide) rfl (by decide)
  exact ⟨width, h2, h3⟩

/-! ### Malformed specifiers -/

theorem deref_append_cons (c : Char) (t r : List Char) : deref ((c :: t) ++ r) = c := rfl

/-- The scan of a width that runs into the end of the format: the conversion of the width
does not end with `STRSEPF_RESULT_ERR_STRTOI_EXTRA_CHAR`, so the format is invalid. -/
theorem scanSpecifier_width_end (w n N : Nat) (t : List Char) (sp : Spec) (hN1 : 1 ≤ N)
    (ht0 : deref t = '\x00') : scanSpecifier w (n + 1) (decimalNat N ++ t) sp = .invalid := by
  obtain ⟨hne, hall, hv⟩ := decimalNat_spec N
  obtain ⟨c, ds, hcd, hc1, hc9⟩ := decimalNat_head N (by omega)
  obtain ⟨f1, f2, f3⟩ := digit_not_type hc1 hc9
  have hderef : deref (decimalNat N ++ t) = c := by rw [hcd]; rfl
  have htd2 : isDigitOf 10 (deref t) = false := by rw [ht0]; decide
  have hconv := strtou32_s_digits w 10 (decimalNat N) t STRSEPF_RESULT_OK (by norm_num)
    (by norm_num) hne hall htd2 (strtoulHex_of_ne _ (by norm_num))
  rw [hv, if_neg (by rw [ht0]; exact fun h => h rfl)] at hconv
  rw [scanSpecifier_succ, hderef, if_neg f1, if_neg f2, if_neg f3, if_pos ⟨hc1, hc9⟩, hconv]
  simp only
  rw [if_pos]
  split_ifs <;> decide

theorem isdigit_of_range {c : Char} (h1 : '1' ≤ c) (h9 : c ≤ '9') : isdigit c = true := by
  rw [isdigit_iff]
  rw [char_le_iff] at h1 h9
  have e1 : 49 ≤ c.toNat := h1
  have e2 : c.toNat ≤ 57 := h9
  omega

/-- The last character of the decimal numeral of a number is a digit. -/
theorem isdigit_last_decimalNat (N : Nat) : isdigit (deref (decimalNat N).reverse) = true := by
  obtain ⟨hne, hall, -⟩ := decimalNat_spec N
  cases hr : (decimalNat N).reverse with
  | nil => exact absurd (List.reverse_eq_nil_iff.1 hr) hne
  | cons c t =>
    rw [deref_cons, isdigit_eq_isDigitOf]
    refine hall c ?_
    rw [← List.mem_reverse, hr]
    exact List.mem_cons_self _ _

theorem deref_reverse_append (a : List Char) {b : List Char} (hb : b ≠ []) :
    deref (a ++ b).reverse = deref b.reverse := by
  rw [List.reverse_append]
  cases hr : b.reverse with
  | nil => exact absurd (List.reverse_eq_nil_iff.1 hr) hb
  | cons c t => rfl

/-- The scan of a specifier body behind which no type character stands: with a character
that is no type, no `*` and no digit that begins or continues a width, or with the end of
the format, the scan reports an invalid format or ends without a type. -/
theorem scanSpecifier_malformed (w : Nat) (rest : List Char)
    (hx1 : deref rest ∉ SUPPORTED_SPECIFIER) (hx2 : deref rest ≠ '*')
    (hx3 : ¬ ('1' ≤ deref rest ∧ deref rest ≤ '9')) {b : List Char} (hb : SpecBody b) :
    (isdigit (deref b.reverse) = true → isdigit (deref rest) = false) →
    ∀ (n : Nat) (sp : Spec), b.length < n → sp.specifierType = '\x00' →
      scanSpecifier w n (b ++ rest) sp = .invalid ∨
      ∃ sp1 f1, scanSpecifier w n (b ++ rest) sp = .done sp1 f1 ∧
        sp1.specifierType = '\x00' := by
  induction hb with
  | nil =>
    intro _ n sp hn hsp
    obtain ⟨k, rfl⟩ : ∃ k, n = k + 1 := ⟨n - 1, by omega⟩
    rw [List.nil_append, scanSpecifier_succ]
    by_cases h0 : deref rest = '\x00'
    · rw [if_pos h0]; exact Or.inr ⟨sp, rest, rfl, hsp⟩
    · rw [if_neg h0, if_neg hx1, if_neg hx2, if_neg hx3]; exact Or.inl rfl
  | @star b1 hb ih =>
    intro hrun n sp hn hsp
    obtain ⟨k, rfl⟩ : ∃ k, n = k + 1 := ⟨n - 1, by omega⟩
    rw [List.cons_append, scanSpecifier_star]
    refine ih (fun h => hrun ?_) k _ (by simpa using hn) hsp
    by_cases hb1 : b1 = []
    · subst hb1; revert h; decide
    · rw [← List.singleton_append, deref_reverse_append _ hb1]; exact h
  | @width b1 N hN hd hb ih =>
    intro hrun n sp hn hsp
    obtain ⟨k, rfl⟩ : ∃ k, n = k + 1 := ⟨n - 1, by omega⟩
    have hpos := List.length_pos.2 (decimalNat_spec N).1
    rw [List.append_assoc]
    have hdt : isdigit (deref (b1 ++ rest)) = false := by
      cases b1 with
      | nil =>
        rw [List.nil_append]
        exact hrun (by rw [List.append_nil]; exact isdigit_last_decimalNat N)
      | cons c t => exact hd
    by_cases h0 : deref (b1 ++ rest) = '\x00'
    · exact Or.inl (scanSpecifier_width_end w k N _ sp hN h0)
    · rw [scanSpecifier_any_width w k N _ sp hN h0 hdt]
      refine ih (fun h => hrun ?_) k _ (by rw [List.length_append] at hn; omega) hsp
      by_cases hb1 : b1 = []
      · subst hb1; exact absurd h (by decide)
      · rw [deref_reverse_append _ hb1]; exact h

/-- C17. Where the driver reaches, on an input that is not exhausted, a `%` that does not
begin `%%` and behind it, after any number of `*` and widths, no type character stands
but the end of the format or a character that is no type, no `*` and no digit that begins
or continues a width: the call returns `STRSEPF_RESULT_ERR_INVALID_FORMAT` in this pass;
no argument is read, nothing is stored, the count is as it was and the cursor and the
buffer are those with which the specifier was reached. -/
theorem malformed_specifier_rejected (w : Nat) (st : State) (body rest : List Char)
    (hbody : SpecBody body) (hfmt : st.fmt = '%' :: (body ++ rest))
    (hpp : deref (body ++ rest) ≠ '%') (hx1 : deref rest ∉ SUPPORTED_SPECIFIER)
    (hx2 : deref rest ≠ '*') (hx3 : ¬ ('1' ≤ deref rest ∧ deref rest ≤ '9'))
    (hrun : isdigit (deref body.reverse) = true → isdigit (deref rest) = false)
    (hin : deref st.mutStr.rest ≠ '\x00') :
    ∃ st2, loopBody w st = .ret STRSEPF_RESULT_ERR_INVALID_FORMAT st2 ∧
      (∀ n, vstrsepfLoop w (n + 1) st = .returned STRSEPF_RESULT_ERR_INVALID_FORMAT st2) ∧
      st2.mutStr = st.mutStr ∧ st2.arg = st.arg ∧ st2.count = st.count ∧
      st2.stores = st.stores ∧ st2.specs = st.specs := by
  have hd1 : deref st.fmt ≠ '\x00' := by rw [hfmt, deref_cons]; decide
  have hb : ∃ st2, loopBody w st = .ret STRSEPF_RESULT_ERR_INVALID_FORMAT st2 ∧
      st2.mutStr = st.mutStr ∧ st2.arg = st.arg ∧ st2.count = st.count ∧
      st2.stores = st.stores ∧ st2.specs = st.specs := by
    rw [loopBody_percent w st _ hfmt hpp]
    unfold specifier
    rcases scanSpecifier_malformed w rest hx1 hx2 hx3 hbody hrun ((body ++ rest).length + 1)
      ⟨'\x00', false, 0⟩ (by rw [List.length_append]; omega) rfl with h | ⟨sp1, f1, h, hty⟩
    · rw [h]
      exact ⟨_, rfl, rfl, rfl, rfl, rfl, rfl⟩
    · rw [h]
      simp only [if_pos hty]
      exact ⟨_, rfl, rfl, rfl, rfl, rfl, rfl⟩
  obtain ⟨st2, h1, h2⟩ := hb
  exact ⟨st2, h1, fun n => vstrsepfLoop_ret w n st st2 _ hin hd1 h1, h2⟩

theorem malformed_specifier_rejected_witness :
    ((vstrsepf 64 (some "51,area".toList) (some "%j".toList) [none, none]).rc? =
        some STRSEPF_RESULT_ERR_INVALID_FORMAT ∧
      (vstrsepf 64 (some "51,area".toList) (some "5% ".toList) [none, none]).rc? =
        some STRSEPF_RESULT_ERR_INVALID_FORMAT ∧
      (vstrsepf 64 (some "51,area".toList) (some "51,%".toList) [none, none]).rc? =
        some STRSEPF_RESULT_ERR_INVALID_FORMAT ∧
      (vstrsepf 64 (some "51,area".toList) (some "%0d".toList) [some 0]).rc? =
        some STRSEPF_RESULT_ERR_INVALID_FORMAT ∧
      (vstrsepf 64 (some "51,area".toList) (some "%*".toList) [some 0]).rc? =
        some STRSEPF_RESULT_ERR_INVALID_FORMAT ∧
      (vstrsepf 64 (some "51,area".toList) (some "%3".toList) [some 0]).rc? =
        some STRSEPF_RESULT_ERR_INVALID_FORMAT ∧
      (vstrsepf 64 (some "51,area".toList) (some "%d,%3*-s".toList) [some 0]).rc? =
        some STRSEPF_RESULT_ERR_INVALID_FORMAT ∧
      (vstrsepf 64 (some "51,area".toList) (some "%d,%3*-s".toList) [some 0]).stores =
        [(0, .i32 51)] ∧
      (vstrsepf 64 (some "51,area".toList) (some "%d,%3*-s".toList) [some 0]).buffer =
        "51\x00area".toList ∧
      (vstrsepf 64 (some "51,area".toList) (some "%30d".toList) [some 0]).rc? =
        some STRSEPF_RESULT_ERR_STRTOI_EXTRA_CHAR) ∧
    ∃ st2, loopBody 64 ⟨⟨"51\x00".toList, "area".toList⟩, "%3*-s".toList, [], 1,
          [(0, .i32 51)], [⟨'d', false⟩]⟩ =
        .ret STRSEPF_RESULT_ERR_INVALID_FORMAT st2 ∧
      (∀ n, vstrsepfLoop 64 (n + 1) ⟨⟨"51\x00".toList, "area".toList⟩, "%3*-s".toList, [], 1,
          [(0, .i32 51)], [⟨'d', false⟩]⟩ =
        .returned STRSEPF_RESULT_ERR_INVALID_FORMAT st2) ∧
      st2.mutStr = ⟨"51\x00".toList, "area".toList⟩ ∧ st2.arg = [] ∧ st2.count = 1 ∧
      st2.stores = [(0, .i32 51)] ∧ st2.specs = [⟨'d', false⟩] :=
  ⟨by decide,
    malformed_specifier_rejected 64
      ⟨⟨"51\x00".toList, "area".toList⟩, "%3*-s".toList, [], 1, [(0, .i32 51)],
        [⟨'d', false⟩]⟩
      (decimalNat 3 ++ ['*']) "-s".toList
      (SpecBody.width 3 (by decide) (by decide) (SpecBody.star SpecBody.nil)) (by decide)
      (by decide) (by decide) (by decide) (by decide) (by decide) (by decide)⟩

/-! ### Stores of a call that fails -/

theorem slotAfter_append (l : List (Nat × Value)) (s : Nat × Value) (p : Nat) (init : Value) :
    slotAfter (l ++ [s]) p init = if s.1 = p then s.2 else slotAfter l p init := by
  unfold slotAfter
  rw [List.foldl_append]
  rfl

theorem slotAfter_not_mem (l : List (Nat × Value)) (p : Nat) (init : Value)
    (h : p ∉ l.map Prod.fst) : slotAfter l p init = init := by
  induction l using List.reverseRecOn with
  | nil => rfl
  | append_singleton l s ih =>
    rw [List.map_append, List.mem_append] at h
    rw [slotAfter_append, if_neg (fun e => h (Or.inr (by simp [e]))), ih (fun e => h (Or.inl e))]

theorem slotAfter_mem (l : List (Nat × Value)) (init : Value)
    (hnd : (l.map Prod.fst).Nodup) : ∀ s ∈ l, slotAfter l s.1 init = s.2 := by
  induction l using List.reverseRecOn with
  | nil => intro s hs; cases hs
  | append_singleton l t ih =>
    intro s hs
    rw [List.map_append, List.nodup_append] at hnd
    obtain ⟨h1, -, h3⟩ := hnd
    rw [slotAfter_append]
    rcases List.mem_append.1 hs with h | h
    · have hne : t.1 ≠ s.1 := by
        intro e
        exact h3 (List.mem_map_of_mem Prod.fst h) (by simp [e])
      rw [if_neg hne]
      exact ih h1 s h
    · rw [List.mem_singleton] at h
      rw [h, if_pos rfl]

/-- When nothing is consumed as a number `strtoul` returns 0. -/
theorem strtoul_value_of_consumed (w : Nat) (b : List Char) (base : Nat)
    (h : (strtoul w b base).consumed = 0) : (strtoul w b base).value = 0 := by
  unfold strtoul at h ⊢
  by_cases h1 : base < 2 ∨ 36 < base
  · rw [if_pos h1]
  · rw [if_neg h1] at h ⊢
    simp only at h ⊢
    split_ifs at h ⊢ with h2
    all_goals first
      | rfl
      | (exfalso
         simp only at h
         have := List.length_pos.2 h2
         omega)

theorem strtou32_s_not_a_decimal (w : Nat) (b : List Char) (base : Nat) (e0 : Int)
    (h : strtolErrAfter (strtou32_s w (some b) base (some e0)).2 =
      STRSEPF_RESULT_ERR_STRTOI_NOT_A_DECIMAL) :
    (strtou32_s w (some b) base (some e0)).1 = 0 := by
  unfold strtou32_s strtolErrAfter at *
  simp only at h ⊢
  split_ifs at h ⊢ with h1 h2 h3 h4 h5
  · rfl
  · simp only [Option.getD_some] at h
    rw [strtoul_value_of_consumed w b base h2]
    rfl
  all_goals exact absurd h (by simp only [Option.getD_some]; decide)

theorem strto32_s_not_a_decimal (w : Nat) (b : List Char) (base : Nat) (e0 : Int)
    (h : strtolErrAfter (strto32_s w (some b) base (some e0)).2 =
      STRSEPF_RESULT_ERR_STRTOI_NOT_A_DECIMAL) :
    (strto32_s w (some b) base (some e0)).1 = 0 := by
  unfold strto32_s strtolErrAfter at *
  simp only at h ⊢
  split_ifs at h ⊢ with h1 h2 h3 h4 h5 h6
  · rfl
  · simp only [Option.getD_some] at h
    rw [strtoul_value_of_consumed w b base h2]
    simp [toSigned, toInt32]
  all_goals exact absurd h (by simp only [Option.getD_some]; decide)

/-- The ways the conversion of a token can return: with a NULL argument or an unhandled
type nothing is stored; with a conversion error the value the converter returned has been
stored through the argument, and it is 0 when nothing was consumed as a number. -/
theorem scanToken_ret_state (w : Nat) (st st1 : State) (sp : Spec) (tok : Token) (rc : Int)
    (h : scanToken w st sp tok = .ret rc st1) :
    st1.count = st.count ∧ st1.mutStr = st.mutStr ∧
    ((rc = STRSEPF_RESULT_ERR_INVALID_ARGS ∧ st.arg = none :: st1.arg ∧
        st1.stores = st.stores) ∨
     (rc = STRSEPF_RESULT_ERR_INVALID_FORMAT ∧ st1.arg = st.arg ∧ st1.stores = st.stores) ∨
     (IsConvCode rc ∧ rc < 0 ∧ ∃ p v, st.arg = some p :: st1.arg ∧
        st1.stores = st.stores ++ [(p, v)] ∧
        (v = .u32 (strtou32_s w (some tok.str) (unsignedBase sp.specifierType)
            (some STRSEPF_RESULT_OK)).1 ∨
          v = .i32 (strto32_s w (some tok.str) 10 (some STRSEPF_RESULT_OK)).1) ∧
        (rc = STRSEPF_RESULT_ERR_STRTOI_NOT_A_DECIMAL → v = .u32 0 ∨ v = .i32 0))) := by
  have h0 : STRSEPF_RESULT_OK = 0 := rfl
  unfold scanToken at h
  split_ifs at h
  · unfold bindString at h
    split at h
    · cases h
    · rename_i arg harg
      cases h
      exact ⟨rfl, rfl, Or.inl ⟨rfl, harg, rfl⟩⟩
    · cases h
  · unfold bindUnsigned at h
    split at h
    · cases h
    · rename_i arg harg
      cases h
      exact ⟨rfl, rfl, Or.inl ⟨rfl, harg, rfl⟩⟩
    · rename_i ptr arg harg
      obtain ⟨hrc, h2, rfl⟩ := storeConverted_ret _ _ _ _ _ _ _ h
      have hc := strtou32_s_code w (some tok.str) (unsignedBase sp.specifierType)
        STRSEPF_RESULT_OK
      refine ⟨rfl, rfl, Or.inr (Or.inr ⟨by rw [hrc]; exact hc, by rw [hrc]; omega,
        ptr, _, harg, rfl, Or.inl rfl, fun e => Or.inl ?_⟩)⟩
      rw [strtou32_s_not_a_decimal w tok.str _ _ (by rw [← hrc]; exact e)]
  · unfold bindSigned at h
    split at h
    · cases h
    · rename_i arg harg
      cases h
      exact ⟨rfl, rfl, Or.inl ⟨rfl, harg, rfl⟩⟩
    · rename_i ptr arg harg
      obtain ⟨hrc, h2, rfl⟩ := storeConverted_ret _ _ _ _ _ _ _ h
      have hc := strto32_s_code w (some tok.str) 10 STRSEPF_RESULT_OK
      refine ⟨rfl, rfl, Or.inr (Or.inr ⟨by rw [hrc]; exact hc, by rw [hrc]; omega,
        ptr, _, harg, rfl, Or.inr rfl, fun e => Or.inr ?_⟩)⟩
      rw [strto32_s_not_a_decimal w tok.str _ _ (by rw [← hrc]; exact e)]
  · cases h
    exact ⟨rfl, rfl, Or.inr (Or.inl ⟨rfl, rfl, rfl⟩)⟩

/-- The ways a pass through the loop body can return: the count is as it was; a conversion
error comes with one store, through the argument that was next, of the value the converter
returned; every other error comes with no store. -/
theorem loopBody_ret_state (w : Nat) (st st1 : State) (rc : Int)
    (h : loopBody w st = .ret rc st1) :
    st1.count = st.count ∧
    (((rc = STRSEPF_RESULT_ERR_INVALID_ARGS ∧ st.arg = none :: st1.arg) ∨
        ((rc = STRSEPF_RESULT_ERR_INVALID_FORMAT ∨
          rc = STRSEPF_RESULT_ERR_INPUT_DOESNT_MATCH_FORMAT ∨
          rc = STRSEPF_RESULT_ERR_TOKEN_IS_BIGGER_THAN_WIDTH) ∧ st1.arg = st.arg)) ∧
      st1.stores = st.stores ∨
     (IsConvCode rc ∧ rc < 0 ∧ ∃ p v tok base, st.arg = some p :: st1.arg ∧
        st1.stores = st.stores ++ [(p, v)] ∧
        (v = .u32 (strtou32_s w (some tok) base (some STRSEPF_RESULT_OK)).1 ∨
          v = .i32 (strto32_s w (some tok) 10 (some STRSEPF_RESULT_OK)).1) ∧
        (rc = STRSEPF_RESULT_ERR_STRTOI_NOT_A_DECIMAL → v = .u32 0 ∨ v = .i32 0))) := by
  rw [loopBody_eq] at h
  split_ifs at h
  · unfold specifier at h
    split at h
    · cases h
    · cases h
      exact ⟨rfl, Or.inl ⟨Or.inr ⟨Or.inl rfl, rfl⟩, rfl⟩⟩
    · split_ifs at h
      · cases h
        exact ⟨rfl, Or.inl ⟨Or.inr ⟨Or.inl rfl, rfl⟩, rfl⟩⟩
      · split at h
        · cases h
          exact ⟨rfl, Or.inl ⟨Or.inr ⟨Or.inr (Or.inl rfl), rfl⟩, rfl⟩⟩
        · unfold bindToken at h
          split_ifs at h
          · cases h
            exact ⟨rfl, Or.inl ⟨Or.inr ⟨Or.inr (Or.inr rfl), rfl⟩, rfl⟩⟩
          · obtain ⟨e1, -, e3⟩ := scanToken_ret_state w _ st1 _ _ rc h
            refine ⟨e1, ?_⟩
            rcases e3 with ⟨a1, a2, a3⟩ | ⟨a1, a2, a3⟩ | ⟨a1, a2, p, v, a3, a4, a5, a6⟩
            · exact Or.inl ⟨Or.inl ⟨a1, a2⟩, a3⟩
            · exact Or.inl ⟨Or.inr ⟨Or.inl a1, a2⟩, a3⟩
            · exact Or.inr ⟨a1, a2, p, v, _, _, a3, a4, a5, a6⟩
  · cases h
    exact ⟨rfl, Or.inl ⟨Or.inr ⟨Or.inr (Or.inl rfl), rfl⟩, rfl⟩⟩

/-- How a call that returns has left the loop: by the loop condition with the count, or
with what a pass through the body returned; the state in which the loop was left or the
pass entered satisfies the invariant. -/
theorem vstrsepf_return_cases (w : Nat) (mutStr fmt : List Char) (arg : List (Option Nat))
    (rc : Int) (st : State) (h : vstrsepf w (some mutStr) (some fmt) arg = .returned rc st) :
    (rc = toInt16 st.count ∧ LoopInv arg fmt st) ∨
    ∃ st2, LoopInv arg fmt st2 ∧ deref st2.mutStr.rest ≠ '\x00' ∧ deref st2.fmt ≠ '\x00' ∧
      loopBody w st2 = .ret rc st := by
  have hlen : (initState mutStr fmt arg).fmt.length < fmt.length + 1 := Nat.lt_succ_self _
  have hstep : ∀ st st1, LoopInv arg fmt st → deref st.mutStr.rest ≠ '\x00' →
      deref st.fmt ≠ '\x00' → loopBody w st = .next st1 → LoopInv arg fmt st1 :=
    fun st st1 hP _ _ h => loopInv_step w arg fmt st st1 hP h
  have hall := vstrsepfLoop_cases w (LoopInv arg fmt) hstep
    (fmt.length + 1) (initState mutStr fmt arg) (loopInv_init mutStr fmt arg) hlen
  have hrun : vstrsepf w (some mutStr) (some fmt) arg =
      vstrsepfLoop w (fmt.length + 1) (initState mutStr fmt arg) := rfl
  rw [hrun] at h
  generalize vstrsepfLoop w (fmt.length + 1) (initState mutStr fmt arg) = res at hall h
  obtain ⟨st2, hinv, hcase⟩ := hall
  rcases hcase with ⟨-, rfl⟩ | ⟨h1, h2, ⟨rc1, st3, hb, rfl⟩ | ⟨st3, hb, rfl⟩⟩
  · simp only [Outcome.returned.injEq] at h
    obtain ⟨rfl, rfl⟩ := h
    exact Or.inl ⟨rfl, hinv⟩
  · simp only [Outcome.returned.injEq] at h
    obtain ⟨rfl, rfl⟩ := h
    exact Or.inr ⟨st2, hinv, h1, h2, hb⟩
  · cases h

theorem filterMap_map_some_fst (l : List (Nat × Value)) :
    (l.map (fun s => some s.1)).filterMap id = l.map Prod.fst := by
  induction l with
  | nil => rfl
  | cons a l ih => simp [List.filterMap_cons, ih]

/-- The stores of a call that returns, against its arguments: the stores made for the
specifiers that were bound went, in order, through the first arguments, as many as the
count; one more store, through the next argument, has been made when the call returns a
conversion error, and none otherwise. -/
theorem vstrsepf_return_stores (w : Nat) (mutStr fmt : List Char) (arg : List (Option Nat))
    (rc : Int) (st : State) (h : vstrsepf w (some mutStr) (some fmt) arg = .returned rc st) :
    ∃ (bound : List (Nat × Value)) (later : List (Option Nat)), bound.length = st.count ∧
      ((st.stores = bound ∧ arg = bound.map (fun s => some s.1) ++ later ∧
          ((rc = toInt16 st.count ∧ st.count ≤ specifierCount fmt) ∨
            rc = STRSEPF_RESULT_ERR_INVALID_ARGS ∨ rc = STRSEPF_RESULT_ERR_INVALID_FORMAT ∨
            rc = STRSEPF_RESULT_ERR_INPUT_DOESNT_MATCH_FORMAT ∨
            rc = STRSEPF_RESULT_ERR_TOKEN_IS_BIGGER_THAN_WIDTH)) ∨
       (IsConvCode rc ∧ rc < 0 ∧ ∃ p v tok base, st.stores = bound ++ [(p, v)] ∧
          arg = bound.map (fun s => some s.1) ++ some p :: later ∧ later = st.arg ∧
          (v = .u32 (strtou32_s w (some tok) base (some STRSEPF_RESULT_OK)).1 ∨
            v = .i32 (strto32_s w (some tok) 10 (some STRSEPF_RESULT_OK)).1) ∧
          (rc = STRSEPF_RESULT_ERR_STRTOI_NOT_A_DECIMAL → v = .u32 0 ∨ v = .i32 0))) := by
  rcases vstrsepf_return_cases w mutStr fmt arg rc st h with
    ⟨h1, i1, i2, -, i4, -⟩ | ⟨st2, ⟨i1, i2, -, -, -⟩, -, -, hb⟩
  · exact ⟨st.stores, st.arg, i2.symm, Or.inl ⟨rfl, i1, Or.inl ⟨h1, by omega⟩⟩⟩
  · obtain ⟨e1, e2⟩ := loopBody_ret_state w st2 st rc hb
    rcases e2 with ⟨a1, a2⟩ | ⟨a1, a2, p, v, tok, base, a3, a4, a5, a6⟩
    · refine ⟨st2.stores, st2.arg, by rw [e1]; exact i2.symm, Or.inl ⟨a2, i1, ?_⟩⟩
      rcases a1 with ⟨a1, -⟩ | ⟨a1 | a1 | a1, -⟩
      · exact Or.inr (Or.inl a1)
      · exact Or.inr (Or.inr (Or.inl a1))
      · exact Or.inr (Or.inr (Or.inr (Or.inl a1)))
      · exact Or.inr (Or.inr (Or.inr (Or.inr a1)))
    · exact ⟨st2.stores, st.arg, by rw [e1]; exact i2.symm,
        Or.inr ⟨a1, a2, p, v, tok, base, a4, by rw [i1, a3], rfl, a5, a6⟩⟩

/-- C15, as amended. The store comes before the test of the conversion result. Whenever a
call, on a format with fewer than 32768 specifiers, returns
`STRSEPF_RESULT_ERR_STRTOI_NOT_A_DECIMAL`, `STRSEPF_RESULT_ERR_STRTOI_EXTRA_CHAR` or
`STRSEPF_RESULT_ERR_STRTOI_OUT_OF_RANGE`, the value the converter returned for the token
has been stored through the slot of the failing specifier: it is the last store of the
call, made through the argument that follows those of the specifiers bound before, so the
slot holds that value whatever it held before the call; the value is 0 when nothing was
consumed as a number. The count does not include the failing specifier. -/
theorem failed_conversion_overwrites (w : Nat) (mutStr fmt : List Char)
    (arg : List (Option Nat)) (rc : Int) (st : State) (hcount : specifierCount fmt < 32768)
    (h : vstrsepf w (some mutStr) (some fmt) arg = .returned rc st)
    (hrc : rc = STRSEPF_RESULT_ERR_STRTOI_NOT_A_DECIMAL ∨
      rc = STRSEPF_RESULT_ERR_STRTOI_EXTRA_CHAR ∨
      rc = STRSEPF_RESULT_ERR_STRTOI_OUT_OF_RANGE) :
    ∃ (bound : List (Nat × Value)) (p : Nat) (v : Value) (tok : List Char) (base : Nat),
      st.stores = bound ++ [(p, v)] ∧ bound.length = st.count ∧
      arg = bound.map (fun s => some s.1) ++ some p :: st.arg ∧
      (v = .u32 (strtou32_s w (some tok) base (some STRSEPF_RESULT_OK)).1 ∨
        v = .i32 (strto32_s w (some tok) 10 (some STRSEPF_RESULT_OK)).1) ∧
      (rc = STRSEPF_RESULT_ERR_STRTOI_NOT_A_DECIMAL → v = .u32 0 ∨ v = .i32 0) ∧
      ∀ init, slotAfter st.stores p init = v := by
  have hneg : rc = -6 ∨ rc = -7 ∨ rc = -8 := hrc
  obtain ⟨bound, later, hlen, hcase⟩ := vstrsepf_return_stores w mutStr fmt arg rc st h
  rcases hcase with ⟨-, -, hA⟩ | ⟨-, -, p, v, tok, base, a1, a2, a3, a4, a5⟩
  · exfalso
    rcases hA with ⟨e1, e2⟩ | e | e | e | e
    · rw [toInt16_of_range (by omega) (by omega)] at e1
      omega
    · have : rc = -2 := e
      omega
    · have : rc = -3 := e
      omega
    · have : rc = -4 := e
      omega
    · have : rc = -5 := e
      omega
  · subst a3
    refine ⟨bound, p, v, tok, base, a1, hlen, a2, a4, a5, fun init => ?_⟩
    rw [a1, slotAfter_append, if_pos rfl]

theorem failed_conversion_overwrites_witness :
    specifierCount "%d".toList < 32768 ∧
    ∃ (bound : List (Nat × Value)) (p : Nat) (v : Value) (tok : List Char) (base : Nat),
      [(0, Value.i32 12)] = bound ++ [(p, v)] ∧ bound.length = 0 ∧
      [some 0] = bound.map (fun s => some s.1) ++ some p :: [] ∧
      (v = .u32 (strtou32_s 64 (some tok) base (some STRSEPF_RESULT_OK)).1 ∨
        v = .i32 (strto32_s 64 (some tok) 10 (some STRSEPF_RESULT_OK)).1) ∧
      (STRSEPF_RESULT_ERR_STRTOI_EXTRA_CHAR = STRSEPF_RESULT_ERR_STRTOI_NOT_A_DECIMAL →
        v = .u32 0 ∨ v = .i32 0) ∧
      ∀ init, slotAfter [(0, Value.i32 12)] p init = v :=
  ⟨by decide,
    failed_conversion_overwrites 64 "12x".toList "%d".toList [some 0]
      STRSEPF_RESULT_ERR_STRTOI_EXTRA_CHAR
      ⟨⟨[], "12x".toList⟩, [], [], 0, [(0, .i32 12)], [⟨'d', false⟩]⟩ (by decide) (by decide)
      (Or.inr (Or.inl rfl))⟩

/-- C15, as stated, fails. A slot that holds 3 before the call holds another value after
a conversion that fails: 12 after `12x` with `%d`
(`STRSEPF_RESULT_ERR_STRTOI_EXTRA_CHAR`), 0 after `abc` with `%u`
(`STRSEPF_RESULT_ERR_STRTOI_NOT_A_DECIMAL`) and 1215752191 after `99999999999` with `%u`
(`STRSEPF_RESULT_ERR_STRTOI_OUT_OF_RANGE`). -/
theorem failed_conversion_slot_changed :
    (vstrsepf 64 (some "12x".toList) (some "%d".toList) [some 0]).rc? =
      some STRSEPF_RESULT_ERR_STRTOI_EXTRA_CHAR ∧
    slotAfter (vstrsepf 64 (some "12x".toList) (some "%d".toList) [some 0]).stores 0
      (.i32 3) = .i32 12 ∧
    (vstrsepf 64 (some "abc".toList) (some "%u".toList) [some 0]).rc? =
      some STRSEPF_RESULT_ERR_STRTOI_NOT_A_DECIMAL ∧
    slotAfter (vstrsepf 64 (some "abc".toList) (some "%u".toList) [some 0]).stores 0
      (.u32 3) = .u32 0 ∧
    (vstrsepf 64 (some "99999999999".toList) (some "%u".toList) [some 0]).rc? =
      some STRSEPF_RESULT_ERR_STRTOI_OUT_OF_RANGE ∧
    slotAfter (vstrsepf 64 (some "99999999999".toList) (some "%u".toList) [some 0]).stores 0
      (.u32 3) = .u32 1215752191 ∧
    ¬ slotAfter (vstrsepf 64 (some "12x".toList) (some "%d".toList) [some 0]).stores 0
      (.i32 3) = .i32 3 := by
  decide

/-- C16. The stores of a call that returns, whatever it returns: the stores made for the
specifiers bound before are the first ones, as many as the count, made in order through
the first arguments; after them comes at most one store, made through the slot of the
failing specifier when its conversion failed. When the slots are different from one
another, every slot bound before still holds the value stored for it, and the slots that
come later in the argument list, those of the specifiers not reached and that of a
specifier that failed before its conversion, hold what they held before the call. -/
theorem no_rollback_no_run_ahead (w : Nat) (mutStr fmt : List Char) (arg : List (Option Nat))
    (rc : Int) (st : State) (h : vstrsepf w (some mutStr) (some fmt) arg = .returned rc st) :
    ∃ (bound : List (Nat × Value)) (later : List (Option Nat)), bound.length = st.count ∧
      (st.stores = bound ∧ arg = bound.map (fun s => some s.1) ++ later ∨
        ∃ p v, st.stores = bound ++ [(p, v)] ∧
          arg = bound.map (fun s => some s.1) ++ some p :: later ∧ IsConvCode rc ∧ rc < 0) ∧
      ((arg.filterMap id).Nodup →
        (∀ s ∈ bound, ∀ init, slotAfter st.stores s.1 init = s.2) ∧
        (∀ q, some q ∈ later → ∀ init, slotAfter st.stores q init = init)) := by
  obtain ⟨bound, later, hlen, hcase⟩ := vstrsepf_return_stores w mutStr fmt arg rc st h
  refine ⟨bound, later, hlen, ?_, ?_⟩
  · rcases hcase with ⟨a1, a2, -⟩ | ⟨a1, a2, p, v, -, -, a3, a4, -⟩
    · exact Or.inl ⟨a1, a2⟩
    · exact Or.inr ⟨p, v, a3, a4, a1, a2⟩
  · intro hnd
    have hq : ∀ q, some q ∈ later → q ∈ later.filterMap id := fun q hq =>
      List.mem_filterMap.2 ⟨some q, hq, rfl⟩
    rcases hcase with ⟨a1, a2, -⟩ | ⟨-, -, p, v, -, -, a3, a4, -⟩
    · rw [a2, List.filterMap_append, filterMap_map_some_fst, List.nodup_append] at hnd
      obtain ⟨h1, -, h3⟩ := hnd
      rw [a1]
      exact ⟨fun s hs init => slotAfter_mem bound init h1 s hs,
        fun q hqm init => slotAfter_not_mem bound q init (fun e => h3 e (hq q hqm))⟩
    · have e : arg = (bound ++ [(p, v)]).map (fun s => some s.1) ++ later := by
        rw [a4]; simp
      rw [e, List.filterMap_append, filterMap_map_some_fst, List.nodup_append] at hnd
      obtain ⟨h1, -, h3⟩ := hnd
      rw [a3]
      exact ⟨fun s hs init => slotAfter_mem _ init h1 s (List.mem_append_left _ hs),
        fun q hqm init => slotAfter_not_mem _ q init (fun e => h3 e (hq q hqm))⟩

theorem no_rollback_no_run_ahead_witness :
    ((vstrsepf 64 (some "192.1684.0.13".toList) (some "%3d.%3d.%3d.%3d".toList)
        [some 0, some 1, some 2, some 3]).rc? =
        some STRSEPF_RESULT_ERR_TOKEN_IS_BIGGER_THAN_WIDTH ∧
      slotAfter (vstrsepf 64 (some "192.1684.0.13".toList) (some "%3d.%3d.%3d.%3d".toList)
        [some 0, some 1, some 2, some 3]).stores 0 (.i32 0) = .i32 192 ∧
      slotAfter (vstrsepf 64 (some "192.1684.0.13".toList) (some "%3d.%3d.%3d.%3d".toList)
        [some 0, some 1, some 2, some 3]).stores 1 (.i32 0) = .i32 0 ∧
      slotAfter (vstrsepf 64 (some "192.1684.0.13".toList) (some "%3d.%3d.%3d.%3d".toList)
        [some 0, some 1, some 2, some 3]).stores 2 (.i32 0) = .i32 0 ∧
      (vstrsepf 64 (some "7,8,x,9".toList) (some "%d,%d,%d,%d".toList)
        [some 0, some 1, some 2, some 3]).stores = [(0, .i32 7), (1, .i32 8), (2, .i32 0)]) ∧
    ∃ (bound : List (Nat × Value)) (later : List (Option Nat)), bound.length = 1 ∧
      ([(0, Value.i32 192)] = bound ∧
          [some 0, some 1, some 2, some 3] = bound.map (fun s => some s.1) ++ later ∨
        ∃ p v, [(0, Value.i32 192)] = bound ++ [(p, v)] ∧
          [some 0, some 1, some 2, some 3] =
            bound.map (fun s => some s.1) ++ some p :: later ∧
          IsConvCode STRSEPF_RESULT_ERR_TOKEN_IS_BIGGER_THAN_WIDTH ∧
          STRSEPF_RESULT_ERR_TOKEN_IS_BIGGER_THAN_WIDTH < 0) ∧
      (([some 0, some 1, some 2, some 3].filterMap id).Nodup →
        (∀ s ∈ bound, ∀ init, slotAfter [(0, Value.i32 192)] s.1 init = s.2) ∧
        (∀ q, some q ∈ later → ∀ init, slotAfter [(0, Value.i32 192)] q init = init)) :=
  ⟨by decide,
    no_rollback_no_run_ahead 64 "192.1684.0.13".toList "%3d.%3d.%3d.%3d".toList
      [some 0, some 1, some 2, some 3] STRSEPF_RESULT_ERR_TOKEN_IS_BIGGER_THAN_WIDTH
      ⟨⟨"192\x001684\x00".toList, "0.13".toList⟩, "%3d.%3d".toList,
        [some 1, some 2, some 3], 1, [(0, .i32 192)], [⟨'d', false⟩, ⟨'d', false⟩]⟩
      (by decide)⟩

/-! ### The decision order of the converters -/

/-- The scan of a specifier body does not depend on the iteration bound once the bound
exceeds the length of what is left of the format. -/
theorem scanSpecifier_fuel (w : Nat) : ∀ (n m : Nat) (fmt : List Char) (sp : Spec),
    fmt.length < n → fmt.length < m → scanSpecifier w n fmt sp = scanSpecifier w m fmt sp := by
  intro n
  induction n with
  | zero => intro m fmt sp h; omega
  | succ n ih =>
    intro m fmt sp hn hm
    obtain ⟨m, rfl⟩ : ∃ k, m = k + 1 := ⟨m - 1, by omega⟩
    rw [scanSpecifier_succ, scanSpecifier_succ]
    by_cases h1 : deref fmt = '\x00'
    · rw [if_pos h1, if_pos h1]
    rw [if_neg h1, if_neg h1]
    have hlen := tail_length_lt h1
    by_cases h2 : deref fmt ∈ SUPPORTED_SPECIFIER
    · rw [if_pos h2, if_pos h2]
    rw [if_neg h2, if_neg h2]
    by_cases h3 : deref fmt = '*'
    · rw [if_pos h3, if_pos h3]
      exact ih m _ _ (by omega) (by omega)
    rw [if_neg h3, if_neg h3]
    by_cases h4 : '1' ≤ deref fmt ∧ deref fmt ≤ '9'
    · rw [if_pos h4, if_pos h4]
      by_cases h5 : (strtou32_s w (some fmt) 10 (some STRSEPF_RESULT_OK)).2 ≠
            some STRSEPF_RESULT_ERR_STRTOI_EXTRA_CHAR
      · rw [if_pos h5, if_pos h5]
      · rw [if_neg h5, if_neg h5]
        have hlen2 : (fmt.drop ((fmt.takeWhile isdigit).length - 1 + 1)).length <
            fmt.length := by
          rw [List.length_drop]; rw [List.length_tail] at hlen; omega
        exact ih m _ _ (by omega) (by omega)
    · rw [if_neg h4, if_neg h4]

/-- The loop never uses up a bound that exceeds the length of what is left of the
format. -/
theorem vstrsepfLoop_ne_fuel (w n : Nat) (st : State) (h : st.fmt.length < n) :
    vstrsepfLoop w n st ≠ .fuel := by
  have hall := vstrsepfLoop_cases w (fun _ => True) (fun _ _ _ _ _ _ => trivial) n st trivial h
  generalize vstrsepfLoop w n st = res at hall ⊢
  obtain ⟨st2, -, hcase⟩ := hall
  rcases hcase with ⟨-, rfl⟩ | ⟨-, -, ⟨rc1, st3, -, rfl⟩ | ⟨st3, -, rfl⟩⟩ <;> simp

/-- The width branch moves forward: a digit from 1 to 9 begins a run of at least one
digit, and the position behind the run, reached by the step back and the increment of the
`for` loop, lies further than where the run began. -/
theorem width_branch_progress (f : List Char) (h : '1' ≤ deref f ∧ deref f ≤ '9') :
    1 ≤ (f.takeWhile isdigit).length ∧
      (f.drop ((f.takeWhile isdigit).length - 1 + 1)).length < f.length := by
  cases f with
  | nil => exact absurd h (by decide)
  | cons c t =>
    rw [deref_cons] at h
    have hd := isdigit_of_range h.1 h.2
    rw [List.takeWhile_cons_of_pos hd]
    refine ⟨by simp, ?_⟩
    rw [List.length_drop]
    simp only [List.length_cons]
    omega

/-- C24. A call of `vstrsepf` always ends: with any arguments it returns or runs into the
`va_arg` without argument, and never uses up the iteration bound of one more than the
length of the format. Every pass through the main loop that goes on leaves `fmt` at a
proper suffix of where it was; every iteration of the loop over a specifier body does so
too, also in the width branch, where the position behind the digits, reached after the
step back, lies at least one character further. With a bound above the length of what is
left of the format, the loops do not depend on the bound, so each is a function defined by
recursion on that length. -/
theorem vstrsepf_terminates (w : Nat) (mutStr fmt : Option (List Char))
    (arg : List (Option Nat)) :
    ((∃ rc st, vstrsepf w mutStr fmt arg = .returned rc st) ∨
      ∃ st, vstrsepf w mutStr fmt arg = .undefined st) ∧
    (∀ st st1, deref st.fmt ≠ '\x00' → loopBody w st = .next st1 →
      st1.fmt <:+ st.fmt.tail ∧ st1.fmt.length < st.fmt.length) ∧
    (∀ n m st, st.fmt.length < n → st.fmt.length < m →
      vstrsepfLoop w n st ≠ .fuel ∧ vstrsepfLoop w n st = vstrsepfLoop w m st) ∧
    (∀ n m f sp, f.length < n → f.length < m →
      scanSpecifier w n f sp ≠ .fuel ∧ scanSpecifier w n f sp = scanSpecifier w m f sp ∧
      ∀ sp1 f1, scanSpecifier w n f sp = .done sp1 f1 → f1 <:+ f) ∧
    (∀ f, deref f ≠ '\x00' → f.tail.length < f.length ∧
      ('1' ≤ deref f ∧ deref f ≤ '9' → 1 ≤ (f.takeWhile isdigit).length ∧
        (f.drop ((f.takeWhile isdigit).length - 1 + 1)).length < f.length)) := by
  refine ⟨?_, fun st st1 h0 hb => ⟨loopBody_progress w st st1 hb,
      loopBody_fmt_length w st st1 h0 hb⟩,
    fun n m st hn hm => ⟨vstrsepfLoop_ne_fuel w n st hn, vstrsepfLoop_fuel w n m st hn hm⟩,
    fun n m f sp hn hm => ⟨(scanSpecifier_suffix w n f sp hn).1,
      scanSpecifier_fuel w n m f sp hn hm, (scanSpecifier_suffix w n f sp hn).2⟩,
    fun f h0 => ⟨tail_length_lt h0, width_branch_progress f⟩⟩
  cases mutStr with
  | none => exact Or.inl ⟨_, _, rfl⟩
  | some s =>
    cases fmt with
    | none => exact Or.inl ⟨_, _, rfl⟩
    | some f =>
      have hnf := vstrsepf_ne_fuel w s f arg
      generalize vstrsepf w (some s) (some f) arg = res at hnf ⊢
      cases res with
      | returned rc st => exact Or.inl ⟨rc, st, rfl⟩
      | undefined st => exact Or.inr ⟨st, rfl⟩
      | fuel => exact absurd rfl hnf

/-! ### Specifiers without a literal between them -/

/-- Tokenisation when the format goes on with the character `c` behind the specifier: `c`
is the terminator and the format is left behind it; the token begins at the cursor. -/
theorem tokenise_cons (p : Cursor) (c : Char) (fmt : List Char) (hc : c ≠ '\x00') :
    ∃ tok cur, tokenise p (c :: fmt) = some (tok, cur, fmt) ∧ tok.off = p.pre.length ∧
      strsep (some p) c = some (tok, cur) := by
  unfold tokenise
  rw [deref_cons, if_neg hc]
  obtain ⟨tok, cur, hs⟩ := strsep_isSome p c
  rw [hs]
  refine ⟨tok, cur, rfl, ?_, rfl⟩
  unfold strsep at hs
  simp only at hs
  split_ifs at hs <;> (cases hs; rfl)

/-- C23. With the format `%s%d` and two slots, whatever the input: the call returns 0 (on
the empty input), 1 or `STRSEPF_RESULT_ERR_INPUT_DOESNT_MATCH_FORMAT`, never 2. On an input
that is not empty the first pass takes the second `%` as the terminator of the `%s` token
and leaves the format at `d`, which is then compared with the input as a literal. The
only store a call makes is the one of the token through the first slot; the second
argument is never read and the second slot never written. -/
theorem adjacent_specifiers (w : Nat) (s : List Char) (p0 p1 : Nat) :
    (∃ rc st, vstrsepf w (some s) (some "%s%d".toList) [some p0, some p1] = .returned rc st ∧
      (rc = 0 ∨ rc = 1 ∨ rc = STRSEPF_RESULT_ERR_INPUT_DOESNT_MATCH_FORMAT) ∧ rc ≠ 2 ∧
      (st.stores = [] ∨ st.stores = [(p0, .str 0)]) ∧ some p1 ∈ st.arg ∧
      st.specs.length ≤ 1 ∧ (p1 ≠ p0 → ∀ init, slotAfter st.stores p1 init = init)) ∧
    (deref s ≠ '\x00' → ∃ tok cur, strsep (some ⟨[], s⟩) '%' = some (tok, cur) ∧
      loopBody w (initState s "%s%d".toList [some p0, some p1]) =
        .next { mutStr := cur, fmt := ['d'], arg := [some p1], count := 1,
                stores := [(p0, .str 0)], specs := [⟨'s', false⟩] }) := by
  have hfirst : deref s ≠ '\x00' → ∃ tok cur, strsep (some ⟨[], s⟩) '%' = some (tok, cur) ∧
      loopBody w (initState s "%s%d".toList [some p0, some p1]) =
        .next { mutStr := cur, fmt := ['d'], arg := [some p1], count := 1,
                stores := [(p0, .str 0)], specs := [⟨'s', false⟩] } := by
    intro _
    obtain ⟨tok, cur, htok, hoff, hsep⟩ := tokenise_cons ⟨[], s⟩ '%' ['d'] (by decide)
    refine ⟨tok, cur, hsep, ?_⟩
    rw [loopBody_specifier w _ 's' ['%', 'd'] rfl (by decide),
      specifier_of_scan w _ _ ['%', 'd'] ⟨'s', false, 0⟩
        (scanSpecifier_type w _ 's' ['%', 'd'] _ (by decide)) (by decide) tok cur ['d'] htok]
    unfold bindToken
    simp only [Bool.false_eq_true, if_false, gt_iff_lt, lt_self_iff_false, false_and]
    rw [scanToken_string w _ _ tok p0 [some p1] rfl rfl, hoff]
    rfl
  refine ⟨?_, hfirst⟩
  have hrun : vstrsepf w (some s) (some "%s%d".toList) [some p0, some p1] =
      vstrsepfLoop w 5 (initState s "%s%d".toList [some p0, some p1]) := rfl
  rw [hrun]
  have hslot : ∀ init, p1 ≠ p0 → slotAfter [(p0, Value.str 0)] p1 init = init := by
    intro init hne
    exact slotAfter_not_mem _ _ _ (by simpa using hne)
  have h0 : ∀ st : State, st.count = 0 → toInt16 (st.count : Int) = 0 := by
    intro st h; rw [h]; decide
  have h1 : ∀ st : State, st.count = 1 → toInt16 (st.count : Int) = 1 := by
    intro st h; rw [h]; decide
  by_cases hs : deref s = '\x00'
  · rw [vstrsepfLoop_end w 4 _ (Or.inl hs)]
    refine ⟨_, _, rfl, Or.inl (h0 _ rfl), by rw [h0 _ rfl]; decide, Or.inl rfl, ?_, ?_,
      fun _ _ => rfl⟩
    · simp [initState]
    · simp [initState]
  · obtain ⟨tok, cur, -, hb⟩ := hfirst hs
    rw [vstrsepfLoop_next w 4 _ _ hs (by show '%' ≠ '\x00'; decide) hb]
    by_cases hc : deref cur.rest = '\x00'
    · rw [vstrsepfLoop_end w 3 _ (Or.inl hc)]
      refine ⟨_, _, rfl, Or.inr (Or.inl (h1 _ rfl)), by rw [h1 _ rfl]; decide,
        Or.inr rfl, by simp, by simp, fun h init => hslot init h⟩
    · by_cases hd : 'd' = deref cur.rest
      · have hb2 :
            loopBody w { mutStr := cur, fmt := ['d'], arg := [some p1], count := 1,
                         stores := [(p0, .str 0)], specs := [⟨'s', false⟩] } =
              .next { mutStr := cur.advance, fmt := [], arg := [some p1], count := 1,
                      stores := [(p0, .str 0)], specs := [⟨'s', false⟩] } := by
          rw [loopBody_eq, if_neg (by show 'd' ≠ '%'; decide), if_neg (by simpa using hd)]
          rfl
        rw [vstrsepfLoop_next w 3 _ _ hc (by show 'd' ≠ '\x00'; decide) hb2,
          vstrsepfLoop_end w 2
            { mutStr := cur.advance, fmt := [], arg := [some p1], count := 1,
              stores := [(p0, .str 0)], specs := [⟨'s', false⟩] } (Or.inr rfl)]
        refine ⟨_, _, rfl, Or.inr (Or.inl (h1 _ rfl)), by rw [h1 _ rfl]; decide,
          Or.inr rfl, by simp, by simp, fun h init => hslot init h⟩
      · have hb2 :
            loopBody w { mutStr := cur, fmt := ['d'], arg := [some p1], count := 1,
                         stores := [(p0, .str 0)], specs := [⟨'s', false⟩] } =
              .ret STRSEPF_RESULT_ERR_INPUT_DOESNT_MATCH_FORMAT
                { mutStr := cur, fmt := ['d'], arg := [some p1], count := 1,
                  stores := [(p0, .str 0)], specs := [⟨'s', false⟩] } := by
          rw [loopBody_eq, if_neg (by show 'd' ≠ '%'; decide), if_pos (by simpa using hd)]
        rw [vstrsepfLoop_ret w 3 _ _ _ hc (by show 'd' ≠ '\x00'; decide) hb2]
        refine ⟨_, _, rfl, Or.inr (Or.inr rfl), by decide, Or.inr rfl, by simp, by simp,
          fun h init => hslot init h⟩

/-! ### The bytes of the buffer that a call changes -/

theorem changes_self (l : List Char) : changes l l = 0 := by
  induction l with
  | nil => rfl
  | cons a l ih => simp [changes, ih]

theorem changes_append : ∀ (l1 l2 a b : List Char), l1.length = l2.length →
    changes (l1 ++ a) (l2 ++ b) = changes l1 l2 + changes a b := by
  intro l1
  induction l1 with
  | nil =>
    intro l2 a b h
    cases l2 with
    | nil => simp [changes]
    | cons c l2 => simp at h
  | cons x l1 ih =>
    intro l2 a b h
    cases l2 with
    | nil => simp at h
    | cons c l2 =>
      have e1 : changes ((x :: l1) ++ a) ((c :: l2) ++ b) =
          (if x = c then 0 else 1) + changes (l1 ++ a) (l2 ++ b) := rfl
      have e2 : changes (x :: l1) (c :: l2) = (if x = c then 0 else 1) + changes l1 l2 := rfl
      rw [e1, e2, ih l2 a b (by simpa using h)]
      omega

theorem changes_singleton (a b : Char) : changes [a] [b] ≤ 1 := by
  simp only [changes]
  split_ifs <;> omega

theorem byteKept_refl (l : List Char) : List.Forall₂ ByteKept l l :=
  List.forall₂_same.2 (fun _ _ => Or.inl rfl)

theorem mem_cstr_ne_nul (l : List Char) : ∀ x ∈ cstr l, x ≠ '\x00' := by
  intro x hx
  have := (List.mem_takeWhile_imp hx)
  simpa using this

/-- The first occurrence of a character in a list. -/
theorem first_split {c : Char} : ∀ {l : List Char}, c ∈ l →
    ∃ t r, l = t ++ c :: r ∧ c ∉ t := by
  intro l
  induction l with
  | nil => intro h; cases h
  | cons a l ih =>
    intro h
    by_cases hac : a = c
    · exact ⟨[], l, by rw [hac]; rfl, List.not_mem_nil _⟩
    · rcases List.mem_cons.1 h with h | h
      · exact absurd h.symm hac
      · obtain ⟨t, r, e, hn⟩ := ih h
        refine ⟨a :: t, r, by rw [e]; rfl, ?_⟩
        intro hm
        rcases List.mem_cons.1 hm with hm | hm
        · exact hac hm.symm
        · exact hn hm

/-- What tokenisation does to the cursor: it moves over a piece of the input without NUL,
and leaves that piece as it is or, when the format goes on with a terminator found in
the input, the piece ends with the first occurrence of the terminator and a NUL is put
in its place. -/
theorem tokenise_frame (p cur : Cursor) (tok : Token) (fmt fmt1 : List Char)
    (h : tokenise p fmt = some (tok, cur, fmt1)) :
    ∃ seg, (∀ x ∈ seg, x ≠ '\x00') ∧ p.rest = seg ++ cur.rest ∧
      (cur.pre = p.pre ++ seg ∨
        ∃ t, deref fmt ≠ '\x00' ∧ deref fmt ∉ t ∧ seg = t ++ [deref fmt] ∧
          cur.pre = p.pre ++ t ++ ['\x00']) := by
  unfold tokenise at h
  by_cases h0 : deref fmt = '\x00'
  · rw [if_pos h0] at h
    simp only [Option.some.injEq, Prod.mk.injEq] at h
    obtain ⟨-, rfl, -⟩ := h
    exact ⟨[], fun x hx => (by cases hx), rfl, Or.inl (by simp)⟩
  · rw [if_neg h0] at h
    have hds := cstr_append_drop p.rest
    obtain ⟨D, hD⟩ : ∃ D, D = p.rest.drop (cstr p.rest).length := ⟨_, rfl⟩
    rw [← hD] at hds
    by_cases hm : deref fmt ∈ cstr p.rest
    · obtain ⟨t, r, e, hn⟩ := first_split hm
      have hnul : ∀ x ∈ t, x ≠ '\x00' := fun x hx =>
        mem_cstr_ne_nul p.rest x (by rw [e]; exact List.mem_append_left _ hx)
      have hrest : p.rest = t ++ deref fmt :: (r ++ D) := by
        rw [← hds, e]
        simp
      have hsep : strsep (some p) (deref fmt) =
          some (⟨p.pre.length, t⟩, ⟨p.pre ++ t ++ ['\x00'], r ++ D⟩) := by
        have h1 : p = ⟨p.pre, t ++ deref fmt :: (r ++ D)⟩ := by
          rw [← hrest]
        rw [h1]
        exact strsep_found p.pre t _ (deref fmt) hnul (fun x hx e => hn (e ▸ hx)) h0
      rw [hsep] at h
      simp only [Option.some.injEq, Prod.mk.injEq] at h
      obtain ⟨-, rfl, -⟩ := h
      refine ⟨t ++ [deref fmt], ?_, by rw [hrest]; simp, Or.inr ⟨t, h0, hn, rfl, rfl⟩⟩
      intro x hx
      rcases List.mem_append.1 hx with hx | hx
      · exact hnul x hx
      · rw [List.mem_singleton] at hx; rw [hx]; exact h0
    · have hsep : strsep (some p) (deref fmt) =
          some (⟨p.pre.length, cstr p.rest⟩,
            ⟨p.pre ++ cstr p.rest, p.rest.drop (cstr p.rest).length⟩) :=
        strsep_missing p.pre p.rest (deref fmt) (fun x hx e => hm (e ▸ hx))
      rw [hsep] at h
      simp only [Option.some.injEq, Prod.mk.injEq] at h
      obtain ⟨-, rfl, -⟩ := h
      exact ⟨cstr p.rest, mem_cstr_ne_nul p.rest, by rw [← hD, hds], Or.inl rfl⟩

theorem storeConverted_state (st st1 : State) (arg : List (Option Nat)) (ptr : Nat)
    (v : Value) (e : Int) (h : (storeConverted st arg ptr v e).state? = some st1) :
    st1.mutStr = st.mutStr ∧ st1.specs = st.specs := by
  unfold storeConverted at h
  split_ifs at h <;>
    (simp only [Step.state?, Option.some.injEq] at h; subst h; exact ⟨rfl, rfl⟩)

/-- The binding of a token moves no cursor and processes no specifier. -/
theorem bindToken_state (w : Nat) (st st1 : State) (sp : Spec) (tok : Token)
    (h : (bindToken w st sp tok).state? = some st1) :
    st1.mutStr = st.mutStr ∧ st1.specs = st.specs := by
  unfold bindToken at h
  split_ifs at h
  · simp only [Step.state?, Option.some.injEq] at h; subst h; exact ⟨rfl, rfl⟩
  · simp only [Step.state?, Option.some.injEq] at h; subst h; exact ⟨rfl, rfl⟩
  · unfold scanToken at h
    split_ifs at h
    · unfold bindString at h
      split at h <;>
        (simp only [Step.state?, Option.some.injEq] at h; subst h; exact ⟨rfl, rfl⟩)
    · unfold bindUnsigned at h
      split at h
      · simp only [Step.state?, Option.some.injEq] at h; subst h; exact ⟨rfl, rfl⟩
      · simp only [Step.state?, Option.some.injEq] at h; subst h; exact ⟨rfl, rfl⟩
      · exact storeConverted_state _ _ _ _ _ _ h
    · unfold bindSigned at h
      split at h
      · simp only [Step.state?, Option.some.injEq] at h; subst h; exact ⟨rfl, rfl⟩
      · simp only [Step.state?, Option.some.injEq] at h; subst h; exact ⟨rfl, rfl⟩
      · exact storeConverted_state _ _ _ _ _ _ h
    · simp only [Step.state?, Option.some.injEq] at h; subst h; exact ⟨rfl, rfl⟩

theorem advance_frame (p : Cursor) (h : deref p.rest ≠ '\x00') :
    ∃ d, d ≠ '\x00' ∧ p.rest = [d] ++ p.advance.rest ∧ p.advance.pre = p.pre ++ [d] := by
  cases hr : p.rest with
  | nil => rw [hr] at h; exact absurd rfl h
  | cons d r =>
    rw [hr, deref_cons] at h
    refine ⟨d, h, ?_, ?_⟩
    · simp [Cursor.advance, hr]
    · simp [Cursor.advance, hr]

/-- What a pass through the loop body does to the cursor and the buffer: the cursor moves
over a piece of the input without NUL; that piece is left as it is, or the pass is the one
of a specifier behind which the format goes on with a terminator, the piece ends with the
first occurrence of the terminator in the input, and a NUL is put in its place. -/
theorem loopBody_cursor (w : Nat) (st st1 : State) (h : (loopBody w st).state? = some st1)
    (hin : deref st.mutStr.rest ≠ '\x00') :
    ∃ seg, (∀ x ∈ seg, x ≠ '\x00') ∧ st.mutStr.rest = seg ++ st1.mutStr.rest ∧
      ((st1.mutStr.pre = st.mutStr.pre ++ seg ∧ st.specs.length ≤ st1.specs.length) ∨
        ∃ t sp fmt2, deref st.fmt = '%' ∧ deref st.fmt.tail ≠ '%' ∧
          scanSpecifier w (st.fmt.tail.length + 1) st.fmt.tail ⟨'\x00', false, 0⟩ =
            .done sp fmt2 ∧
          sp.specifierType ≠ '\x00' ∧ deref fmt2 ≠ '\x00' ∧ deref fmt2 ∉ t ∧
          seg = t ++ [deref fmt2] ∧ st1.mutStr.pre = st.mutStr.pre ++ t ++ ['\x00'] ∧
          st1.specs.length = st.specs.length + 1) := by
  have hsame : ∀ s2 : State, s2.mutStr = st.mutStr → s2.specs = st.specs →
      (∀ x ∈ ([] : List Char), x ≠ '\x00') ∧ st.mutStr.rest = [] ++ s2.mutStr.rest ∧
        s2.mutStr.pre = st.mutStr.pre ++ [] ∧ st.specs.length ≤ s2.specs.length := by
    intro s2 e1 e2
    exact ⟨fun x hx => (by cases hx), by rw [e1]; rfl, by rw [e1]; simp, by rw [e2]⟩
  have hadv : ∀ s2 : State, s2.mutStr = st.mutStr.advance → s2.specs = st.specs →
      ∃ d, (∀ x ∈ [d], x ≠ '\x00') ∧ st.mutStr.rest = [d] ++ s2.mutStr.rest ∧
        s2.mutStr.pre = st.mutStr.pre ++ [d] ∧ st.specs.length ≤ s2.specs.length := by
    intro s2 e1 e2
    obtain ⟨d, hd, a1, a2⟩ := advance_frame st.mutStr hin
    refine ⟨d, ?_, by rw [e1]; exact a1, by rw [e1]; exact a2, by rw [e2]⟩
    intro x hx
    rw [List.mem_singleton] at hx
    rw [hx]; exact hd
  rw [loopBody_eq] at h
  by_cases h1 : deref st.fmt = '%'
  · rw [if_pos h1] at h
    by_cases h2 : deref st.fmt.tail = '%'
    · rw [if_pos h2] at h
      simp only [Step.state?, Option.some.injEq] at h
      obtain ⟨d, a, b, c, e⟩ := hadv st1 (by rw [← h]) (by rw [← h])
      exact ⟨[d], a, b, Or.inl ⟨c, e⟩⟩
    · rw [if_neg h2] at h
      unfold specifier at h
      obtain ⟨res, hscan⟩ : ∃ res,
          scanSpecifier w (st.fmt.tail.length + 1) st.fmt.tail ⟨'\x00', false, 0⟩ = res :=
        ⟨_, rfl⟩
      rw [hscan] at h
      cases res with
      | fuel => cases h
      | invalid =>
        simp only [Step.state?, Option.some.injEq] at h
        obtain ⟨a, b, c, e⟩ := hsame st1 (by rw [← h]) (by rw [← h])
        exact ⟨[], a, b, Or.inl ⟨c, e⟩⟩
      | done sp fmt2 =>
        simp only at h
        by_cases hty : sp.specifierType = '\x00'
        · rw [if_pos hty] at h
          simp only [Step.state?, Option.some.injEq] at h
          obtain ⟨a, b, c, e⟩ := hsame st1 (by rw [← h]) (by rw [← h])
          exact ⟨[], a, b, Or.inl ⟨c, e⟩⟩
        · rw [if_neg hty] at h
          obtain ⟨tok, cur, fmt3, ht⟩ := tokenise_isSome st.mutStr fmt2
          rw [ht] at h
          simp only at h
          obtain ⟨e1, e2⟩ := bindToken_state w _ st1 sp tok h
          obtain ⟨seg, g1, g2, g3⟩ := tokenise_frame st.mutStr cur tok fmt2 fmt3 ht
          refine ⟨seg, g1, by rw [e1]; exact g2, ?_⟩
          rcases g3 with g3 | ⟨t, a1, a2, a3, a4⟩
          · exact Or.inl ⟨by rw [e1]; exact g3, by rw [e2]; simp⟩
          · exact Or.inr ⟨t, sp, fmt2, h1, h2, hscan, hty, a1, a2, a3, by rw [e1]; exact a4,
              by rw [e2]; simp⟩
  · rw [if_neg h1] at h
    by_cases h3 : deref st.fmt ≠ deref st.mutStr.rest
    · rw [if_pos h3] at h
      simp only [Step.state?, Option.some.injEq] at h
      obtain ⟨a, b, c, e⟩ := hsame st1 (by rw [← h]) (by rw [← h])
      exact ⟨[], a, b, Or.inl ⟨c, e⟩⟩
    · rw [if_neg h3] at h
      simp only [Step.state?, Option.some.injEq] at h
      obtain ⟨d, a, b, c, e⟩ := hadv st1 (by rw [← h]) (by rw [← h])
      exact ⟨[d], a, b, Or.inl ⟨c, e⟩⟩

/-- The relation between the buffer the call was given and the cursor is kept by every
pass through the loop body, however the pass ends. -/
theorem frame_step (w : Nat) (orig : List Char) (st st1 : State) (hF : Frame orig st)
    (h : (loopBody w st).state? = some st1) (hin : deref st.mutStr.rest ≠ '\x00') :
    Frame orig st1 := by
  obtain ⟨o1, f1, f2, f3, f4⟩ := hF
  obtain ⟨seg, g1, g2, g3⟩ := loopBody_cursor w st st1 h hin
  have hlen := f2.length_eq
  refine ⟨o1 ++ seg, by rw [f1, g2, List.append_assoc], ?_, ?_, ?_⟩
  · rcases g3 with ⟨a1, -⟩ | ⟨t, sp, fmt2, -, -, -, -, c0, -, cseg, cpre, -⟩
    · rw [a1]
      exact List.rel_append f2 (byteKept_refl seg)
    · rw [cpre, cseg, List.append_assoc]
      refine List.rel_append f2 (List.rel_append (byteKept_refl t) ?_)
      exact List.Forall₂.cons (Or.inr ⟨rfl, c0⟩) List.Forall₂.nil
  · intro x hx
    rcases List.mem_append.1 hx with hx | hx
    · exact f3 x hx
    · exact g1 x hx
  · rcases g3 with ⟨a1, a2⟩ | ⟨t, sp, fmt2, -, -, -, -, -, -, cseg, cpre, cspecs⟩
    · rw [a1, changes_append _ _ _ _ hlen, changes_self]
      omega
    · rw [cpre, cseg, List.append_assoc, changes_append _ _ _ _ hlen,
        changes_append _ _ _ _ rfl, changes_self, cspecs]
      have := changes_singleton (deref fmt2) '\x00'
      omega

theorem cstr_append_of_no_nul (l r : List Char) (h : ∀ x ∈ l, x ≠ '\x00') :
    cstr (l ++ r) = l ++ cstr r := by
  induction l with
  | nil => rfl
  | cons a l ih =>
    rw [List.cons_append, cstr_cons_of_ne a _ (h a (List.mem_cons_self _ _)),
      ih (fun x hx => h x (List.mem_cons_of_mem _ hx)), List.cons_append]

/-- Every state in which a call ends stands in the frame relation to the buffer the call
was given. -/
theorem vstrsepf_frame (w : Nat) (mutStr fmt : List Char) (arg : List (Option Nat)) :
    ∃ st, (vstrsepf w (some mutStr) (some fmt) arg).state? = some st ∧ Frame mutStr st := by
  have hinit : Frame mutStr (initState mutStr fmt arg) :=
    ⟨[], rfl, List.Forall₂.nil, fun x hx => (by cases hx), Nat.le_refl _⟩
  have hstep : ∀ st st1, Frame mutStr st → deref st.mutStr.rest ≠ '\x00' →
      deref st.fmt ≠ '\x00' → loopBody w st = .next st1 → Frame mutStr st1 :=
    fun st st1 hP hin _ hb => frame_step w mutStr st st1 hP (by rw [hb]; rfl) hin
  have hall := vstrsepfLoop_cases w (Frame mutStr) hstep (fmt.length + 1)
    (initState mutStr fmt arg) hinit (Nat.lt_succ_self _)
  have hrun : vstrsepf w (some mutStr) (some fmt) arg =
      vstrsepfLoop w (fmt.length + 1) (initState mutStr fmt arg) := rfl
  rw [hrun]
  generalize vstrsepfLoop w (fmt.length + 1) (initState mutStr fmt arg) = res at hall ⊢
  obtain ⟨st2, hF, hcase⟩ := hall
  rcases hcase with ⟨-, rfl⟩ | ⟨hin, -, ⟨rc1, st3, hb, rfl⟩ | ⟨st3, hb, rfl⟩⟩
  · exact ⟨st2, rfl, hF⟩
  · exact ⟨st3, rfl, frame_step w mutStr st2 st3 hF (by rw [hb]; rfl) hin⟩
  · exact ⟨st3, rfl, frame_step w mutStr st2 st3 hF (by rw [hb]; rfl) hin⟩

/-- C22. A call leaves a buffer of the length it was given, in which every byte is the
one the caller gave or a NUL in the place of another character; no more bytes differ than
specifiers have been processed; and the bytes from the end of the original string on are
unchanged. A pass through the loop body leaves the buffer as it is, unless it is the pass
of a specifier behind which the format goes on with a terminator that occurs in what is
left of the input: then the first occurrence of the terminator, and nothing else, is
replaced by NUL. So the matching of a literal, `%%` and a specifier that ends the format
change nothing. -/
theorem buffer_frame (w : Nat) (mutStr fmt : List Char) (arg : List (Option Nat)) :
    (∃ st, (vstrsepf w (some mutStr) (some fmt) arg).state? = some st ∧
      st.mutStr.buffer.length = mutStr.length ∧
      List.Forall₂ ByteKept mutStr st.mutStr.buffer ∧
      changes mutStr st.mutStr.buffer ≤ st.specs.length ∧
      st.mutStr.buffer.drop (strlen mutStr) = mutStr.drop (strlen mutStr)) ∧
    ∀ st st1, (loopBody w st).state? = some st1 → deref st.mutStr.rest ≠ '\x00' →
      st1.mutStr.buffer = st.mutStr.buffer ∨
      ∃ t r sp fmt2, deref st.fmt = '%' ∧ deref st.fmt.tail ≠ '%' ∧
        scanSpecifier w (st.fmt.tail.length + 1) st.fmt.tail ⟨'\x00', false, 0⟩ =
          .done sp fmt2 ∧
        sp.specifierType ≠ '\x00' ∧ deref fmt2 ≠ '\x00' ∧ deref fmt2 ∉ t ∧
        st.mutStr.rest = t ++ deref fmt2 :: r ∧
        st1.mutStr.buffer = st.mutStr.pre ++ t ++ '\x00' :: r ∧
        st1.specs.length = st.specs.length + 1 := by
  constructor
  · obtain ⟨st, hst, o1, f1, f2, f3, f4⟩ := vstrsepf_frame w mutStr fmt arg
    have hlen := f2.length_eq
    refine ⟨st, hst, ?_, ?_, ?_, ?_⟩
    · rw [f1]; simp [Cursor.buffer, hlen]
    · rw [f1]
      exact List.rel_append f2 (byteKept_refl _)
    · rw [f1, Cursor.buffer, changes_append _ _ _ _ hlen, changes_self]
      omega
    · have hs : strlen mutStr = o1.length + strlen st.mutStr.rest := by
        rw [f1, strlen, cstr_append_of_no_nul _ _ f3, List.length_append]
        rfl
      rw [hs]
      conv_rhs => rw [f1, List.drop_append]
      rw [hlen, Cursor.buffer, List.drop_append]
  · intro st st1 h hin
    obtain ⟨seg, -, g2, g3⟩ := loopBody_cursor w st st1 h hin
    rcases g3 with ⟨a1, -⟩ | ⟨t, sp, fmt2, c1, c2, c3, c4, c5, c6, cseg, cpre, cspecs⟩
    · left
      rw [Cursor.buffer, Cursor.buffer, a1, g2, List.append_assoc]
    · right
      refine ⟨t, st1.mutStr.rest, sp, fmt2, c1, c2, c3, c4, c5, c6, ?_, ?_, cspecs⟩
      · rw [g2, cseg]; simp
      · rw [Cursor.buffer, cpre]; simp

theorem buffer_frame_witness :
    ((vstrsepf 64 (some "192.168.0.13".toList) (some "%d.%d.%d.%d".toList)
        [some 0, some 1, some 2, some 3]).buffer = "192\x00168\x000\x0013".toList ∧
      changes "192.168.0.13".toList
        (vstrsepf 64 (some "192.168.0.13".toList) (some "%d.%d.%d.%d".toList)
          [some 0, some 1, some 2, some 3]).buffer = 3 ∧
      (vstrsepf 64 (some "a%b-c".toList) (some "a%%%s".toList) [some 0]).buffer =
        "a%b-c".toList ∧
      (vstrsepf 64 (some "ab,,cd".toList) (some "%*s,%s,%d".toList) [some 0, some 1]).buffer =
        "ab\x00\x00cd".toList) ∧
    ∃ st, (vstrsepf 64 (some "192.168.0.13".toList) (some "%d.%d.%d.%d".toList)
        [some 0, some 1, some 2, some 3]).state? = some st ∧
      st.mutStr.buffer.length = "192.168.0.13".toList.length ∧
      List.Forall₂ ByteKept "192.168.0.13".toList st.mutStr.buffer ∧
      changes "192.168.0.13".toList st.mutStr.buffer ≤ st.specs.length ∧
      st.mutStr.buffer.drop (strlen "192.168.0.13".toList) =
        "192.168.0.13".toList.drop (strlen "192.168.0.13".toList) :=
  ⟨by decide,
    (buffer_frame 64 "192.168.0.13".toList "%d.%d.%d.%d".toList
      [some 0, some 1, some 2, some 3]).1⟩

/-! ### The tokens that the unsigned converter accepts -/

theorem takeWhile_append_drop_length {p : Char → Bool} (l : List Char) :
    l.takeWhile p ++ l.drop (l.takeWhile p).length = l := by
  induction l with
  | nil => rfl
  | cons a l ih =>
    by_cases h : p a = true
    · rw [List.takeWhile_cons_of_pos h]
      simp only [List.length_cons, List.drop_succ_cons, List.cons_append, ih]
    · rw [List.takeWhile_cons_of_neg h]
      rfl

theorem deref_drop_takeWhile {p : Char → Bool} (l : List Char) (h0 : p '\x00' = false) :
    p (deref (l.drop (l.takeWhile p).length)) = false := by
  induction l with
  | nil => exact h0
  | cons a l ih =>
    by_cases h : p a = true
    · rw [List.takeWhile_cons_of_pos h]
      simpa only [List.length_cons, List.drop_succ_cons] using ih
    · rw [List.takeWhile_cons_of_neg h]
      simpa [deref] using h

/-- The sign that `strtoul` reads is the empty string, `-` or `+`. -/
theorem strtoulSign_spec (s : List Char) :
    ∃ sg, s = sg ++ s.drop (strtoulSign s).2 ∧ strtoulSign s = (decide (sg = ['-']), sg.length) ∧
      (sg = [] ∨ sg = ['-'] ∨ sg = ['+']) := by
  by_cases h1 : deref s = '-'
  · cases s with
    | nil => exact absurd h1 (by decide)
    | cons c s =>
      have : c = '-' := h1
      subst this
      exact ⟨['-'], rfl, rfl, Or.inr (Or.inl rfl)⟩
  · by_cases h2 : deref s = '+'
    · cases s with
      | nil => exact absurd h2 (by decide)
      | cons c s =>
        have : c = '+' := h2
        subst this
        exact ⟨['+'], rfl, rfl, Or.inr (Or.inr rfl)⟩
    · cases s with
      | nil => exact ⟨[], rfl, rfl, Or.inl rfl⟩
      | cons c s =>
        have e := strtoulSign_cons c s h1 h2
        refine ⟨[], ?_, ?_, Or.inl rfl⟩
        · rw [e]; rfl
        · rw [e]; rfl

/-- What `strtoul` reads as the `0x` of base 16 is the empty string, `0x` or `0X`. -/
theorem strtoulHex_spec (base : Nat) (s : List Char) :
    ∃ hx, s = hx ++ s.drop (strtoulHex base s) ∧ strtoulHex base s = hx.length ∧
      (hx = [] ∨ (base = 16 ∧ (hx = ['0', 'x'] ∨ hx = ['0', 'X']) ∧
        isDigitOf 16 (deref (s.drop (strtoulHex base s))) = true)) := by
  by_cases h : strtoulHex base s = 0
  · exact ⟨[], by rw [h]; rfl, by rw [h]; rfl, Or.inl rfl⟩
  · unfold strtoulHex at h ⊢
    split at h
    · rename_i x d r
      split_ifs at h with hc
      · obtain ⟨c1, c2, c3⟩ := hc
        rw [if_pos ⟨c1, c2, c3⟩]
        refine ⟨['0', x], rfl, rfl, Or.inr ⟨c1, ?_, c3⟩⟩
        rcases c2 with rfl | rfl
        · exact Or.inl rfl
        · exact Or.inr rfl
      · exact absurd rfl h
    · exact absurd rfl h

/-- The result of `strtoul` on white space, a sign, the `0x` of base 16, a run of digits
and something that is not a digit. -/
theorem strtoul_of_parts (w base : Nat) (ws sg hx ds t : List Char) (hb : 2 ≤ base)
    (hb36 : base ≤ 36) (hws : ∀ c ∈ ws, isspace c = true)
    (hsg : sg = [] ∨ sg = ['-'] ∨ sg = ['+'])
    (hhx : (hx = [] ∧ strtoulHex base (ds ++ t) = 0) ∨
      (base = 16 ∧ (hx = ['0', 'x'] ∨ hx = ['0', 'X'])))
    (hne : ds ≠ []) (hds : ∀ c ∈ ds, isDigitOf base c = true)
    (ht : isDigitOf base (deref t) = false) :
    strtoul w (ws ++ (sg ++ (hx ++ (ds ++ t)))) base =
      if digitsValue base ds > ULONG_MAX w then
        ⟨ULONG_MAX w, (ws ++ (sg ++ (hx ++ ds))).length, true⟩
      else
        ⟨if sg = ['-'] then (2 ^ w - digitsValue base ds) % 2 ^ w else digitsValue base ds,
          (ws ++ (sg ++ (hx ++ ds))).length, false⟩ := by
  obtain ⟨d, ds1, rfl⟩ := List.exists_cons_of_ne_nil hne
  have hf := digit_facts hb36 (hds d (by simp))
  have hhead : ∀ c, (hx ++ (d :: ds1 ++ t)).head? = some c →
      isspace c = false ∧ c ≠ '-' ∧ c ≠ '+' := by
    intro c hc
    rcases hhx with ⟨rfl, -⟩ | ⟨-, rfl | rfl⟩
    · simp only [List.nil_append, List.cons_append, List.head?_cons, Option.some.injEq] at hc
      subst hc
      exact ⟨hf.1, hf.2.1, hf.2.2.1⟩
    · simp only [List.cons_append, List.head?_cons, Option.some.injEq] at hc
      subst hc
      decide
    · simp only [List.cons_append, List.head?_cons, Option.some.injEq] at hc
      subst hc
      decide
  have hsp : (ws ++ (sg ++ (hx ++ (d :: ds1 ++ t)))).takeWhile isspace = ws := by
    apply takeWhile_run ws _ hws
    intro c hc
    rcases hsg with rfl | rfl | rfl
    · exact (hhead c hc).1
    · simp only [List.cons_append, List.head?_cons, Option.some.injEq] at hc
      subst hc
      decide
    · simp only [List.cons_append, List.head?_cons, Option.some.injEq] at hc
      subst hc
      decide
  have hsign : strtoulSign (sg ++ (hx ++ (d :: ds1 ++ t))) = (decide (sg = ['-']), sg.length) := by
    rcases hsg with rfl | rfl | rfl
    · obtain ⟨c, r, hr⟩ : ∃ c r, hx ++ (d :: ds1 ++ t) = c :: r := by
        rcases hhx with ⟨rfl, -⟩ | ⟨-, rfl | rfl⟩ <;> exact ⟨_, _, rfl⟩
      rw [List.nil_append, hr]
      have hc := hhead c (by rw [hr]; rfl)
      rw [strtoulSign_cons c r hc.2.1 hc.2.2]
      rfl
    · rfl
    · rfl
  have hhex : strtoulHex base (hx ++ (d :: ds1 ++ t)) = hx.length := by
    rcases hhx with ⟨rfl, h0⟩ | ⟨rfl, rfl | rfl⟩
    · exact h0
    · have e : strtoulHex 16 ('0' :: 'x' :: d :: (ds1 ++ t)) =
          if 16 = 16 ∧ ('x' = 'x' ∨ 'x' = 'X') ∧ isDigitOf 16 d = true then 2 else 0 := rfl
      rw [if_pos ⟨rfl, Or.inl rfl, hds d (by simp)⟩] at e
      exact e
    · have e : strtoulHex 16 ('0' :: 'X' :: d :: (ds1 ++ t)) =
          if 16 = 16 ∧ ('X' = 'x' ∨ 'X' = 'X') ∧ isDigitOf 16 d = true then 2 else 0 := rfl
      rw [if_pos ⟨rfl, Or.inr rfl, hds d (by simp)⟩] at e
      exact e
  have htw := takeWhile_run (p := isDigitOf base) (d :: ds1) t hds (head?_of_deref ht)
  unfold strtoul
  rw [if_neg (by omega)]
  simp only [hsp, List.drop_left, hsign, hhex, htw]
  rw [if_neg (by simp)]
  by_cases hv : digitsValue base (d :: ds1) > ULONG_MAX w
  · rw [if_pos hv, if_pos hv]
    simp only [List.length_append, Nat.add_assoc]
  · rw [if_neg hv, if_neg hv]
    simp only [List.length_append, Nat.add_assoc, decide_eq_true_eq]

/-- When `strtoul` consumes something, the string is white space, a sign, the `0x` of
base 16, a run of digits that is not empty and something that is not a digit. -/
theorem strtoul_split (w base : Nat) (b : List Char) (h : (strtoul w b base).consumed ≠ 0) :
    2 ≤ base ∧ base ≤ 36 ∧ ∃ ws sg hx ds t, b = ws ++ (sg ++ (hx ++ (ds ++ t))) ∧
      (∀ c ∈ ws, isspace c = true) ∧ (sg = [] ∨ sg = ['-'] ∨ sg = ['+']) ∧
      ((hx = [] ∧ strtoulHex base (ds ++ t) = 0) ∨
        (base = 16 ∧ (hx = ['0', 'x'] ∨ hx = ['0', 'X']))) ∧
      ds ≠ [] ∧ (∀ c ∈ ds, isDigitOf base c = true) ∧ isDigitOf base (deref t) = false := by
  by_cases hbase : base < 2 ∨ 36 < base
  · exfalso
    apply h
    unfold strtoul
    rw [if_pos hbase]
  · have hb : 2 ≤ base := by omega
    have hb36 : base ≤ 36 := by omega
    refine ⟨hb, hb36, ?_⟩
    obtain ⟨s1, hs1⟩ : ∃ s1, s1 = b.drop (b.takeWhile isspace).length := ⟨_, rfl⟩
    obtain ⟨sg, hsg1, hsg2, hsg3⟩ := strtoulSign_spec s1
    obtain ⟨s2, hs2⟩ : ∃ s2, s2 = s1.drop (strtoulSign s1).2 := ⟨_, rfl⟩
    obtain ⟨hx, hhx1, hhx2, hhx3⟩ := strtoulHex_spec base s2
    obtain ⟨s3, hs3⟩ : ∃ s3, s3 = s2.drop (strtoulHex base s2) := ⟨_, rfl⟩
    have hdig : s3.takeWhile (isDigitOf base) ≠ [] := by
      intro e
      apply h
      unfold strtoul
      rw [if_neg hbase]
      simp only [← hs1, ← hs2, ← hs3, e, if_true]
    have e3 := takeWhile_append_drop_length (p := isDigitOf base) s3
    have e0 := takeWhile_append_drop_length (p := isspace) b
    rw [← hs1] at e0
    rw [← hs2] at hsg1
    rw [← hs3] at hhx1 hhx3
    refine ⟨b.takeWhile isspace, sg, hx, s3.takeWhile (isDigitOf base),
      s3.drop (s3.takeWhile (isDigitOf base)).length, ?_, ?_, hsg3, ?_, hdig, ?_, ?_⟩
    · rw [e3, ← hhx1, ← hsg1, e0]
    · intro c hc
      exact (List.mem_takeWhile_imp hc)
    · rw [e3]
      rcases hhx3 with rfl | ⟨c1, c2, -⟩
      · left
        refine ⟨rfl, ?_⟩
        have e : s3 = s2 := hhx1.symm
        rw [e]
        exact hhx2
      · exact Or.inr ⟨c1, c2⟩
    · intro c hc
      exact (List.mem_takeWhile_imp hc)
    · exact deref_drop_takeWhile s3 (not_isDigitOf_nul hb36)

/-- The classification by `strtou32_s` of a string of which `strtoul` consumes the part
`pre`. -/
theorem strtou32_s_of_strtoul (w base : Nat) (pre t : List Char) (e0 : Int) (val : Nat)
    (er : Bool) (hbase : base ≠ 0) (hpre : pre ≠ [])
    (h : strtoul w (pre ++ t) base = ⟨val, pre.length, er⟩) :
    strtou32_s w (some (pre ++ t)) base (some e0) =
      (toUInt32 val,
        some (if deref t ≠ '\x00' then STRSEPF_RESULT_ERR_STRTOI_EXTRA_CHAR
          else if er = true ∨ val > UINT32_MAX then STRSEPF_RESULT_ERR_STRTOI_OUT_OF_RANGE
          else STRSEPF_RESULT_OK)) := by
  have hlen : pre.length ≠ 0 := by simpa using hpre
  simp only [strtou32_s]
  rw [if_neg hbase, h]
  simp only [List.drop_left, if_neg hlen]
  by_cases hz : deref t = '\x00'
  · cases er <;> by_cases hv : val > UINT32_MAX <;> simp [hz, hv]
  · simp [hz, Ne.symm hz, eq_comm]

/-- A run of digits with nothing after it does not start with the `0x` of base 16. -/
theorem strtoulHex_run (base : Nat) (ds t : List Char) (hne : ds ≠ [])
    (hds : ∀ c ∈ ds, isDigitOf base c = true) (ht : deref t = '\x00') :
    strtoulHex base (ds ++ t) = 0 := by
  obtain ⟨hx, h1, h2, h3⟩ := strtoulHex_spec base (ds ++ t)
  rcases h3 with rfl | ⟨hb, hx2, -⟩
  · exact h2
  · exfalso
    subst hb
    obtain ⟨x, hx3, rfl⟩ : ∃ x, (x = 'x' ∨ x = 'X') ∧ hx = ['0', x] := by
      rcases hx2 with rfl | rfl
      · exact ⟨'x', Or.inl rfl, rfl⟩
      · exact ⟨'X', Or.inr rfl, rfl⟩
    obtain ⟨d, ds1, rfl⟩ := List.exists_cons_of_ne_nil hne
    cases ds1 with
    | nil =>
      cases t with
      | nil => simp at h1
      | cons c t =>
        simp only [List.cons_append, List.nil_append, List.cons.injEq] at h1
        have hc : c = '\x00' := ht
        rw [hc] at h1
        rcases hx3 with rfl | rfl
        · exact absurd h1.2.1 (by decide)
        · exact absurd h1.2.1 (by decide)
    | cons d2 ds2 =>
      simp only [List.cons_append, List.nil_append, List.cons.injEq] at h1
      have hd2 := hds d2 (by simp)
      rw [h1.2.1] at hd2
      rcases hx3 with rfl | rfl
      · exact absurd hd2 (by decide)
      · exact absurd hd2 (by decide)

/-- C21. The tokens for which `strtou32_s` reports `STRSEPF_RESULT_OK` are those of the
form: white space (possibly none), an optional sign `-` or `+`, in base 16 an optional `0x`
or `0X`, at least one digit of the base, and nothing after the digits; whose digits have a
value of at most `ULONG_MAX` and whose value, negated in the type `unsigned long` when the
sign is `-`, is at most `UINT32_MAX`. That value is what is returned. So a character
that is left after the digits is always an error, and a leading sign or white space never
is one in itself. -/
theorem unsigned_token_grammar (w base : Nat) (b : List Char) (e0 : Int) (v : Nat) :
    strtou32_s w (some b) base (some e0) = (v, some STRSEPF_RESULT_OK) ↔
      2 ≤ base ∧ base ≤ 36 ∧ ∃ ws sg hx ds t, b = ws ++ (sg ++ (hx ++ (ds ++ t))) ∧
        (∀ c ∈ ws, isspace c = true) ∧ (sg = [] ∨ sg = ['-'] ∨ sg = ['+']) ∧
        (hx = [] ∨ (base = 16 ∧ (hx = ['0', 'x'] ∨ hx = ['0', 'X']))) ∧
        ds ≠ [] ∧ (∀ c ∈ ds, isDigitOf base c = true) ∧ deref t = '\x00' ∧
        digitsValue base ds ≤ ULONG_MAX w ∧
        v = (if sg = ['-'] then (2 ^ w - digitsValue base ds) % 2 ^ w
          else digitsValue base ds) ∧
        v ≤ UINT32_MAX := by
  have hU : UINT32_MAX = 4294967295 := rfl
  have hassoc : ∀ ws sg hx ds t : List Char,
      ws ++ (sg ++ (hx ++ (ds ++ t))) = (ws ++ (sg ++ (hx ++ ds))) ++ t := by
    intro ws sg hx ds t
    simp only [List.append_assoc]
  constructor
  · intro h
    have hbase : base ≠ 0 := by
      intro e
      subst e
      simp only [strtou32_s, if_true, Prod.mk.injEq, Option.some.injEq] at h
      exact absurd h.2 (by decide)
    have hc : (strtoul w b base).consumed ≠ 0 := by
      intro e
      simp only [strtou32_s, if_neg hbase, e, if_true, Prod.mk.injEq, Option.some.injEq] at h
      exact absurd h.2 (by decide)
    obtain ⟨hb, hb36, ws, sg, hx, ds, t, rfl, hws, hsg, hhx, hne, hds, ht⟩ :=
      strtoul_split w base b hc
    have key := strtoul_of_parts w base ws sg hx ds t hb hb36 hws hsg hhx hne hds ht
    have hpre : ws ++ (sg ++ (hx ++ ds)) ≠ [] := by simp [hne]
    rw [hassoc] at h key
    obtain ⟨val, hval⟩ : ∃ val, val = (if sg = ['-'] then (2 ^ w - digitsValue base ds) % 2 ^ w
        else digitsValue base ds) := ⟨_, rfl⟩
    rw [← hval] at key
    by_cases hv : digitsValue base ds > ULONG_MAX w
    · rw [if_pos hv] at key
      rw [strtou32_s_of_strtoul w base _ t e0 _ _ hbase hpre key] at h
      simp only [Prod.mk.injEq, Option.some.injEq] at h
      exfalso
      have h2 := h.2
      by_cases c1 : deref t ≠ '\x00'
      · rw [if_pos c1] at h2
        exact absurd h2 (by decide)
      · rw [if_neg c1, if_pos (Or.inl trivial)] at h2
        exact absurd h2 (by decide)
    · rw [if_neg hv] at key
      rw [strtou32_s_of_strtoul w base _ t e0 _ _ hbase hpre key] at h
      simp only [Prod.mk.injEq, Option.some.injEq] at h
      obtain ⟨h1, h2⟩ := h
      by_cases c1 : deref t ≠ '\x00'
      · rw [if_pos c1] at h2
        exact absurd h2 (by decide)
      · rw [if_neg c1] at h2
        by_cases c2 : val > UINT32_MAX
        · rw [if_pos (Or.inr c2)] at h2
          exact absurd h2 (by decide)
        · have hz : deref t = '\x00' := not_not.1 c1
          have hv2 : v = val := by
            rw [← h1, toUInt32]
            exact Nat.mod_eq_of_lt (by omega)
          refine ⟨hb, hb36, ws, sg, hx, ds, t, rfl, hws, hsg, ?_, hne, hds,
            hz, by omega, by rw [hv2, hval], by omega⟩
          rcases hhx with ⟨e, -⟩ | e
          · exact Or.inl e
          · exact Or.inr e
  · rintro ⟨hb, hb36, ws, sg, hx, ds, t, rfl, hws, hsg, hhx, hne, hds, hz, hn, hval, hle⟩
    have hbase : base ≠ 0 := by omega
    have ht : isDigitOf base (deref t) = false := by
      rw [hz]
      exact not_isDigitOf_nul hb36
    have hhx2 : (hx = [] ∧ strtoulHex base (ds ++ t) = 0) ∨
        (base = 16 ∧ (hx = ['0', 'x'] ∨ hx = ['0', 'X'])) := by
      rcases hhx with e | e
      · exact Or.inl ⟨e, strtoulHex_run base ds t hne hds hz⟩
      · exact Or.inr e
    have key := strtoul_of_parts w base ws sg hx ds t hb hb36 hws hsg hhx2 hne hds ht
    have hpre : ws ++ (sg ++ (hx ++ ds)) ≠ [] := by simp [hne]
    rw [hassoc] at key ⊢
    rw [if_neg (by omega)] at key
    rw [strtou32_s_of_strtoul w base _ t e0 _ _ hbase hpre key, ← hval]
    have hmod : toUInt32 v = v := Nat.mod_eq_of_lt (by omega)
    rw [hmod, if_neg (not_not.2 hz), if_neg]
    rintro (e | e)
    · exact absurd e (by decide)
    · omega

theorem unsigned_token_grammar_witness :
    strtou32_s 64 (some " +12".toList) 10 (some 0) = (12, some STRSEPF_RESULT_OK) ∧
    strtou32_s 32 (some "\t-0x5".toList) 16 (some 0) = (4294967291, some STRSEPF_RESULT_OK) :=
  ⟨(unsigned_token_grammar 64 10 " +12".toList 0 12).2
      ⟨by decide, by decide, [' '], ['+'], [], ['1', '2'], [], rfl, by decide, by decide,
        by decide, by decide, by decide, by decide, by decide, by decide, by decide⟩,
    (unsigned_token_grammar 32 16 "\t-0x5".toList 0 4294967291).2
      ⟨by decide, by decide, ['\t'], ['-'], ['0', 'x'], ['5'], [], rfl, by decide, by decide,
        by decide, by decide, by decide, by decide, by decide, by decide, by decide⟩⟩

/-- A leading sign or white space does not make `strtou32_s` report an error, and a
token with a minus sign is accepted through `%u`, `%x`, `%o` and `%b`. -/
theorem unsigned_token_sign_accepted :
    strtou32_s 64 (some "+12".toList) 10 (some 0) = (12, some STRSEPF_RESULT_OK) ∧
    strtou32_s 64 (some " 12".toList) 10 (some 0) = (12, some STRSEPF_RESULT_OK) ∧
    strtou32_s 64 (some "-0".toList) 10 (some 0) = (0, some STRSEPF_RESULT_OK) ∧
    strtou32_s 64 (some "-18446744073709551615".toList) 10 (some 0) =
      (1, some STRSEPF_RESULT_OK) ∧
    strtou32_s 32 (some "-5".toList) 10 (some 0) = (4294967291, some STRSEPF_RESULT_OK) ∧
    (∃ st, vstrsepf 64 (some "+12".toList) (some "%u".toList) [some 0] = .returned 1 st ∧
      st.stores = [(0, .u32 12)]) ∧
    (∃ st, vstrsepf 64 (some " 12".toList) (some "%u".toList) [some 0] = .returned 1 st ∧
      st.stores = [(0, .u32 12)]) ∧
    (∃ st, vstrsepf 64 (some "-0".toList) (some "%u".toList) [some 0] = .returned 1 st ∧
      st.stores = [(0, .u32 0)]) ∧
    (∃ st, vstrsepf 64 (some "-18446744073709551615".toList) (some "%u".toList) [some 0] =
        .returned 1 st ∧ st.stores = [(0, .u32 1)]) ∧
    (∃ st, vstrsepf 32 (some "-5".toList) (some "%u".toList) [some 0] = .returned 1 st ∧
      st.stores = [(0, .u32 4294967291)]) ∧
    (∃ st, vstrsepf 32 (some "-0x1F".toList) (some "%x".toList) [some 0] = .returned 1 st ∧
      st.stores = [(0, .u32 4294967265)]) ∧
    (∃ st, vstrsepf 32 (some "-17".toList) (some "%o".toList) [some 0] = .returned 1 st ∧
      st.stores = [(0, .u32 4294967281)]) ∧
    (∃ st, vstrsepf 32 (some "-101".toList) (some "%b".toList) [some 0] = .returned 1 st ∧
      st.stores = [(0, .u32 4294967291)]) := by
  refine ⟨by decide, by decide, by decide, by decide, by decide, ⟨_, rfl, by decide⟩,
    ⟨_, rfl, by decide⟩, ⟨_, rfl, by decide⟩, ⟨_, rfl, by decide⟩, ⟨_, rfl, by decide⟩,
    ⟨_, rfl, by decide⟩, ⟨_, rfl, by decide⟩, ⟨_, rfl, by decide⟩⟩

end Strsepf
